import Mathlib

/-!
# RadShot: capture state machine and bitmap transcoding

A shallow embedding of `src/radshot.cpp` (the capture protocol of
`StartCapture` / `UpdateCapture` / `SerialDisconnect`, the image store, and the
bitmap pipeline `GetPixel` / `SetPixel` / `ProcessBitmap`), followed by the
theorems that settle the claims of the specification.

Conventions of the embedding

* A `uint8_t` buffer is an `Array Nat`; a buffer index is a C `int`, modelled as
  an `Int`.  Every memory access is checked: a read or write outside the buffer
  (undefined behaviour in C++) makes the embedded function return `none`.
* A conversion to `uint8_t` is written `% 256` where the source performs it.
* The C `int` fields of `AppState` are `Int`s.  Signed overflow is undefined in
  C++; the embedding covers the runs in which these values stay in range, and
  `int_fields_in_range` shows that they do as long as fewer than `2^31 - 2`
  captures have completed.
* Calls to the operating system are inputs (what the call returned) and
  outputs (the list of `LinkOp`s issued to the serial link).
-/

namespace RadShot

/-! ## Constants (radshot.cpp, lines 44-55) -/

def DISPLAY_WIDTH : Nat := 128
def DISPLAY_HEIGHT : Nat := 64
def BITMAP_SIZE : Nat := 1024
def SCREENSHOT_CMD : Array Nat := #[0x41, 0x41]
def PREVIEW_SCALE : Nat := 4
def MAX_RETRIES : Int := 100
def COLOR_LIGHT : Array Nat := #[0xDE, 0xEB, 0xFF, 0xFF]
def COLOR_DARK : Array Nat := #[0x00, 0x00, 0x00, 0xFF]

/-! ## Memory -/

/-- Read `buf[i]`; `none` when the index is outside the buffer. -/
def load (buf : Array Nat) (i : Int) : Option Nat :=
  if 0 ≤ i then buf[i.toNat]? else none

/-- Write `buf[i] = v`; `none` when the index is outside the buffer. -/
def store (buf : Array Nat) (i : Int) (v : Nat) : Option (Array Nat) :=
  if h : 0 ≤ i ∧ i.toNat < buf.size then some (buf.set ⟨i.toNat, h.2⟩ v) else none

/-- The loop `for (int i = 0; i < n; i++) body`, threading the state `s`. -/
def forLoop {σ : Type} (n : Nat) (body : Nat → σ → Option σ) (s : σ) : Option σ :=
  (List.range n).foldlM (fun st i => body i st) s

/-- The call `memcpy(dst + off, src, n)`: bytes `src[0..n)` go to `dst[off..off+n)`. -/
def memcpy (dst : Array Nat) (off : Int) (src : Array Nat) (n : Int) : Option (Array Nat) :=
  if n < 0 then none
  else forLoop n.toNat (fun k d => do
    let v ← load src (k : Int)
    store d (off + (k : Int)) v) dst

/-! ## Bitmap processing (radshot.cpp, lines 260-305)

Pixel coordinates are the loop counters of `ProcessBitmap`, hence natural
numbers; index arithmetic is done in `Int` as in the source. -/

/-- Source: `return (bitmap[x + ((y / 8) * DISPLAY_WIDTH)] >> (y & 7)) & 1;` -/
def GetPixel (bitmap : Array Nat) (x y : Nat) : Option Nat := do
  let b ← load bitmap ((x : Int) + (((y / 8 : Nat) : Int) * (DISPLAY_WIDTH : Int)))
  pure ((b >>> (y &&& 7)) &&& 1)

/-- Source: `buffer[(x / 8) + ((DISPLAY_HEIGHT - 1 - y) * 16)] |= (color << (7 - (x & 7)));`
the result of the `|` is an `int`, converted to `uint8_t` by the assignment. -/
def SetPixel (buffer : Array Nat) (x y color : Nat) : Option (Array Nat) := do
  let i : Int := ((x / 8 : Nat) : Int) + (((DISPLAY_HEIGHT : Int) - 1 - (y : Int)) * 16)
  let old ← load buffer i
  store buffer i ((old ||| (color <<< (7 - (x &&& 7)))) % 256)

/-- The first loop nest of `ProcessBitmap` (lines 270-275): the device layout is
repacked into the zero-initialised local buffer `processed`. -/
def repack (raw : Array Nat) : Option (Array Nat) :=
  forLoop DISPLAY_HEIGHT (fun y processed =>
    forLoop DISPLAY_WIDTH (fun x processed => do
      let c ← GetPixel raw x y
      SetPixel processed x y c) processed) (mkArray BITMAP_SIZE 0)

/-- The body of the second loop nest of `ProcessBitmap` (lines 283-302) for the
source pixel `(sx, sy)`; the state is the pair `(rgba_preview, rgba_thumb)`. -/
def renderPixel (processed : Array Nat) (sx sy : Nat) (st : Array Nat × Array Nat) :
    Option (Array Nat × Array Nat) := do
  let preview_w : Nat := DISPLAY_WIDTH * PREVIEW_SCALE
  let byte_idx : Int := ((sx / 8 : Nat) : Int) + (((DISPLAY_HEIGHT : Int) - 1 - (sy : Int)) * 16)
  let bit_idx : Nat := 7 - (sx &&& 7)
  let b ← load processed byte_idx
  let pixel : Nat := (b >>> bit_idx) &&& 1
  let color : Array Nat := if pixel ≠ 0 then COLOR_DARK else COLOR_LIGHT
  let thumb_idx : Nat := (sy * DISPLAY_WIDTH + sx) * 4
  let thumb ← memcpy st.2 (thumb_idx : Int) color 4
  let preview ← forLoop PREVIEW_SCALE (fun py pv =>
    forLoop PREVIEW_SCALE (fun px pv =>
      let preview_x : Nat := sx * PREVIEW_SCALE + px
      let preview_y : Nat := sy * PREVIEW_SCALE + py
      let preview_idx : Nat := (preview_y * preview_w + preview_x) * 4
      memcpy pv (preview_idx : Int) color 4) pv) st.1
  pure (preview, thumb)

/-- The second loop nest of `ProcessBitmap` (lines 281-304). -/
def render (processed : Array Nat) (st : Array Nat × Array Nat) :
    Option (Array Nat × Array Nat) :=
  forLoop DISPLAY_HEIGHT (fun sy st =>
    forLoop DISPLAY_WIDTH (fun sx st => renderPixel processed sx sy st) st) st

/-- Source: `void ProcessBitmap(const uint8_t* raw, uint8_t* rgba_preview, uint8_t* rgba_thumb)`.
The two output buffers are passed with their prior contents; the result is the
pair `(rgba_preview, rgba_thumb)` after the call. -/
def ProcessBitmap (raw rgba_preview rgba_thumb : Array Nat) :
    Option (Array Nat × Array Nat) := do
  let processed ← repack raw
  render processed (rgba_preview, rgba_thumb)

/-! ## Application state (radshot.cpp, lines 65-179) -/

/-- An operation issued to the serial link through the Win32 API. -/
inductive LinkOp where
  /-- `CreateFileA` on the port path, exclusive, read and write. -/
  | open (port : String)
  /-- `GetCommState`. -/
  | getState
  /-- `SetCommState` with the line parameters. -/
  | setState (baud dataBits : Nat)
  /-- `SetCommTimeouts`. -/
  | setTimeouts (writeTotalConstant : Nat)
  /-- `PurgeComm` with the flags `PURGE_RXCLEAR` (`rx`) and `PURGE_TXCLEAR` (`tx`). -/
  | purge (rx tx : Bool)
  /-- `WriteFile` of the given bytes. -/
  | write (payload : Array Nat)
  /-- `FlushFileBuffers`. -/
  | flush
  /-- `ReadFile` of at most `max` bytes. -/
  | read (max : Nat)
  /-- `CloseHandle`. -/
  | close
  deriving DecidableEq, Repr

/-- The fields of `struct Screenshot` that the program computes itself; the
texture handles and the timestamp come from OpenGL and the clock. -/
structure Screenshot where
  id : Int
  name : String
  raw_bitmap : Array Nat
  rgba_preview : Array Nat
  rgba_thumb : Array Nat
  deriving DecidableEq, Repr

/-- The serial, capture and screenshot fields of `struct AppState`, together
with `rename_buffer` and `last_port_name`.  `serial_handle = none` stands for
`INVALID_HANDLE_VALUE`; the defaults are the default member initialisers
(`g_state` has static storage, so `capture_buffer` starts zeroed). -/
structure AppState where
  com_ports : List String := []
  selected_port : Int := -1
  serial_handle : Option Nat := none
  is_connected : Bool := false
  status_message : String := "Disconnected"
  is_capturing : Bool := false
  capture_progress : Int := 0
  capture_buffer : Array Nat := mkArray BITMAP_SIZE 0
  capture_bytes : Int := 0
  capture_retries : Int := 0
  screenshots : List Screenshot := []
  next_id : Int := 1
  selected_screenshot : Int := -1
  rename_buffer : String := ""
  last_port_name : String := ""
  deriving DecidableEq, Repr

/-- The state `g_state` at program start. -/
def initState : AppState := {}

/-- What `CreateFileA`, `GetCommState` and `SetCommState` answered in `SerialConnect`. -/
inductive ConnectOutcome where
  | openFailed
  | getStateFailed (handle : Nat)
  | setStateFailed (handle : Nat)
  | configured (handle : Nat)
  deriving DecidableEq, Repr

/-- What `WriteFile` answered: its return value and `written`. -/
structure WriteResult where
  ok : Bool
  written : Nat
  deriving DecidableEq, Repr

/-- What `ReadFile` answered: its return value and the bytes it delivered. -/
structure ReadResult where
  ok : Bool
  data : Array Nat
  deriving DecidableEq, Repr

/-- The text that `printf` produces for `%03d`. -/
def fmt03d (n : Int) : String :=
  if n < 0 then
    let d := toString n.natAbs
    "-" ++ String.mk (List.replicate (2 - d.length) '0') ++ d
  else
    let d := toString n.toNat
    String.mk (List.replicate (3 - d.length) '0') ++ d

/-! ## Serial port functions (radshot.cpp, lines 364-491) -/

/-- Source: `bool SerialConnect(const char* portName)`; port names are ASCII,
`snprintf` and `strncpy` cut the text at the size of the destination. -/
def SerialConnect (s : AppState) (portName : String) (out : ConnectOutcome) :
    AppState × Bool × List LinkOp :=
  let fullPath := ("\\\\.\\" ++ portName).take 31
  match out with
  | .openFailed =>
    ({ s with serial_handle := none
              status_message := ("Failed to open " ++ portName).take 255 },
      false, [.open fullPath])
  | .getStateFailed _ =>
    ({ s with serial_handle := none, status_message := "Failed to get port state" },
      false, [.open fullPath, .getState, .close])
  | .setStateFailed _ =>
    ({ s with serial_handle := none, status_message := "Failed to configure port" },
      false, [.open fullPath, .getState, .setState 115200 8, .close])
  | .configured h =>
    ({ s with serial_handle := some h
              is_connected := true
              last_port_name := portName.take 31
              status_message := ("Connected to " ++ portName).take 255 },
      true, [.open fullPath, .getState, .setState 115200 8, .setTimeouts 1000,
             .purge true true])

/-- Source: `void SerialDisconnect()`. -/
def SerialDisconnect (s : AppState) : AppState × List LinkOp :=
  ({ s with serial_handle := none
            is_connected := false
            is_capturing := false
            status_message := "Disconnected" },
    if s.serial_handle ≠ none then [.close] else [])

/-- Source: `void StartCapture()`.  `wr` is what `WriteFile` answers; the source
does not look at it.  `capture_buffer` is declared `uint8_t[BITMAP_SIZE]`, so
the `memset` over `BITMAP_SIZE` bytes zeroes all of it. -/
def StartCapture (s : AppState) (wr : WriteResult) : AppState × List LinkOp :=
  if !s.is_connected || s.is_capturing then (s, [])
  else
    let _written := wr.written
    ({ s with is_capturing := true
              capture_bytes := 0
              capture_retries := 0
              capture_progress := 0
              capture_buffer := mkArray BITMAP_SIZE 0 },
      [.purge true true, .write SCREENSHOT_CMD, .flush])

/-- The block of `UpdateCapture` that builds the new screenshot (lines 459-481).
`Screenshot()` zeroes `raw_bitmap`; the two `new uint8_t[..]` buffers are given
zero contents here (`ProcessBitmap` overwrites every byte of them). -/
def finishCapture (s : AppState) : Option AppState := do
  let id := s.next_id
  let name := "screenshot_" ++ fmt03d id
  let raw_bitmap ← memcpy (mkArray BITMAP_SIZE 0) 0 s.capture_buffer (BITMAP_SIZE : Int)
  let preview_w := DISPLAY_WIDTH * PREVIEW_SCALE
  let preview_h := DISPLAY_HEIGHT * PREVIEW_SCALE
  let out ← ProcessBitmap raw_bitmap (mkArray (preview_w * preview_h * 4) 0)
    (mkArray (DISPLAY_WIDTH * DISPLAY_HEIGHT * 4) 0)
  let ss : Screenshot :=
    { id := id, name := name, raw_bitmap := raw_bitmap
      rgba_preview := out.1, rgba_thumb := out.2 }
  let screenshots := s.screenshots ++ [ss]
  pure { s with next_id := id + 1
                screenshots := screenshots
                selected_screenshot := (screenshots.length : Int) - 1
                rename_buffer := name
                is_capturing := false }

/-- Source: `void UpdateCapture()`, one poll.  `rd` is what `ReadFile` answers
when it is called; at most `sizeof(temp) = 256` bytes are delivered. -/
def UpdateCapture (s : AppState) (rd : ReadResult) : Option (AppState × List LinkOp) :=
  if !s.is_capturing then some (s, [])
  else
    let temp : Array Nat := rd.data.extract 0 256
    let bytesRead : Nat := temp.size
    if rd.ok && decide (bytesRead > 0) then do
      let toCopy : Int := min (bytesRead : Int) ((BITMAP_SIZE : Int) - s.capture_bytes)
      let capture_buffer ← memcpy s.capture_buffer s.capture_bytes temp toCopy
      let capture_bytes := s.capture_bytes + toCopy
      let s1 : AppState :=
        { s with capture_buffer := capture_buffer
                 capture_bytes := capture_bytes
                 capture_progress := (capture_bytes * 100).tdiv (BITMAP_SIZE : Int)
                 capture_retries := 0 }
      if capture_bytes ≥ (BITMAP_SIZE : Int) then do
        let s2 ← finishCapture s1
        pure (s2, [.read 256])
      else pure (s1, [.read 256])
    else
      let capture_retries := s.capture_retries + 1
      if capture_retries ≥ MAX_RETRIES then
        some ({ s with capture_retries := capture_retries
                       status_message := "Timeout: " ++ toString s.capture_bytes ++ "/"
                         ++ toString BITMAP_SIZE ++ " bytes"
                       is_capturing := false }, [.read 256])
      else some ({ s with capture_retries := capture_retries }, [.read 256])

/-! ## Image store (radshot.cpp, lines 644-668 and 769-813) -/

/-- Source: `void DeleteSelected()`; `none` when `selected_screenshot` is past
the end of the vector (an out-of-bounds access in the source). -/
def DeleteSelected (s : AppState) : Option AppState :=
  if s.selected_screenshot < 0 then some s
  else if s.selected_screenshot.toNat < s.screenshots.length then
    let screenshots := s.screenshots.eraseIdx s.selected_screenshot.toNat
    let selected : Int :=
      if s.selected_screenshot ≥ (screenshots.length : Int) then (screenshots.length : Int) - 1
      else s.selected_screenshot
    let rename_buffer : Option String :=
      if selected ≥ 0 then (screenshots[selected.toNat]?).map (fun ss => ss.name)
      else some ""
    rename_buffer.map (fun rb =>
      { s with screenshots := screenshots, selected_screenshot := selected, rename_buffer := rb })
  else none

/-- Source: `void ClearAll()`. -/
def ClearAll (s : AppState) : AppState :=
  { s with screenshots := [], selected_screenshot := -1, rename_buffer := "" }

/-- The gallery button of `RenderUI` (lines 769-773) for the thumbnail `i`. -/
def SelectScreenshot (s : AppState) (i : Nat) : Option AppState :=
  (s.screenshots[i]?).map (fun ss =>
    { s with selected_screenshot := (i : Int), rename_buffer := ss.name })

/-- The `Rename` button of `RenderUI` (lines 801-813). -/
def RenameSelected (s : AppState) : Option AppState :=
  if s.selected_screenshot ≥ 0 then
    if s.selected_screenshot.toNat < s.screenshots.length then
      if s.rename_buffer.length > 0 then
        let screenshots := s.screenshots.modify
          (fun ss => { ss with name := s.rename_buffer }) s.selected_screenshot.toNat
        some { s with screenshots := screenshots }
      else some s
    else none
  else some s

/-! ## Runs -/

/-- What the host loop and the user interface can do to the state. -/
inductive Action where
  | connect (portName : String) (out : ConnectOutcome)
  | disconnect
  | start (wr : WriteResult)
  | poll (rd : ReadResult)
  | deleteSelected
  | clearAll
  | select (i : Nat)
  | editRename (text : String)
  | rename
  deriving DecidableEq, Repr

/-- One action; `none` when the interface does not offer it in this state (the
`Connect` button exists only while disconnected, lines 715-720) or when the
source would access memory out of bounds. -/
def step (s : AppState) : Action → Option AppState
  | .connect portName out =>
    if s.is_connected then none else some (SerialConnect s portName out).1
  | .disconnect => some (SerialDisconnect s).1
  | .start wr => some (StartCapture s wr).1
  | .poll rd => (UpdateCapture s rd).map (fun r => r.1)
  | .deleteSelected => DeleteSelected s
  | .clearAll => some (ClearAll s)
  | .select i => SelectScreenshot s i
  | .editRename text => some { s with rename_buffer := text.take 255 }
  | .rename => RenameSelected s

/-- The states that a run of the program can be in. -/
inductive Reachable : AppState → Prop where
  | init : Reachable initState
  | step {s s1 : AppState} (a : Action) : Reachable s → step s a = some s1 → Reachable s1

/-- The given polls one after the other. -/
def polls (s : AppState) (rds : List ReadResult) : Option AppState :=
  rds.foldlM (fun st rd => (UpdateCapture st rd).map (fun r => r.1)) s



/-! ## Specification vocabulary -/

/-- Bit of pixel `(x, y)` in the canonical layout (0 when outside the buffer). -/
def cbit (p : Array Nat) (x y : Nat) : Bool :=
  ((p[x / 8 + (63 - y) * 16]?).getD 0).testBit (7 - x % 8)

/-- Bit of pixel `(x, y)` in the device layout (0 when outside the buffer). -/
def rbit (raw : Array Nat) (x y : Nat) : Bool :=
  ((raw[x + y / 8 * 128]?).getD 0).testBit (y % 8)

/-- The colour that `ProcessBitmap` picks for the pixel `(x, y)` of `processed`. -/
def pixelColor (processed : Array Nat) (x y : Nat) : Array Nat :=
  if cbit processed x y then COLOR_DARK else COLOR_LIGHT

/-- The state after a successful `SerialConnect` to `COM3` at program start. -/
def exampleConnected : AppState := (SerialConnect initState "COM3" (.configured 1)).1

/-- The state after `StartCapture` in `exampleConnected`. -/
def exampleCapturing : AppState := (StartCapture exampleConnected ⟨true, 2⟩).1

/-- The state after one poll in `exampleCapturing` that delivered five zero bytes. -/
def examplePartial : AppState :=
  { exampleCapturing with capture_bytes := 5, capture_progress := 0 }

/-- What every run keeps true of the capture fields: the buffer has its declared
size, `0 ≤ capture_bytes ≤ 1024` with `< 1024` while capturing, and
`capture_progress` is the percentage of `capture_bytes`. -/
def CaptureInv (s : AppState) : Prop :=
  s.capture_buffer.size = 1024 ∧ 0 ≤ s.capture_bytes ∧ s.capture_bytes ≤ 1024 ∧
  (s.is_capturing = true → s.capture_bytes < 1024) ∧
  s.capture_progress = s.capture_bytes * 100 / 1024

/-- The selection is "none" (`-1`) on an empty store and an index into the
store otherwise. -/
def SelectionInv (s : AppState) : Prop :=
  (s.screenshots = [] ∧ s.selected_screenshot = -1) ∨
  (0 ≤ s.selected_screenshot ∧ s.selected_screenshot < (s.screenshots.length : Int))

/-- The ids of the stored images are at least 1, below `next_id`, and strictly
increasing along the list. -/
def IdInv (s : AppState) : Prop :=
  1 ≤ s.next_id ∧ (∀ ss ∈ s.screenshots, 1 ≤ ss.id ∧ ss.id < s.next_id) ∧
  List.Pairwise (fun a b : Screenshot => a.id < b.id) s.screenshots

/-- A poll from `s` to `t` that completes a capture: the session was Capturing
and the poll brought `capture_bytes` to 1024. -/
def completesCapture (s : AppState) (a : Action) (t : AppState) : Prop :=
  ∃ rd, a = Action.poll rd ∧ s.is_capturing = true ∧ t.capture_bytes = 1024

/-- `Run n s`: a run of the program from the initial state reaches `s`, and
exactly `n` captures have completed in it. -/
inductive Run : Nat → AppState → Prop where
  | init : Run 0 initState
  | other {n : Nat} {s t : AppState} (a : Action) :
      Run n s → step s a = some t → ¬ completesCapture s a t → Run n t
  | complete {n : Nat} {s t : AppState} (a : Action) :
      Run n s → step s a = some t → completesCapture s a t → Run (n + 1) t

/-- A store with two images, the second one selected. -/
def exampleStore : AppState :=
  { initState with screenshots := [⟨1, "screenshot_001", #[], #[], #[]⟩,
                                   ⟨2, "screenshot_002", #[], #[], #[]⟩]
                   selected_screenshot := 1
                   next_id := 3 }

/-- The bytes that `ReadFile` hands to `UpdateCapture` over the given polls, in
order: for each poll whose read succeeded, the (at most 256) bytes it
delivered. -/
def received : List ReadResult → List Nat
  | [] => []
  | rd :: rds => (if rd.ok then (rd.data.extract 0 256).toList else []) ++ received rds

/-- The session is Capturing and the first `capture_bytes` bytes of the
accumulation buffer are exactly `acc`, fewer than 1024 bytes. -/
def Accumulated (acc : List Nat) (s : AppState) : Prop :=
  s.is_capturing = true ∧ s.capture_buffer.size = 1024 ∧
  s.capture_bytes = (acc.length : Int) ∧ acc.length < 1024 ∧
  ∀ j, j < acc.length → s.capture_buffer[j]? = acc[j]?

/-- The retry count lies between 0 and `MAX_RETRIES` and stays below
`MAX_RETRIES` while the session is Capturing. -/
def RetryInv (s : AppState) : Prop :=
  0 ≤ s.capture_retries ∧ s.capture_retries ≤ 100 ∧
  (s.is_capturing = true → s.capture_retries < 100)

/-- The quantity `(1024 - capture_bytes) * 100 - capture_retries`. -/
def captureMeasure (s : AppState) : Int :=
  (1024 - s.capture_bytes) * 100 - s.capture_retries

/-! ## Port enumeration (radshot.cpp, lines 323-362) -/

/-- The C library's `isspace` in the "C" locale: space and the characters 9 to 13. -/
def isspace (ch : Char) : Bool :=
  ch.toNat = 32 || (9 ≤ ch.toNat && ch.toNat ≤ 13)

/-- The digit loop of `atoi`: it stops at the first character that is no digit. -/
def atoiDigits : Int → List Char → Int
  | acc, [] => acc
  | acc, ch :: rest =>
    if ch.isDigit then atoiDigits (acc * 10 + ((ch.toNat - 48 : Nat) : Int)) rest else acc

/-- The C library's `atoi` on the characters of a C string: leading white space
is skipped, an optional sign is read, then the digits.  The mathematical value
is returned; a value outside `int` is undefined behaviour in C. -/
def atoi (str : List Char) : Int :=
  match str.dropWhile isspace with
  | '-' :: rest => - atoiDigits 0 rest
  | '+' :: rest => atoiDigits 0 rest
  | rest => atoiDigits 0 rest

/-- The operand of the comparator: `atoi(a.c_str() + 3)`. -/
def portNumber (a : String) : Int := atoi (a.toList.drop 3)

/-- The comparator of the sort in `EnumerateComPorts` (lines 359-361):
`atoi(a.c_str() + 3) < atoi(b.c_str() + 3)`. -/
def portLess (a b : String) : Bool := decide (portNumber a < portNumber b)

/-- The call `std::sort(first, last, comp)`.  The C++ standard fixes its result
up to the order of the elements that `comp` does not tell apart; the embedding
sorts by insertion, which keeps them in their input order. -/
def stdSort {α : Type} (comp : α → α → Bool) (l : List α) : List α :=
  l.insertionSort (fun a b => comp b a = false)

/-- Source: `void EnumerateComPorts()`.  `devices` is what the device registry
answers: `none` when `SetupDiGetClassDevs` fails, otherwise for each enumerated
device its `PortName` value (`none` when the key or the value cannot be read).
`strncmp(portName, "COM", 3) == 0` keeps the names whose first three
characters are `COM`. -/
def EnumerateComPorts (s : AppState) (devices : Option (List (Option String))) : AppState :=
  match devices with
  | none => { s with com_ports := [] }
  | some devs =>
    let com_ports := devs.filterMap (fun dev =>
      dev.bind (fun portName =>
        if portName.toList.take 3 = ['C', 'O', 'M'] then some portName else none))
    { s with com_ports := stdSort portLess com_ports }

/-- The number that a list of decimal digit characters denotes. -/
def decimalValue (ds : List Char) : Nat :=
  Nat.ofDigits 10 ((ds.map (fun ch => ch.toNat - 48)).reverse)

/-- The values of a 32-bit C `int`. -/
def inIntRange (x : Int) : Prop := -2147483648 ≤ x ∧ x ≤ 2147483647

/-! ## Example runs with completed captures: states -/

/-- A read that delivered 256 bytes, all `0xFF`. -/
def exampleChunk : ReadResult := ⟨true, mkArray 256 0xFF⟩

/-- The state after three polls in `exampleCapturing` that delivered
`exampleChunk` each (`initState` stands in if a poll were undefined). -/
def exampleThreeChunks : AppState :=
  (polls exampleCapturing [exampleChunk, exampleChunk, exampleChunk]).getD initState

/-- The state after a fourth such poll, which completes the first capture. -/
def exampleOneImage : AppState :=
  (polls exampleCapturing [exampleChunk, exampleChunk, exampleChunk, exampleChunk]).getD
    initState

/-- The state after `StartCapture` in `exampleOneImage` and three polls that
delivered `exampleChunk` each. -/
def exampleSecondThreeChunks : AppState :=
  (polls (StartCapture exampleOneImage ⟨true, 2⟩).1
    [exampleChunk, exampleChunk, exampleChunk]).getD initState

/-- The state after a fourth such poll, which completes the second capture. -/
def exampleTwoImages : AppState :=
  (polls (StartCapture exampleOneImage ⟨true, 2⟩).1
    [exampleChunk, exampleChunk, exampleChunk, exampleChunk]).getD initState

/-- The state after `Clear All` in `exampleTwoImages`, a new `StartCapture` and
three polls that delivered `exampleChunk` each. -/
def exampleThirdThreeChunks : AppState :=
  (polls (StartCapture (ClearAll exampleTwoImages) ⟨true, 2⟩).1
    [exampleChunk, exampleChunk, exampleChunk]).getD initState

/-- The state after a fourth such poll, which completes the third capture. -/
def exampleAfterClear : AppState :=
  (polls (StartCapture (ClearAll exampleTwoImages) ⟨true, 2⟩).1
    [exampleChunk, exampleChunk, exampleChunk, exampleChunk]).getD initState

/-! ## Memory lemmas -/

theorem load_natCast (buf : Array Nat) (n : Nat) : load buf (n : Int) = buf[n]? := by
  simp [load]

theorem load_eq_some_iff (buf : Array Nat) (i : Int) (v : Nat) :
    load buf i = some v ↔ 0 ≤ i ∧ buf[i.toNat]? = some v := by
  unfold load
  split <;> simp_all

/-- An access outside the buffer makes `load` and `store` fail. -/
theorem load_store_out_of_bounds (buf : Array Nat) (i : Int)
    (h : i < 0 ∨ (buf.size : Int) ≤ i) :
    load buf i = none ∧ ∀ v, store buf i v = none := by
  constructor
  · unfold load
    split
    · exact Array.getElem?_eq_none_iff.mpr (by omega)
    · rfl
  · intro v
    unfold store
    rw [dif_neg (by omega)]

theorem store_eq_some (buf : Array Nat) (i : Int) (v : Nat) (h0 : 0 ≤ i)
    (h1 : i.toNat < buf.size) : store buf i v = some (buf.set ⟨i.toNat, h1⟩ v) := by
  unfold store
  rw [dif_pos ⟨h0, h1⟩]

theorem store_natCast (buf : Array Nat) (n v : Nat) (h : n < buf.size) :
    store buf (n : Int) v = some (buf.set ⟨n, h⟩ v) := by
  rw [store_eq_some buf (n : Int) v (by omega) (by simpa using h)]
  simp

theorem forLoop_zero {σ : Type} (body : Nat → σ → Option σ) (s : σ) :
    forLoop 0 body s = some s := by
  simp [forLoop]

theorem forLoop_succ {σ : Type} (n : Nat) (body : Nat → σ → Option σ) (s : σ) :
    forLoop (n + 1) body s = (forLoop n body s).bind (body n) := by
  simp [forLoop, List.range_succ, List.foldlM_append]

/-- Loop rule: an invariant that holds at entry and is kept by every iteration
holds at exit, and the loop does return. -/
theorem forLoop_inv {σ : Type} (Inv : Nat → σ → Prop) (n : Nat)
    (body : Nat → σ → Option σ) (s : σ) (h0 : Inv 0 s)
    (hstep : ∀ i st, i < n → Inv i st → ∃ st1, body i st = some st1 ∧ Inv (i + 1) st1) :
    ∃ out, forLoop n body s = some out ∧ Inv n out := by
  induction n with
  | zero => exact ⟨s, forLoop_zero body s, h0⟩
  | succ k ih =>
    obtain ⟨mid, hmid, hinv⟩ := ih (fun i st hi h => hstep i st (by omega) h)
    obtain ⟨out, hout, hinv1⟩ := hstep k mid (by omega) hinv
    exact ⟨out, by rw [forLoop_succ, hmid]; exact hout, hinv1⟩

theorem memcpy_spec (dst src : Array Nat) (off n : Nat) (h1 : n ≤ src.size)
    (h2 : off + n ≤ dst.size) :
    ∃ d, memcpy dst (off : Int) src (n : Int) = some d ∧ d.size = dst.size ∧
      ∀ j, d[j]? = if off ≤ j ∧ j < off + n then src[j - off]? else dst[j]? := by
  unfold memcpy
  rw [if_neg (by omega)]
  simp only [Int.toNat_ofNat]
  refine forLoop_inv (fun k d => d.size = dst.size ∧
      ∀ j, d[j]? = if off ≤ j ∧ j < off + k then src[j - off]? else dst[j]?) n _ dst
      ⟨rfl, fun j => by rw [if_neg (by omega)]⟩ ?_
  intro k d hk ⟨hsz, hd⟩
  have hks : k < src.size := by omega
  have hod : off + k < d.size := by omega
  refine ⟨d.set ⟨off + k, hod⟩ src[k], ?_, by simp [hsz], ?_⟩
  · rw [load_natCast, Array.getElem?_eq_getElem hks]
    have : ((off : Int) + (k : Int)) = ((off + k : Nat) : Int) := by push_cast; rfl
    simp only [Option.bind_eq_bind, Option.some_bind, this]
    exact store_natCast d (off + k) src[k] hod
  · intro j
    rw [Array.get?_set, hd j]
    by_cases hj : off + k = j
    · subst hj
      simp [Array.getElem?_eq_getElem hks]
    · simp only [hj, if_false]
      by_cases hlt : off ≤ j ∧ j < off + k
      · rw [if_pos hlt, if_pos (by omega)]
      · rw [if_neg hlt, if_neg (by omega)]

/-! ## Bitmap lemmas -/

theorem shiftRight_and_one (b k : Nat) : (b >>> k) &&& 1 = (b.testBit k).toNat := by
  rw [Nat.and_one_is_mod, Nat.shiftRight_eq_div_pow, Nat.toNat_testBit]

theorem and_seven (x : Nat) : x &&& 7 = x % 8 :=
  Nat.and_pow_two_sub_one_eq_mod x 3

/-- The byte update of `SetPixel` sets bit `k` to `c` when it was clear and
leaves the other seven bits as they were. -/
theorem testBit_setPixel_byte (old : Nat) (c : Bool) (k j : Nat) (hj : j < 8) :
    ((old ||| (c.toNat <<< k)) % 256).testBit j
      = (old.testBit j || (decide (j = k) && c)) := by
  have h256 : (256 : Nat) = 2 ^ 8 := by norm_num
  rw [h256, Nat.testBit_mod_two_pow, Nat.testBit_or, Nat.testBit_shiftLeft]
  cases c with
  | false => simp [hj]
  | true =>
    simp only [Bool.toNat_true, hj, decide_True, Bool.true_and, Bool.and_true]
    by_cases hjk : j = k
    · subst hjk; simp
    · by_cases hge : j ≥ k
      · have : j - k ≠ 0 := by omega
        simp [hjk, Nat.testBit_one_eq_true_iff_self_eq_zero, this]
      · simp [hjk, hge]

theorem GetPixel_spec (raw : Array Nat) (x y : Nat) (h : x + y / 8 * 128 < raw.size) :
    GetPixel raw x y = some ((raw[x + y / 8 * 128]).testBit (y % 8)).toNat := by
  unfold GetPixel
  have hi : ((x : Int) + (((y / 8 : Nat) : Int) * (DISPLAY_WIDTH : Int)))
      = ((x + y / 8 * 128 : Nat) : Int) := by
    simp [DISPLAY_WIDTH]
  rw [hi, load_natCast, Array.getElem?_eq_getElem h, and_seven]
  simp only [Option.bind_eq_bind, Option.some_bind, shiftRight_and_one]
  rfl


theorem SetPixel_cbit (p : Array Nat) (hsz : p.size = 1024) (X Y : Nat) (hX : X < 128)
    (hY : Y < 64) (c : Bool) (hclear : cbit p X Y = false) :
    ∃ q, SetPixel p X Y c.toNat = some q ∧ q.size = 1024 ∧
      ∀ x y, x < 128 → y < 64 → cbit q x y = if x = X ∧ y = Y then c else cbit p x y := by
  have hi : X / 8 + (63 - Y) * 16 < p.size := by omega
  have hidx : ((X / 8 : Nat) : Int) + (((DISPLAY_HEIGHT : Int) - 1 - (Y : Int)) * 16)
      = ((X / 8 + (63 - Y) * 16 : Nat) : Int) := by
    simp only [DISPLAY_HEIGHT]; omega
  refine ⟨p.set ⟨X / 8 + (63 - Y) * 16, hi⟩
      ((p[X / 8 + (63 - Y) * 16] ||| (c.toNat <<< (7 - X % 8))) % 256), ?_, by simp [hsz], ?_⟩
  · unfold SetPixel
    simp only [hidx, load_natCast, Array.getElem?_eq_getElem hi, Option.bind_eq_bind,
      Option.some_bind, and_seven]
    exact store_natCast p _ _ hi
  · intro x y hx hy
    unfold cbit at hclear ⊢
    rw [Array.get?_set]
    by_cases hb : X / 8 + (63 - Y) * 16 = x / 8 + (63 - y) * 16
    · have hyY : y = Y := by omega
      subst hyY
      simp only [hb, if_true, Option.getD_some]
      have hb2 : x / 8 + (63 - y) * 16 < p.size := by omega
      rw [testBit_setPixel_byte _ _ _ _ (by omega)]
      rw [Array.getElem?_eq_getElem hb2, Option.getD_some]
      by_cases hxX : x = X
      · subst hxX
        rw [Array.getElem?_eq_getElem hb2, Option.getD_some] at hclear
        simp [hclear]
      · have : ¬ (7 - x % 8 = 7 - X % 8) := by omega
        simp [hxX, this]
    · have hne : ¬ (x = X ∧ y = Y) := by
        rintro ⟨rfl, rfl⟩; exact hb rfl
      simp only [Fin.val_mk, hb, if_false, hne]

theorem repack_spec (raw : Array Nat) (hraw : raw.size = 1024) :
    ∃ p, repack raw = some p ∧ p.size = 1024 ∧
      ∀ x y, x < 128 → y < 64 → cbit p x y = rbit raw x y := by
  unfold repack
  have houter := forLoop_inv (fun Y p => p.size = 1024 ∧
      ∀ x y, x < 128 → y < 64 → cbit p x y = (decide (y < Y) && rbit raw x y))
    DISPLAY_HEIGHT
    (fun y processed => forLoop DISPLAY_WIDTH (fun x processed => do
      let c ← GetPixel raw x y
      SetPixel processed x y c) processed) (mkArray BITMAP_SIZE 0)
    ⟨by simp [BITMAP_SIZE], fun x y hx hy => by
      simp [cbit, Array.getElem?_mkArray]
      split <;> simp⟩ ?_
  · obtain ⟨p, hp, hsz, hbits⟩ := houter
    refine ⟨p, hp, hsz, fun x y hx hy => ?_⟩
    rw [hbits x y hx hy]
    simp [DISPLAY_HEIGHT, hy]
  · intro Y p hY ⟨hsz, hbits⟩
    have hY64 : Y < 64 := hY
    have hinner := forLoop_inv (fun X q => q.size = 1024 ∧
        ∀ x y, x < 128 → y < 64 →
          cbit q x y = (decide (y < Y ∨ (y = Y ∧ x < X)) && rbit raw x y))
      DISPLAY_WIDTH (fun x processed => do
        let c ← GetPixel raw x Y
        SetPixel processed x Y c) p
      ⟨hsz, fun x y hx hy => by
        rw [hbits x y hx hy]
        congr 2
        simp⟩ ?_
    · obtain ⟨q, hq, hqsz, hqbits⟩ := hinner
      refine ⟨q, hq, hqsz, fun x y hx hy => ?_⟩
      rw [hqbits x y hx hy]
      congr 2
      simp only [DISPLAY_WIDTH, eq_iff_iff]
      omega
    · intro X q hX ⟨hqsz, hqbits⟩
      have hX128 : X < 128 := hX
      have hclear : cbit q X Y = false := by
        rw [hqbits X Y hX128 hY64]
        simp
      have hraw1 : X + Y / 8 * 128 < raw.size := by omega
      obtain ⟨r, hr, hrsz, hrbits⟩ :=
        SetPixel_cbit q hqsz X Y hX128 hY64 ((raw[X + Y / 8 * 128]).testBit (Y % 8)) hclear
      have hg := GetPixel_spec raw X Y hraw1
      refine ⟨r, ?_, hrsz, fun x y hx hy => ?_⟩
      · simp only [hg, Option.bind_eq_bind, Option.some_bind]
        exact hr
      · rw [hrbits x y hx hy]
        by_cases hxy : x = X ∧ y = Y
        · obtain ⟨rfl, rfl⟩ := hxy
          simp [rbit, Array.getElem?_eq_getElem (show x + y / 8 * 128 < raw.size by omega)]
        · rw [if_neg hxy, hqbits x y hx hy]
          congr 2
          simp only [eq_iff_iff]
          omega


theorem pixelColor_size (processed : Array Nat) (x y : Nat) :
    (pixelColor processed x y).size = 4 := by
  unfold pixelColor
  split <;> rfl

theorem memcpy4_spec (dst src : Array Nat) (off : Nat) (h1 : src.size = 4)
    (h2 : off + 4 ≤ dst.size) :
    ∃ d, memcpy dst (off : Int) src 4 = some d ∧ d.size = dst.size ∧
      ∀ j, d[j]? = if off ≤ j ∧ j < off + 4 then src[j - off]? else dst[j]? := by
  have h := memcpy_spec dst src off 4 (by omega) h2
  simpa using h

theorem renderPixel_spec (processed : Array Nat) (hp : processed.size = 1024)
    (sx sy : Nat) (hsx : sx < 128) (hsy : sy < 64) (st : Array Nat × Array Nat)
    (hpv : st.1.size = 524288) (hth : st.2.size = 32768) :
    ∃ out, renderPixel processed sx sy st = some out ∧
      out.1.size = 524288 ∧ out.2.size = 32768 ∧
      (∀ j, out.2[j]? = if j / 4 % 128 = sx ∧ j / 4 / 128 = sy
          then (pixelColor processed sx sy)[j % 4]? else st.2[j]?) ∧
      (∀ j, out.1[j]? = if j / 4 % 512 / 4 = sx ∧ j / 4 / 512 / 4 = sy
          then (pixelColor processed sx sy)[j % 4]? else st.1[j]?) := by
  have hi : sx / 8 + (63 - sy) * 16 < processed.size := by omega
  have hidx : ((sx / 8 : Nat) : Int) + (((DISPLAY_HEIGHT : Int) - 1 - (sy : Int)) * 16)
      = ((sx / 8 + (63 - sy) * 16 : Nat) : Int) := by
    simp only [DISPLAY_HEIGHT]; omega
  have hcol : (if (processed[sx / 8 + (63 - sy) * 16] >>> (7 - (sx &&& 7))) &&& 1 ≠ 0
      then COLOR_DARK else COLOR_LIGHT) = pixelColor processed sx sy := by
    unfold pixelColor cbit
    rw [Array.getElem?_eq_getElem hi, Option.getD_some, shiftRight_and_one, and_seven]
    cases (processed[sx / 8 + (63 - sy) * 16]).testBit (7 - sx % 8) <;> simp
  obtain ⟨th, hth1, hthsz, hthj⟩ := memcpy4_spec st.2 (pixelColor processed sx sy)
    ((sy * 128 + sx) * 4) (pixelColor_size _ _ _) (by omega)
  have hloop := forLoop_inv (fun PY pv => pv.size = 524288 ∧
      ∀ j, pv[j]? = if j / 4 % 512 / 4 = sx ∧ j / 4 / 512 / 4 = sy ∧ j / 4 / 512 % 4 < PY
        then (pixelColor processed sx sy)[j % 4]? else st.1[j]?)
    PREVIEW_SCALE (fun py pv =>
      forLoop PREVIEW_SCALE (fun px pv =>
        memcpy pv ((((sy * PREVIEW_SCALE + py) * (DISPLAY_WIDTH * PREVIEW_SCALE)
          + (sx * PREVIEW_SCALE + px)) * 4 : Nat) : Int) (pixelColor processed sx sy) 4) pv) st.1
    ⟨hpv, fun j => by rw [if_neg (by omega)]⟩ ?_
  · obtain ⟨pv, hpv1, hpvsz, hpvj⟩ := hloop
    refine ⟨(pv, th), ?_, hpvsz, by rw [hthsz, hth], ?_, ?_⟩
    · unfold renderPixel
      simp only [hidx, load_natCast, Array.getElem?_eq_getElem hi, Option.bind_eq_bind,
        Option.some_bind, hcol]
      have h128 : (sy * DISPLAY_WIDTH + sx) * 4 = (sy * 128 + sx) * 4 := rfl
      rw [h128, hth1]
      simp only [Option.some_bind, hpv1]
      rfl
    · intro j
      rw [hthj j]
      by_cases hc : j / 4 % 128 = sx ∧ j / 4 / 128 = sy
      · rw [if_pos hc, if_pos (by omega)]
        congr 1
        omega
      · rw [if_neg hc, if_neg (by omega)]
    · intro j
      rw [hpvj j]
      congr 1
      simp only [PREVIEW_SCALE, eq_iff_iff]
      omega
  · intro PY pv hPY ⟨hpvsz, hpvj⟩
    have hPY4 : PY < 4 := hPY
    have hin := forLoop_inv (fun PX q => q.size = 524288 ∧
        ∀ j, q[j]? = if j / 4 % 512 / 4 = sx ∧ j / 4 / 512 / 4 = sy ∧
            (j / 4 / 512 % 4 < PY ∨ (j / 4 / 512 % 4 = PY ∧ j / 4 % 512 % 4 < PX))
          then (pixelColor processed sx sy)[j % 4]? else st.1[j]?)
      PREVIEW_SCALE (fun px pv =>
        memcpy pv ((((sy * PREVIEW_SCALE + PY) * (DISPLAY_WIDTH * PREVIEW_SCALE)
          + (sx * PREVIEW_SCALE + px)) * 4 : Nat) : Int) (pixelColor processed sx sy) 4) pv
      ⟨hpvsz, fun j => by
        rw [hpvj j]
        congr 1
        simp only [eq_iff_iff]
        omega⟩ ?_
    · obtain ⟨q, hq, hqsz, hqj⟩ := hin
      refine ⟨q, hq, hqsz, fun j => ?_⟩
      rw [hqj j]
      congr 1
      simp only [PREVIEW_SCALE, eq_iff_iff]
      omega
    · intro PX q hPX ⟨hqsz, hqj⟩
      have hPX4 : PX < 4 := hPX
      obtain ⟨r, hr, hrsz, hrj⟩ := memcpy4_spec q (pixelColor processed sx sy)
        (((sy * 4 + PY) * 512 + (sx * 4 + PX)) * 4) (pixelColor_size _ _ _) (by omega)
      refine ⟨r, hr, by rw [hrsz, hqsz], fun j => ?_⟩
      rw [hrj j, hqj j]
      by_cases hc : ((sy * 4 + PY) * 512 + (sx * 4 + PX)) * 4 ≤ j ∧
          j < ((sy * 4 + PY) * 512 + (sx * 4 + PX)) * 4 + 4
      · rw [if_pos hc, if_pos (by omega)]
        congr 1
        omega
      · rw [if_neg hc]
        congr 1
        simp only [eq_iff_iff]
        omega


theorem render_spec (processed : Array Nat) (hp : processed.size = 1024)
    (st : Array Nat × Array Nat) (hpv : st.1.size = 524288) (hth : st.2.size = 32768) :
    ∃ out, render processed st = some out ∧
      out.1.size = 524288 ∧ out.2.size = 32768 ∧
      (∀ j, j < 32768 →
        out.2[j]? = (pixelColor processed (j / 4 % 128) (j / 4 / 128))[j % 4]?) ∧
      (∀ j, j < 524288 →
        out.1[j]? = (pixelColor processed (j / 4 % 512 / 4) (j / 4 / 512 / 4))[j % 4]?) := by
  unfold render
  have houter := forLoop_inv (fun SY (s : Array Nat × Array Nat) =>
      s.1.size = 524288 ∧ s.2.size = 32768 ∧
      (∀ j, s.2[j]? = if j / 4 / 128 < SY
        then (pixelColor processed (j / 4 % 128) (j / 4 / 128))[j % 4]? else st.2[j]?) ∧
      (∀ j, s.1[j]? = if j / 4 / 512 / 4 < SY
        then (pixelColor processed (j / 4 % 512 / 4) (j / 4 / 512 / 4))[j % 4]? else st.1[j]?))
    DISPLAY_HEIGHT (fun sy st =>
      forLoop DISPLAY_WIDTH (fun sx st => renderPixel processed sx sy st) st) st
    ⟨hpv, hth, fun j => by rw [if_neg (by omega)], fun j => by rw [if_neg (by omega)]⟩ ?_
  · obtain ⟨out, hout, h1, h2, hthj, hpvj⟩ := houter
    refine ⟨out, hout, h1, h2, fun j hj => ?_, fun j hj => ?_⟩
    · rw [hthj j, if_pos (by simp only [DISPLAY_HEIGHT]; omega)]
    · rw [hpvj j, if_pos (by simp only [DISPLAY_HEIGHT]; omega)]
  · intro SY s hSY ⟨hs1, hs2, hsth, hspv⟩
    have hSY64 : SY < 64 := hSY
    have hinner := forLoop_inv (fun SX (t : Array Nat × Array Nat) =>
        t.1.size = 524288 ∧ t.2.size = 32768 ∧
        (∀ j, t.2[j]? = if j / 4 / 128 < SY ∨ (j / 4 / 128 = SY ∧ j / 4 % 128 < SX)
          then (pixelColor processed (j / 4 % 128) (j / 4 / 128))[j % 4]? else st.2[j]?) ∧
        (∀ j, t.1[j]? = if j / 4 / 512 / 4 < SY ∨ (j / 4 / 512 / 4 = SY ∧ j / 4 % 512 / 4 < SX)
          then (pixelColor processed (j / 4 % 512 / 4) (j / 4 / 512 / 4))[j % 4]?
          else st.1[j]?))
      DISPLAY_WIDTH (fun sx st => renderPixel processed sx SY st) s
      ⟨hs1, hs2, fun j => by
        rw [hsth j]
        congr 1
        simp only [eq_iff_iff]
        omega, fun j => by
        rw [hspv j]
        congr 1
        simp only [eq_iff_iff]
        omega⟩ ?_
    · obtain ⟨t, ht, ht1, ht2, htth, htpv⟩ := hinner
      refine ⟨t, ht, ht1, ht2, fun j => ?_, fun j => ?_⟩
      · rw [htth j]
        congr 1
        simp only [DISPLAY_WIDTH, eq_iff_iff]
        omega
      · rw [htpv j]
        congr 1
        simp only [DISPLAY_WIDTH, eq_iff_iff]
        omega
    · intro SX t hSX ⟨ht1, ht2, htth, htpv⟩
      have hSX128 : SX < 128 := hSX
      obtain ⟨u, hu, hu1, hu2, huth, hupv⟩ :=
        renderPixel_spec processed hp SX SY hSX128 hSY64 t ht1 ht2
      refine ⟨u, hu, hu1, hu2, fun j => ?_, fun j => ?_⟩
      · rw [huth j, htth j]
        by_cases hc : j / 4 % 128 = SX ∧ j / 4 / 128 = SY
        · rw [if_pos hc, if_pos (by omega), hc.1, hc.2]
        · rw [if_neg hc]
          congr 1
          simp only [eq_iff_iff]
          omega
      · rw [hupv j, htpv j]
        by_cases hc : j / 4 % 512 / 4 = SX ∧ j / 4 / 512 / 4 = SY
        · rw [if_pos hc, if_pos (by omega), hc.1, hc.2]
        · rw [if_neg hc]
          congr 1
          simp only [eq_iff_iff]
          omega

/-- What `ProcessBitmap` computes: it returns, both buffers keep their size,
and every byte of both is the colour byte of the raw pixel it belongs to. -/
theorem ProcessBitmap_spec (raw pv th : Array Nat) (hraw : raw.size = 1024)
    (hpv : pv.size = 524288) (hth : th.size = 32768) :
    ∃ out, ProcessBitmap raw pv th = some out ∧
      out.1.size = 524288 ∧ out.2.size = 32768 ∧
      (∀ j, j < 32768 → out.2[j]? =
        (if rbit raw (j / 4 % 128) (j / 4 / 128) then COLOR_DARK else COLOR_LIGHT)[j % 4]?) ∧
      (∀ j, j < 524288 → out.1[j]? =
        (if rbit raw (j / 4 % 512 / 4) (j / 4 / 512 / 4)
          then COLOR_DARK else COLOR_LIGHT)[j % 4]?) := by
  obtain ⟨p, hp, hpsz, hbits⟩ := repack_spec raw hraw
  obtain ⟨out, hout, h1, h2, hthj, hpvj⟩ := render_spec p hpsz (pv, th) hpv hth
  refine ⟨out, ?_, h1, h2, fun j hj => ?_, fun j hj => ?_⟩
  · unfold ProcessBitmap
    simp only [hp, Option.bind_eq_bind, Option.some_bind]
    exact hout
  · rw [hthj j hj, pixelColor, hbits _ _ (by omega) (by omega)]
  · rw [hpvj j hj, pixelColor, hbits _ _ (by omega) (by omega)]

/-- Four consecutive bytes of a buffer, as a slice. -/
theorem extract4_eq (a col : Array Nat) (off : Nat) (ha : off + 4 ≤ a.size) (hc : col.size = 4)
    (h : ∀ k, k < 4 → a[off + k]? = col[k]?) : a.extract off (off + 4) = col := by
  apply Array.ext
  · rw [Array.size_extract, hc]; omega
  · intro i hi1 hi2
    rw [Array.getElem_extract]
    have hi : i < 4 := by omega
    have hk := h i hi
    have h1 : off + i < a.size := by omega
    rw [Array.getElem?_eq_getElem h1, Array.getElem?_eq_getElem hi2] at hk
    exact Option.some.inj hk

/-! ## Capture lemmas -/

/-- A poll that delivers nothing: `ReadFile` failed or returned zero bytes. -/
theorem UpdateCapture_empty (s : AppState) (rd : ReadResult) (hcap : s.is_capturing = true)
    (he : rd.ok = false ∨ rd.data.size = 0) :
    UpdateCapture s rd = some
      (if s.capture_retries + 1 ≥ 100 then
        { s with capture_retries := s.capture_retries + 1
                 status_message := "Timeout: " ++ toString s.capture_bytes ++ "/"
                   ++ toString BITMAP_SIZE ++ " bytes"
                 is_capturing := false }
       else { s with capture_retries := s.capture_retries + 1 }, [.read 256]) := by
  unfold UpdateCapture
  have hc : (rd.ok && decide ((rd.data.extract 0 256).size > 0)) = false := by
    rcases he with h | h
    · simp [h]
    · simp [Array.size_extract, h]
  simp only [hcap, hc, MAX_RETRIES]
  by_cases h100 : 100 ≤ s.capture_retries + 1 <;> simp [h100]

theorem UpdateCapture_idle (s : AppState) (rd : ReadResult) (hcap : s.is_capturing = false) :
    UpdateCapture s rd = some (s, []) := by
  unfold UpdateCapture
  simp [hcap]

theorem polls_nil (s : AppState) : polls s [] = some s := rfl

theorem polls_cons (s : AppState) (rd : ReadResult) (rds : List ReadResult) :
    polls s (rd :: rds) = ((UpdateCapture s rd).map (fun r => r.1)).bind (fun t => polls t rds) := by
  simp [polls, List.foldlM_cons]

theorem polls_append (s : AppState) (r1 r2 : List ReadResult) :
    polls s (r1 ++ r2) = (polls s r1).bind (fun t => polls t r2) := by
  simp [polls, List.foldlM_append]

theorem polls_idle (s : AppState) (rds : List ReadResult) (hcap : s.is_capturing = false) :
    polls s rds = some s := by
  induction rds with
  | nil => rfl
  | cons rd rest ih => rw [polls_cons, UpdateCapture_idle s rd hcap]; simpa using ih

/-- Fewer than 100 consecutive empty polls only count up `capture_retries`. -/
theorem polls_empty_lt (rds : List ReadResult)
    (he : ∀ rd ∈ rds, rd.ok = false ∨ rd.data.size = 0) :
    ∀ s : AppState, s.is_capturing = true → s.capture_retries + rds.length < 100 →
      polls s rds = some { s with capture_retries := s.capture_retries + rds.length } := by
  induction rds with
  | nil => intro s _ _; simp [polls_nil]
  | cons rd rest ih =>
    intro s hcap hlt
    have hlt1 : s.capture_retries + 1 + ((rest.length : Nat) : Int) < 100 := by
      simp only [List.length_cons] at hlt; push_cast at hlt; omega
    rw [polls_cons, UpdateCapture_empty s rd hcap (he rd (List.mem_cons_self _ _))]
    rw [if_neg (by omega)]
    simp only [Option.map_some', Option.some_bind]
    rw [ih (fun r hr => he r (List.mem_cons_of_mem _ hr))
      { s with capture_retries := s.capture_retries + 1 } hcap hlt1]
    simp only [List.length_cons]
    congr 2
    push_cast
    omega


/-- The empty poll that brings `capture_retries` to 100 ends the capture. -/
theorem polls_empty_eq (rds : List ReadResult)
    (he : ∀ rd ∈ rds, rd.ok = false ∨ rd.data.size = 0) :
    ∀ s : AppState, s.is_capturing = true → 0 < rds.length →
      s.capture_retries + rds.length = 100 →
      polls s rds = some { s with capture_retries := 100
                                  status_message := "Timeout: " ++ toString s.capture_bytes
                                    ++ "/" ++ toString BITMAP_SIZE ++ " bytes"
                                  is_capturing := false } := by
  induction rds with
  | nil => intro s _ h; simp at h
  | cons rd rest ih =>
    intro s hcap _ heq
    simp only [List.length_cons] at heq
    push_cast at heq
    rw [polls_cons, UpdateCapture_empty s rd hcap (he rd (List.mem_cons_self _ _))]
    by_cases hrest : rest.length = 0
    · have h99 : s.capture_retries + 1 = 100 := by rw [hrest] at heq; omega
      rw [if_pos (by omega), h99]
      have : rest = [] := List.length_eq_zero.mp hrest
      subst this
      simp [polls_nil]
    · rw [if_neg (by omega)]
      simp only [Option.map_some', Option.some_bind]
      rw [ih (fun r hr => he r (List.mem_cons_of_mem _ hr))
        { s with capture_retries := s.capture_retries + 1 } hcap (by omega) (by simp only; omega)]

theorem timeout_text (b : Int) :
    "Timeout: " ++ toString b ++ "/" ++ toString BITMAP_SIZE ++ " bytes"
      = "Timeout: " ++ toString b ++ "/1024 bytes" := by
  have h : toString BITMAP_SIZE = "1024" := by decide
  rw [h, String.append_assoc, String.append_assoc]
  rfl

theorem memcpy_full (src : Array Nat) (h : src.size = 1024) :
    memcpy (mkArray BITMAP_SIZE 0) 0 src (BITMAP_SIZE : Int) = some src := by
  obtain ⟨d, hd, hsz, hj⟩ := memcpy_spec (mkArray BITMAP_SIZE 0) src 0 BITMAP_SIZE
    (by simp [BITMAP_SIZE, h]) (by simp)
  have hd0 : memcpy (mkArray BITMAP_SIZE 0) 0 src (BITMAP_SIZE : Int) = some d := by
    simpa using hd
  have hds : d.size = 1024 := by rw [hsz]; simp [BITMAP_SIZE]
  have hdsrc : d = src := by
    apply Array.ext
    · rw [hds, h]
    · intro i h1 h2
      have hi := hj i
      have hlt : i < BITMAP_SIZE := by rw [hds] at h1; exact h1
      rw [if_pos ⟨Nat.zero_le _, by omega⟩, Array.getElem?_eq_getElem h1] at hi
      simp only [Nat.sub_zero, Array.getElem?_eq_getElem h2] at hi
      exact Option.some.inj hi
  rw [hd0, hdsrc]

/-- The screenshot block of `UpdateCapture` on a full 1024-byte buffer. -/
theorem finishCapture_spec (s : AppState) (h : s.capture_buffer.size = 1024) :
    ∃ out, ProcessBitmap s.capture_buffer (mkArray 524288 0) (mkArray 32768 0) = some out ∧
      finishCapture s = some
        { s with next_id := s.next_id + 1
                 screenshots := s.screenshots ++ [{ id := s.next_id
                                                    name := "screenshot_" ++ fmt03d s.next_id
                                                    raw_bitmap := s.capture_buffer
                                                    rgba_preview := out.1
                                                    rgba_thumb := out.2 }]
                 selected_screenshot := (s.screenshots.length : Int)
                 rename_buffer := "screenshot_" ++ fmt03d s.next_id
                 is_capturing := false } := by
  obtain ⟨out, hout, -⟩ := ProcessBitmap_spec s.capture_buffer (mkArray 524288 0)
    (mkArray 32768 0) h (by simp) (by simp)
  refine ⟨out, hout, ?_⟩
  unfold finishCapture
  simp only [memcpy_full _ h, Option.bind_eq_bind, Option.some_bind]
  have e1 : DISPLAY_WIDTH * PREVIEW_SCALE * (DISPLAY_HEIGHT * PREVIEW_SCALE) * 4 = 524288 := rfl
  have e2 : DISPLAY_WIDTH * DISPLAY_HEIGHT * 4 = 32768 := rfl
  rw [e1, e2, hout]
  simp


/-- A poll that delivers at least one byte, in a Capturing state whose buffer
has its declared size and whose byte count is `b < 1024`: the first
`m = min (delivered, 1024 - b)` bytes go to `capture_buffer[b .. b+m)`, the
counters are updated, and when `b + m` reaches 1024 the screenshot is built. -/
theorem UpdateCapture_data (s : AppState) (rd : ReadResult) (hcap : s.is_capturing = true)
    (hsz : s.capture_buffer.size = 1024) (b : Nat) (hb : s.capture_bytes = (b : Int))
    (hb1 : b < 1024) (hok : rd.ok = true) (hn : 0 < rd.data.size) :
    ∃ buf, buf.size = 1024 ∧
      (∀ j, buf[j]? = if b ≤ j ∧ j < b + min (min rd.data.size 256) (1024 - b)
        then rd.data[j - b]? else s.capture_buffer[j]?) ∧
      UpdateCapture s rd =
        if b + min (min rd.data.size 256) (1024 - b) < 1024 then
          some ({ s with capture_buffer := buf
                         capture_bytes := ((b + min (min rd.data.size 256) (1024 - b) : Nat) : Int)
                         capture_progress :=
                          ((b + min (min rd.data.size 256) (1024 - b) : Nat) : Int) * 100 / 1024
                         capture_retries := 0 }, [.read 256])
        else
          (finishCapture
            { s with capture_buffer := buf
                     capture_bytes := ((b + min (min rd.data.size 256) (1024 - b) : Nat) : Int)
                     capture_progress :=
                      ((b + min (min rd.data.size 256) (1024 - b) : Nat) : Int) * 100 / 1024
                     capture_retries := 0 }).map (fun t => (t, [.read 256])) := by
  have htsz : (rd.data.extract 0 256).size = min rd.data.size 256 := by
    rw [Array.size_extract]; omega
  have htc : min (((rd.data.extract 0 256).size : Nat) : Int) ((BITMAP_SIZE : Int) - s.capture_bytes)
      = ((min (min rd.data.size 256) (1024 - b) : Nat) : Int) := by
    rw [hb, htsz]; simp only [BITMAP_SIZE]; omega
  obtain ⟨buf, hbuf, hbsz, hbj⟩ := memcpy_spec s.capture_buffer (rd.data.extract 0 256) b
    (min (min rd.data.size 256) (1024 - b)) (by rw [htsz]; omega) (by rw [hsz]; omega)
  refine ⟨buf, by rw [hbsz, hsz], fun j => ?_, ?_⟩
  · rw [hbj j]
    by_cases hc : b ≤ j ∧ j < b + min (min rd.data.size 256) (1024 - b)
    · rw [if_pos hc, if_pos hc, Array.getElem?_extract, if_pos (by omega)]
      simp
    · rw [if_neg hc, if_neg hc]
  · unfold UpdateCapture
    have hcond : (rd.ok && decide ((rd.data.extract 0 256).size > 0)) = true := by
      simp only [hok, htsz, Bool.true_and, decide_eq_true_eq]; omega
    have hdiv : ((s.capture_bytes + ((min (min rd.data.size 256) (1024 - b) : Nat) : Int)) * 100).tdiv
        (BITMAP_SIZE : Int)
        = ((b + min (min rd.data.size 256) (1024 - b) : Nat) : Int) * 100 / 1024 := by
      rw [hb, Int.tdiv_eq_ediv (by omega) (by simp [BITMAP_SIZE])]
      simp [BITMAP_SIZE]
    simp only [hcap, hcond, htc, Bool.not_true, Bool.false_eq_true, if_false, if_true]
    rw [hb]
    simp only [hbuf, Option.bind_eq_bind, Option.some_bind]
    rw [hb] at hdiv
    simp only [hdiv]
    have hsum : (b : Int) + ((min (min rd.data.size 256) (1024 - b) : Nat) : Int)
        = ((b + min (min rd.data.size 256) (1024 - b) : Nat) : Int) := by push_cast; rfl
    simp only [hsum]
    by_cases hlt : b + min (min rd.data.size 256) (1024 - b) < 1024
    · rw [if_pos hlt, if_neg (by simp only [BITMAP_SIZE, ge_iff_le]; omega)]
      rfl
    · rw [if_neg hlt, if_pos (by simp only [BITMAP_SIZE, ge_iff_le]; omega)]
      cases finishCapture _ <;> rfl

/-- One poll from a state that satisfies `CaptureInv`: it returns, keeps the
invariant, never lowers `capture_bytes`, and touches the image store exactly
when it completes the 1024 bytes. -/
theorem UpdateCapture_inv (s : AppState) (hinv : CaptureInv s) (rd : ReadResult) :
    ∃ t ops, UpdateCapture s rd = some (t, ops) ∧ CaptureInv t ∧
      s.capture_bytes ≤ t.capture_bytes ∧
      ((s.is_capturing = true ∧ t.capture_bytes = 1024) →
        ∃ ss, t.screenshots = s.screenshots ++ [ss] ∧ ss.raw_bitmap = t.capture_buffer ∧
          ss.raw_bitmap.size = 1024 ∧ ss.id = s.next_id ∧ t.next_id = s.next_id + 1 ∧
          t.selected_screenshot = (s.screenshots.length : Int) ∧ t.is_capturing = false) ∧
      (¬ (s.is_capturing = true ∧ t.capture_bytes = 1024) →
        t.screenshots = s.screenshots ∧ t.next_id = s.next_id ∧
          t.selected_screenshot = s.selected_screenshot) := by
  obtain ⟨hsz, h0, h1, hlt, hprog⟩ := hinv
  by_cases hcap : s.is_capturing = true
  · have hb1024 := hlt hcap
    by_cases he : rd.ok = false ∨ rd.data.size = 0
    · refine ⟨_, _, UpdateCapture_empty s rd hcap he, ?_, ?_, ?_, ?_⟩
      · by_cases h100 : s.capture_retries + 1 ≥ 100
        · rw [if_pos h100]; exact ⟨hsz, h0, h1, fun h => by simp at h, hprog⟩
        · rw [if_neg h100]; exact ⟨hsz, h0, h1, hlt, hprog⟩
      · by_cases h100 : s.capture_retries + 1 ≥ 100
        · rw [if_pos h100]
        · rw [if_neg h100]
      · rintro ⟨-, hfull⟩
        exfalso
        by_cases h100 : s.capture_retries + 1 ≥ 100
        · rw [if_pos h100] at hfull; simp only at hfull; omega
        · rw [if_neg h100] at hfull; simp only at hfull; omega
      · intro _
        by_cases h100 : s.capture_retries + 1 ≥ 100
        · rw [if_pos h100]; exact ⟨rfl, rfl, rfl⟩
        · rw [if_neg h100]; exact ⟨rfl, rfl, rfl⟩
    · have hok : rd.ok = true := by
        cases h : rd.ok with
        | true => rfl
        | false => exact absurd (Or.inl h) he
      have hn : 0 < rd.data.size := by
        rcases Nat.eq_zero_or_pos rd.data.size with h | h
        · exact absurd (Or.inr h) he
        · exact h
      obtain ⟨b, hb⟩ := Int.eq_ofNat_of_zero_le h0
      have hbl : b < 1024 := by omega
      obtain ⟨buf, hbufsz, -, hupd⟩ := UpdateCapture_data s rd hcap hsz b hb hbl hok hn
      by_cases hm : b + min (min rd.data.size 256) (1024 - b) < 1024
      · rw [if_pos hm] at hupd
        refine ⟨_, _, hupd, ⟨hbufsz, by simp only; omega, by simp only; omega,
          fun _ => by simp only; omega, rfl⟩, by simp only; omega, ?_, ?_⟩
        · rintro ⟨-, hfull⟩
          simp only at hfull
          omega
        · intro _
          exact ⟨rfl, rfl, rfl⟩
      · rw [if_neg hm] at hupd
        have hfull : b + min (min rd.data.size 256) (1024 - b) = 1024 := by omega
        obtain ⟨out, -, hfin⟩ := finishCapture_spec
          { s with capture_buffer := buf
                   capture_bytes := ((b + min (min rd.data.size 256) (1024 - b) : Nat) : Int)
                   capture_progress :=
                    ((b + min (min rd.data.size 256) (1024 - b) : Nat) : Int) * 100 / 1024
                   capture_retries := 0 } hbufsz
        rw [hfin] at hupd
        refine ⟨_, _, hupd, ⟨hbufsz, by simp only; omega, by simp only; omega,
          fun h => by simp at h, rfl⟩, by simp only; omega, ?_, ?_⟩
        · intro _
          exact ⟨_, rfl, rfl, hbufsz, rfl, rfl, rfl, rfl⟩
        · intro hneg
          exfalso
          apply hneg
          refine ⟨hcap, ?_⟩
          simp only
          omega
  · have hidle : s.is_capturing = false := by
      cases h : s.is_capturing with
      | true => exact absurd h hcap
      | false => rfl
    refine ⟨s, [], UpdateCapture_idle s rd hidle, ⟨hsz, h0, h1, hlt, hprog⟩, le_refl _, ?_, ?_⟩
    · rintro ⟨h, -⟩; exact absurd h hcap
    · intro _; exact ⟨rfl, rfl, rfl⟩

/-- `CaptureInv` holds at program start and is kept by every action. -/
theorem CaptureInv_of_reachable (s : AppState) (h : Reachable s) : CaptureInv s := by
  induction h with
  | init => exact ⟨by simp [initState, BITMAP_SIZE], by decide, by decide,
      fun h => by simp [initState] at h, by decide⟩
  | @step s0 s1 a _ hstep ih =>
    obtain ⟨hsz, h0, h1, hlt, hprog⟩ := ih
    cases a with
    | connect portName out =>
      simp only [step] at hstep
      split at hstep
      · exact absurd hstep (by simp)
      · have hs := Option.some.inj hstep
        subst hs
        cases out <;> exact ⟨hsz, h0, h1, hlt, hprog⟩
    | disconnect =>
      have hs := Option.some.inj hstep
      subst hs
      exact ⟨hsz, h0, h1, fun h => by simp [SerialDisconnect] at h, hprog⟩
    | start wr =>
      have hs := Option.some.inj hstep
      subst hs
      unfold StartCapture
      split
      · exact ⟨hsz, h0, h1, hlt, hprog⟩
      · exact ⟨by simp [BITMAP_SIZE], by simp, by simp, fun _ => by simp, by simp⟩
    | poll rd =>
      obtain ⟨t, ops, hupd, hinv, -⟩ := UpdateCapture_inv s0 ⟨hsz, h0, h1, hlt, hprog⟩ rd
      simp only [step, hupd, Option.map_some'] at hstep
      have hs := Option.some.inj hstep
      subst hs
      exact hinv
    | deleteSelected =>
      simp only [step, DeleteSelected] at hstep
      split at hstep
      · have hs := Option.some.inj hstep
        subst hs
        exact ⟨hsz, h0, h1, hlt, hprog⟩
      · split at hstep
        · simp only [Option.map_eq_some'] at hstep
          obtain ⟨rb, -, hs⟩ := hstep
          subst hs
          exact ⟨hsz, h0, h1, hlt, hprog⟩
        · exact absurd hstep (by simp)
    | clearAll =>
      have hs := Option.some.inj hstep
      subst hs
      exact ⟨hsz, h0, h1, hlt, hprog⟩
    | select i =>
      simp only [step, SelectScreenshot, Option.map_eq_some'] at hstep
      obtain ⟨ss, -, hs⟩ := hstep
      subst hs
      exact ⟨hsz, h0, h1, hlt, hprog⟩
    | editRename text =>
      have hs := Option.some.inj hstep
      subst hs
      exact ⟨hsz, h0, h1, hlt, hprog⟩
    | rename =>
      simp only [step, RenameSelected] at hstep
      split at hstep
      · split at hstep
        · split at hstep
          · have hs := Option.some.inj hstep
            subst hs
            exact ⟨hsz, h0, h1, hlt, hprog⟩
          · have hs := Option.some.inj hstep
            subst hs
            exact ⟨hsz, h0, h1, hlt, hprog⟩
        · exact absurd hstep (by simp)
      · have hs := Option.some.inj hstep
        subst hs
        exact ⟨hsz, h0, h1, hlt, hprog⟩

theorem StartCapture_connected_idle (s : AppState) (hconn : s.is_connected = true)
    (hidle : s.is_capturing = false) (wr : WriteResult) :
    StartCapture s wr =
      ({ s with is_capturing := true
                capture_bytes := 0
                capture_retries := 0
                capture_progress := 0
                capture_buffer := mkArray BITMAP_SIZE 0 },
        [.purge true true, .write SCREENSHOT_CMD, .flush]) := by
  unfold StartCapture
  rw [if_neg (by simp [hconn, hidle])]

theorem exampleCapturing_reachable : Reachable exampleCapturing :=
  Reachable.step (.start ⟨true, 2⟩)
    (Reachable.step (.connect "COM3" (.configured 1)) Reachable.init rfl) rfl

theorem examplePartial_poll :
    UpdateCapture exampleCapturing ⟨true, #[0, 0, 0, 0, 0]⟩
      = some (examplePartial, [.read 256]) := by
  obtain ⟨buf, hsz, hj, hupd⟩ := UpdateCapture_data exampleCapturing ⟨true, #[0, 0, 0, 0, 0]⟩
    rfl (by simp [exampleCapturing, exampleConnected, StartCapture, SerialConnect, initState,
      BITMAP_SIZE]) 0 rfl (by omega) rfl (by simp)
  have hbuf : buf = mkArray BITMAP_SIZE 0 := by
    apply Array.ext
    · rw [hsz]; simp [BITMAP_SIZE]
    · intro i h1 h2
      have hi := hj i
      rw [Array.getElem?_eq_getElem h1] at hi
      have h1024 : i < 1024 := by rw [hsz] at h1; exact h1
      rw [Array.getElem_mkArray]
      by_cases h5 : i < 5
      · rw [if_pos (by simp; omega)] at hi
        have : i = 0 ∨ i = 1 ∨ i = 2 ∨ i = 3 ∨ i = 4 := by omega
        rcases this with h | h | h | h | h <;> subst h <;> simpa using hi
      · rw [if_neg (by simp; omega)] at hi
        have hc : exampleCapturing.capture_buffer = mkArray BITMAP_SIZE 0 := rfl
        rw [hc, Array.getElem?_mkArray, if_pos (by simp [BITMAP_SIZE]; omega)] at hi
        exact Option.some.inj hi
  rw [hupd, if_pos (by simp), hbuf]
  rfl

theorem examplePartial_reachable : Reachable examplePartial :=
  Reachable.step (.poll ⟨true, #[0, 0, 0, 0, 0]⟩) exampleCapturing_reachable
    (by simp [step, examplePartial_poll])

/-! ## Store lemmas -/

/-- What one action does to the image store, `next_id` and the selection. -/
theorem step_store_effect (s t : AppState) (a : Action) (hinv : CaptureInv s)
    (hstep : step s a = some t) :
    (t.screenshots = s.screenshots ∧ t.next_id = s.next_id ∧
      t.selected_screenshot = s.selected_screenshot) ∨
    (∃ ss rd, a = Action.poll rd ∧ t.screenshots = s.screenshots ++ [ss] ∧ ss.id = s.next_id ∧
      t.next_id = s.next_id + 1 ∧ t.selected_screenshot = (s.screenshots.length : Int) ∧
      s.is_capturing = true ∧ t.capture_bytes = 1024) ∨
    (t.next_id = s.next_id ∧ 0 ≤ s.selected_screenshot ∧
      s.selected_screenshot.toNat < s.screenshots.length ∧
      t.screenshots = s.screenshots.eraseIdx s.selected_screenshot.toNat ∧
      t.selected_screenshot =
        if s.selected_screenshot ≥ (s.screenshots.length : Int) - 1
        then (s.screenshots.length : Int) - 2 else s.selected_screenshot) ∨
    (t.screenshots = [] ∧ t.next_id = s.next_id ∧ t.selected_screenshot = -1) ∨
    (t.screenshots = s.screenshots ∧ t.next_id = s.next_id ∧
      ∃ i : Nat, i < s.screenshots.length ∧ t.selected_screenshot = (i : Int)) ∨
    (t.next_id = s.next_id ∧ t.selected_screenshot = s.selected_screenshot ∧
      ∃ (name : String) (n : Nat),
        t.screenshots = s.screenshots.modify (fun ss => { ss with name := name }) n) := by
  cases a with
  | connect portName out =>
    simp only [step] at hstep
    split at hstep
    · exact absurd hstep (by simp)
    · have hs := Option.some.inj hstep
      subst hs
      cases out <;> exact Or.inl ⟨rfl, rfl, rfl⟩
  | disconnect =>
    have hs := Option.some.inj hstep
    subst hs
    exact Or.inl ⟨rfl, rfl, rfl⟩
  | start wr =>
    have hs := Option.some.inj hstep
    subst hs
    unfold StartCapture
    split <;> exact Or.inl ⟨rfl, rfl, rfl⟩
  | poll rd =>
    obtain ⟨u, ops, hupd, -, -, hyes, hno⟩ := UpdateCapture_inv s hinv rd
    simp only [step, hupd, Option.map_some'] at hstep
    have hs := Option.some.inj hstep
    subst hs
    by_cases hc : s.is_capturing = true ∧ u.capture_bytes = 1024
    · obtain ⟨ss, h1, -, -, h2, h3, h4, -⟩ := hyes hc
      exact Or.inr (Or.inl ⟨ss, rd, rfl, h1, h2, h3, h4, hc.1, hc.2⟩)
    · exact Or.inl (hno hc)
  | deleteSelected =>
    simp only [step, DeleteSelected] at hstep
    split at hstep
    · have hs := Option.some.inj hstep
      subst hs
      exact Or.inl ⟨rfl, rfl, rfl⟩
    · rename_i hneg
      split at hstep
      · rename_i hlt
        simp only [Option.map_eq_some'] at hstep
        obtain ⟨rb, -, hs⟩ := hstep
        subst hs
        refine Or.inr (Or.inr (Or.inl ⟨rfl, by omega, hlt, rfl, ?_⟩))
        simp only [List.length_eraseIdx, hlt, if_true]
        have hpos : 0 < s.screenshots.length := by omega
        by_cases hge : s.selected_screenshot ≥ ((s.screenshots.length - 1 : Nat) : Int)
        · rw [if_pos hge, if_pos (by omega)]
          omega
        · rw [if_neg hge, if_neg (by omega)]
      · exact absurd hstep (by simp)
  | clearAll =>
    have hs := Option.some.inj hstep
    subst hs
    exact Or.inr (Or.inr (Or.inr (Or.inl ⟨rfl, rfl, rfl⟩)))
  | select i =>
    simp only [step, SelectScreenshot, Option.map_eq_some'] at hstep
    obtain ⟨ss, hss, hs⟩ := hstep
    subst hs
    have hi : i < s.screenshots.length := by
      by_contra hge
      rw [List.getElem?_eq_none (by omega)] at hss
      exact absurd hss (by simp)
    exact Or.inr (Or.inr (Or.inr (Or.inr (Or.inl ⟨rfl, rfl, i, hi, rfl⟩))))
  | editRename text =>
    have hs := Option.some.inj hstep
    subst hs
    exact Or.inl ⟨rfl, rfl, rfl⟩
  | rename =>
    simp only [step, RenameSelected] at hstep
    split at hstep
    · split at hstep
      · split at hstep
        · have hs := Option.some.inj hstep
          subst hs
          exact Or.inr (Or.inr (Or.inr (Or.inr (Or.inr ⟨rfl, rfl, _, _, rfl⟩))))
        · have hs := Option.some.inj hstep
          subst hs
          exact Or.inl ⟨rfl, rfl, rfl⟩
      · exact absurd hstep (by simp)
    · have hs := Option.some.inj hstep
      subst hs
      exact Or.inl ⟨rfl, rfl, rfl⟩


theorem SelectionInv_of_reachable (s : AppState) (h : Reachable s) : SelectionInv s := by
  induction h with
  | init => exact Or.inl ⟨rfl, rfl⟩
  | @step s0 s1 a hreach hstep ih =>
    have hinv := CaptureInv_of_reachable s0 hreach
    rcases step_store_effect s0 s1 a hinv hstep with
      ⟨h1, -, h3⟩ | ⟨ss, rd, -, h1, -, -, h3, -⟩ | ⟨-, h0, hlt, h1, h3⟩ | ⟨h1, -, h3⟩ |
      ⟨h1, -, i, hi, h3⟩ | ⟨-, h3, name, n, h1⟩
    · unfold SelectionInv at ih ⊢
      rw [h1, h3]; exact ih
    · right
      rw [h1, h3]
      simp
    · unfold SelectionInv
      rw [h1, h3, List.length_eraseIdx, if_pos hlt]
      rcases ih with ⟨he, -⟩ | ⟨-, hsel⟩
      · rw [he] at hlt; simp at hlt
      · by_cases hone : s0.screenshots.length = 1
        · left
          refine ⟨?_, ?_⟩
          · apply List.eq_nil_of_length_eq_zero
            rw [List.length_eraseIdx, if_pos hlt, hone]
          · rw [if_pos (by omega)]; omega
        · right
          have hpos : 0 < s0.screenshots.length := by omega
          by_cases hge : s0.selected_screenshot ≥ (s0.screenshots.length : Int) - 1
          · rw [if_pos hge]; omega
          · rw [if_neg hge]; omega
    · exact Or.inl ⟨h1, h3⟩
    · right
      rw [h1, h3]
      omega
    · unfold SelectionInv at ih ⊢
      rw [h1, h3, List.length_modify]
      rcases ih with ⟨he, hs⟩ | hr
      · left
        refine ⟨?_, hs⟩
        apply List.eq_nil_of_length_eq_zero
        rw [List.length_modify, he]; rfl
      · exact Or.inr hr

theorem pairwise_id_modify_name (l : List Screenshot) (name : String) (n : Nat) :
    List.map (fun ss : Screenshot => ss.id)
        (l.modify (fun ss => { ss with name := name }) n)
      = List.map (fun ss : Screenshot => ss.id) l := by
  apply List.ext_getElem?
  intro i
  rw [List.getElem?_map, List.getElem?_map, List.getElem?_modify]
  cases l[i]? with
  | none => rfl
  | some x => by_cases h : n = i <;> simp [h]

theorem IdInv_of_reachable (s : AppState) (h : Reachable s) : IdInv s := by
  induction h with
  | init => exact ⟨by decide, fun ss hss => by simp [initState] at hss, List.Pairwise.nil⟩
  | @step s0 s1 a hreach hstep ih =>
    have hinv := CaptureInv_of_reachable s0 hreach
    obtain ⟨hn, hmem, hpw⟩ := ih
    rcases step_store_effect s0 s1 a hinv hstep with
      ⟨h1, h2, -⟩ | ⟨ss, rd, -, h1, hid, h2, -, -⟩ | ⟨h2, -, -, h1, -⟩ | ⟨h1, h2, -⟩ |
      ⟨h1, h2, -⟩ | ⟨h2, -, name, n, h1⟩
    · unfold IdInv; rw [h1, h2]; exact ⟨hn, hmem, hpw⟩
    · unfold IdInv
      rw [h1, h2]
      refine ⟨by omega, fun x hx => ?_, ?_⟩
      · rcases List.mem_append.mp hx with hx | hx
        · have := hmem x hx; omega
        · rw [List.mem_singleton] at hx; subst hx; omega
      · rw [List.pairwise_append]
        refine ⟨hpw, List.pairwise_singleton _ _, fun x hx y hy => ?_⟩
        rw [List.mem_singleton] at hy; subst hy
        have := hmem x hx; omega
    · unfold IdInv
      rw [h1, h2]
      exact ⟨hn, fun x hx => hmem x (List.mem_of_mem_eraseIdx hx),
        List.Pairwise.sublist (List.eraseIdx_sublist _ _) hpw⟩
    · unfold IdInv
      rw [h1, h2]
      exact ⟨hn, fun x hx => by simp at hx, List.Pairwise.nil⟩
    · unfold IdInv; rw [h1, h2]; exact ⟨hn, hmem, hpw⟩
    · unfold IdInv
      rw [h1, h2]
      have hmap := pairwise_id_modify_name s0.screenshots name n
      refine ⟨hn, fun x hx => ?_, ?_⟩
      · have hxid : x.id ∈ List.map (fun ss : Screenshot => ss.id) s0.screenshots := by
          rw [← hmap]; exact List.mem_map_of_mem _ hx
        obtain ⟨y, hy, hyx⟩ := List.mem_map.mp hxid
        have := hmem y hy
        rw [← hyx]
        exact this
      · have h1' : List.Pairwise (fun a b : Int => a < b)
            (List.map (fun ss : Screenshot => ss.id) s0.screenshots) :=
          List.pairwise_map.mpr hpw
        rw [← hmap] at h1'
        exact List.pairwise_map.mp h1'

theorem Run_reachable {n : Nat} {s : AppState} (h : Run n s) : Reachable s := by
  induction h with
  | init => exact Reachable.init
  | other a _ hstep _ ih => exact Reachable.step a ih hstep
  | complete a _ hstep _ ih => exact Reachable.step a ih hstep

theorem Run_of_reachable (s : AppState) (h : Reachable s) : ∃ n, Run n s := by
  induction h with
  | init => exact ⟨0, Run.init⟩
  | @step s0 s1 a _ hstep ih =>
    obtain ⟨n, hn⟩ := ih
    by_cases hc : completesCapture s0 a s1
    · exact ⟨n + 1, Run.complete a hn hstep hc⟩
    · exact ⟨n, Run.other a hn hstep hc⟩

/-- In a run with `n` completed captures `next_id` is `n + 1`. -/
theorem Run_next_id {n : Nat} {s : AppState} (h : Run n s) : s.next_id = (n : Int) + 1 := by
  induction h with
  | init => rfl
  | @other n s0 s1 a hrun hstep hnc ih =>
    have hinv := CaptureInv_of_reachable s0 (Run_reachable hrun)
    rcases step_store_effect s0 s1 a hinv hstep with
      ⟨-, h2, -⟩ | ⟨ss, rd, ha, -, -, -, -, hc1, hc2⟩ | ⟨h2, -⟩ | ⟨-, h2, -⟩ | ⟨-, h2, -⟩ |
      ⟨h2, -⟩
    · rw [h2]; exact ih
    · exact absurd ⟨rd, ha, hc1, hc2⟩ hnc
    · rw [h2]; exact ih
    · rw [h2]; exact ih
    · rw [h2]; exact ih
    · rw [h2]; exact ih
  | @complete n s0 s1 a hrun hstep hc ih =>
    have hinv := CaptureInv_of_reachable s0 (Run_reachable hrun)
    obtain ⟨rd, ha, hcap, hfull⟩ := hc
    subst ha
    obtain ⟨u, ops, hupd, -, -, hyes, -⟩ := UpdateCapture_inv s0 hinv rd
    simp only [step, hupd, Option.map_some'] at hstep
    have hs := Option.some.inj hstep
    subst hs
    obtain ⟨ss, -, -, -, -, h3, -⟩ := hyes ⟨hcap, hfull⟩
    rw [h3, ih]
    push_cast
    ring

theorem exampleCapturing_run : Run 0 exampleCapturing :=
  Run.other (.start ⟨true, 2⟩)
    (Run.other (.connect "COM3" (.configured 1)) Run.init rfl
      (by simp [completesCapture])) rfl (by simp [completesCapture])

/-! ## Accumulation lemmas -/

theorem received_append (r1 r2 : List ReadResult) :
    received (r1 ++ r2) = received r1 ++ received r2 := by
  induction r1 with
  | nil => rfl
  | cons rd rest ih => simp [received, ih]

theorem received_singleton (rd : ReadResult) :
    received [rd] = if rd.ok then (rd.data.extract 0 256).toList else [] := by
  simp [received]

/-- The buffer after a data poll, read against the bytes accumulated so far. -/
theorem buffer_after_data (acc : List Nat) (s : AppState) (hacc : Accumulated acc s)
    (rd : ReadResult) (buf : Array Nat)
    (hbuf : ∀ j, buf[j]? =
      if acc.length ≤ j ∧ j < acc.length + min (min rd.data.size 256) (1024 - acc.length)
      then rd.data[j - acc.length]? else s.capture_buffer[j]?) :
    ∀ j, j < acc.length + min (min rd.data.size 256) (1024 - acc.length) →
      buf[j]? = (acc ++ (rd.data.extract 0 256).toList)[j]? := by
  obtain ⟨-, -, -, -, hpre⟩ := hacc
  intro j hj
  rw [hbuf j]
  by_cases hlt : j < acc.length
  · rw [if_neg (by omega), hpre j hlt, List.getElem?_append_left hlt]
  · rw [if_pos (by omega), List.getElem?_append_right (by omega),
      ← Array.getElem?_eq_getElem?_toList, Array.getElem?_extract, if_pos (by omega)]
    simp

/-- A data poll that does not fill the buffer: the delivered bytes are appended
to what was accumulated, the session stays Capturing, the store is untouched. -/
theorem poll_data_partial (acc : List Nat) (s : AppState) (hacc : Accumulated acc s)
    (rd : ReadResult) (hok : rd.ok = true) (hn : 0 < rd.data.size)
    (hlt : acc.length + min rd.data.size 256 < 1024) :
    ∃ t, UpdateCapture s rd = some (t, [.read 256]) ∧
      Accumulated (acc ++ (rd.data.extract 0 256).toList) t ∧
      t.capture_progress = ((acc.length + min rd.data.size 256 : Nat) : Int) * 100 / 1024 ∧
      t.capture_retries = 0 ∧
      t.screenshots = s.screenshots ∧ t.next_id = s.next_id ∧
      t.selected_screenshot = s.selected_screenshot ∧
      t.status_message = s.status_message ∧ t.is_connected = s.is_connected := by
  have hacc' := hacc
  obtain ⟨hcap, hsz, hb, hb1, hpre⟩ := hacc
  obtain ⟨buf, hbufsz, hbufj, hupd⟩ := UpdateCapture_data s rd hcap hsz acc.length hb hb1 hok hn
  have hm : min (min rd.data.size 256) (1024 - acc.length) = min rd.data.size 256 := by omega
  rw [if_pos (by omega)] at hupd
  have hlen : (acc ++ (rd.data.extract 0 256).toList).length
      = acc.length + min rd.data.size 256 := by
    rw [List.length_append, Array.length_toList (l := rd.data.extract 0 256),
      Array.size_extract]
    omega
  refine ⟨_, hupd, ⟨hcap, hbufsz, ?_, by rw [hlen]; omega, fun j hj => ?_⟩, by rw [hm],
    rfl, rfl, rfl, rfl, rfl, rfl⟩
  · simp only [hlen, hm]
  · exact buffer_after_data acc s hacc' rd buf hbufj j (by rw [hlen] at hj; omega)

/-- A data poll that fills the buffer: one image is appended whose raw frame is
the first 1024 bytes of what was accumulated followed by the delivered bytes. -/
theorem poll_data_complete (acc : List Nat) (s : AppState) (hacc : Accumulated acc s)
    (rd : ReadResult) (hok : rd.ok = true) (hn : 0 < rd.data.size)
    (hge : 1024 ≤ acc.length + min rd.data.size 256) :
    ∃ t ss, UpdateCapture s rd = some (t, [.read 256]) ∧
      t.is_capturing = false ∧ t.capture_bytes = 1024 ∧ t.capture_progress = 100 ∧
      t.capture_retries = 0 ∧
      t.screenshots = s.screenshots ++ [ss] ∧
      ss.raw_bitmap.toList = (acc ++ (rd.data.extract 0 256).toList).take 1024 ∧
      ss.raw_bitmap = t.capture_buffer ∧
      ss.id = s.next_id ∧ t.next_id = s.next_id + 1 ∧
      t.selected_screenshot = (s.screenshots.length : Int) ∧
      t.status_message = s.status_message ∧ t.is_connected = s.is_connected := by
  have hacc' := hacc
  obtain ⟨hcap, hsz, hb, hb1, hpre⟩ := hacc
  obtain ⟨buf, hbufsz, hbufj, hupd⟩ := UpdateCapture_data s rd hcap hsz acc.length hb hb1 hok hn
  have hm : acc.length + min (min rd.data.size 256) (1024 - acc.length) = 1024 := by omega
  rw [if_neg (by omega)] at hupd
  obtain ⟨out, -, hfin⟩ := finishCapture_spec
    { s with capture_buffer := buf
             capture_bytes := ((acc.length + min (min rd.data.size 256) (1024 - acc.length)
               : Nat) : Int)
             capture_progress :=
              ((acc.length + min (min rd.data.size 256) (1024 - acc.length) : Nat) : Int)
                * 100 / 1024
             capture_retries := 0 } hbufsz
  rw [hfin] at hupd
  refine ⟨_, _, hupd, rfl, by simp only [hm]; rfl, by simp only [hm]; rfl, rfl, rfl, ?_, rfl,
    rfl, rfl, rfl, rfl, rfl⟩
  apply List.ext_getElem?
  intro j
  rw [List.getElem?_take, ← Array.getElem?_eq_getElem?_toList]
  by_cases hj : j < 1024
  · rw [if_pos hj]
    exact buffer_after_data acc s hacc' rd buf hbufj j (by omega)
  · rw [if_neg hj]
    have : buf.size ≤ j := by omega
    simp [this]

/-- A poll that delivers nothing leaves what was accumulated as it is. -/
theorem poll_empty_accumulated (acc : List Nat) (s : AppState) (hacc : Accumulated acc s)
    (rd : ReadResult) (he : rd.ok = false ∨ rd.data.size = 0) :
    ∃ t, UpdateCapture s rd = some (t, [.read 256]) ∧
      (t.is_capturing = true → Accumulated acc t) ∧
      t.capture_bytes = s.capture_bytes ∧ t.capture_bytes < 1024 ∧
      t.screenshots = s.screenshots ∧ t.next_id = s.next_id ∧
      t.selected_screenshot = s.selected_screenshot := by
  obtain ⟨hcap, hsz, hb, hb1, hpre⟩ := hacc
  refine ⟨_, UpdateCapture_empty s rd hcap he, ?_⟩
  by_cases h100 : s.capture_retries + 1 ≥ 100
  · rw [if_pos h100]
    exact ⟨fun h => by simp at h, rfl, by simp only; omega, rfl, rfl, rfl⟩
  · rw [if_neg h100]
    exact ⟨fun _ => ⟨hcap, hsz, hb, hb1, hpre⟩, rfl, by simp only; omega, rfl, rfl, rfl⟩

theorem received_of_empty (rd : ReadResult) (he : rd.ok = false ∨ rd.data.size = 0) :
    (if rd.ok then (rd.data.extract 0 256).toList else []) = [] := by
  rcases he with h | h
  · simp [h]
  · split
    · have : (rd.data.extract 0 256).toList.length = 0 := by
        rw [Array.length_toList, Array.size_extract]; omega
      exact List.eq_nil_of_length_eq_zero this
    · rfl

/-- One poll from an accumulating session: it returns; if the session is still
Capturing the delivered bytes have been appended and the store is untouched;
if it completed, one image was appended whose raw frame is the first 1024
bytes accumulated. -/
theorem poll_accumulates (acc : List Nat) (s : AppState) (hacc : Accumulated acc s)
    (rd : ReadResult) :
    ∃ t ops, UpdateCapture s rd = some (t, ops) ∧
      (t.is_capturing = true → Accumulated (acc ++ received [rd]) t ∧
        t.screenshots = s.screenshots ∧ t.next_id = s.next_id) ∧
      (t.capture_bytes = 1024 → t.is_capturing = false ∧
        ∃ ss, t.screenshots = s.screenshots ++ [ss] ∧
          ss.raw_bitmap.toList = (acc ++ received [rd]).take 1024 ∧
          ss.id = s.next_id ∧ t.selected_screenshot = (s.screenshots.length : Int)) := by
  by_cases he : rd.ok = false ∨ rd.data.size = 0
  · obtain ⟨t, hupd, hcapt, hbytes, hlt, hshots, hid, -⟩ := poll_empty_accumulated acc s hacc rd he
    refine ⟨t, _, hupd, fun h => ?_, fun h => ?_⟩
    · rw [received_singleton, received_of_empty rd he, List.append_nil]
      exact ⟨hcapt h, hshots, hid⟩
    · omega
  · have hok : rd.ok = true := by
      cases h : rd.ok with
      | true => rfl
      | false => exact absurd (Or.inl h) he
    have hn : 0 < rd.data.size := by
      rcases Nat.eq_zero_or_pos rd.data.size with h | h
      · exact absurd (Or.inr h) he
      · exact h
    have hrec : received [rd] = (rd.data.extract 0 256).toList := by
      rw [received_singleton, if_pos hok]
    by_cases hlt : acc.length + min rd.data.size 256 < 1024
    · obtain ⟨t, hupd, hacct, -, -, hshots, hid, -⟩ := poll_data_partial acc s hacc rd hok hn hlt
      refine ⟨t, _, hupd, fun _ => ?_, fun h => ?_⟩
      · rw [hrec]; exact ⟨hacct, hshots, hid⟩
      · exfalso
        obtain ⟨-, -, hb, hb1, -⟩ := hacct
        omega
    · obtain ⟨t, ss, hupd, hcapt, -, -, -, hshots, hraw, -, hid, -, hsel, -⟩ :=
        poll_data_complete acc s hacc rd hok hn (by omega)
      refine ⟨t, _, hupd, fun h => ?_, fun _ => ⟨hcapt, ss, hshots, ?_, hid, hsel⟩⟩
      · rw [hcapt] at h; exact absurd h (by simp)
      · rw [hrec]; exact hraw

/-- Polls from an accumulating session that is still Capturing at their end:
all the bytes they delivered have been appended, the store is untouched. -/
theorem polls_accumulate (rds : List ReadResult) :
    ∀ (acc : List Nat) (s t : AppState), Accumulated acc s → polls s rds = some t →
      t.is_capturing = true →
      Accumulated (acc ++ received rds) t ∧ t.screenshots = s.screenshots ∧
        t.next_id = s.next_id := by
  induction rds with
  | nil =>
    intro acc s t hacc hp _
    rw [polls_nil] at hp
    have := Option.some.inj hp
    subst this
    refine ⟨?_, rfl, rfl⟩
    simp only [received, List.append_nil]
    exact hacc
  | cons rd rest ih =>
    intro acc s t hacc hp hcapt
    obtain ⟨u, ops, hupd, hstill, -⟩ := poll_accumulates acc s hacc rd
    rw [polls_cons, hupd] at hp
    simp only [Option.map_some', Option.some_bind] at hp
    by_cases hu : u.is_capturing = true
    · obtain ⟨haccu, hshots, hid⟩ := hstill hu
      obtain ⟨h1, h2, h3⟩ := ih _ u t haccu hp hcapt
      refine ⟨?_, by rw [h2, hshots], by rw [h3, hid]⟩
      have : acc ++ received (rd :: rest) = acc ++ received [rd] ++ received rest := by
        simp [received]
      rw [this]; exact h1
    · have hfalse : u.is_capturing = false := by
        cases h : u.is_capturing with
        | true => exact absurd h hu
        | false => rfl
      rw [polls_idle u rest hfalse] at hp
      have := Option.some.inj hp
      subst this
      exact absurd hcapt hu

theorem Accumulated_after_start (s : AppState) (hconn : s.is_connected = true)
    (hidle : s.is_capturing = false) (wr : WriteResult) :
    Accumulated [] (StartCapture s wr).1 := by
  rw [StartCapture_connected_idle s hconn hidle wr]
  exact ⟨rfl, by simp [BITMAP_SIZE], rfl, by simp, fun j hj => by simp at hj⟩

theorem extract_256 (d : Array Nat) (h : d.size = 256) : d.extract 0 256 = d := by
  have := Array.extract_all d
  rw [h] at this
  exact this

/-! ## Termination lemmas -/

/-- One poll while Capturing lowers `captureMeasure` and keeps the invariants;
when it ends the capture, either 1024 bytes are in or the retry count is 100. -/
theorem poll_lowers_measure (s : AppState) (hinv : CaptureInv s) (hret : RetryInv s)
    (hcap : s.is_capturing = true) (rd : ReadResult) :
    ∃ t ops, UpdateCapture s rd = some (t, ops) ∧ CaptureInv t ∧ RetryInv t ∧
      captureMeasure t < captureMeasure s ∧
      (t.is_capturing = false →
        t.capture_bytes = 1024 ∨ (t.capture_retries = 100 ∧ t.capture_bytes < 1024)) := by
  obtain ⟨t, ops, hupd, hinvt, hmono, -, -⟩ := UpdateCapture_inv s hinv rd
  obtain ⟨hsz, h0, h1, hlt, hprog⟩ := hinv
  obtain ⟨hr0, -, hr⟩ := hret
  have hr100 := hr hcap
  have hb := hlt hcap
  by_cases he : rd.ok = false ∨ rd.data.size = 0
  · have hupd2 := UpdateCapture_empty s rd hcap he
    rw [hupd] at hupd2
    have ht := congrArg Prod.fst (Option.some.inj hupd2)
    simp only at ht
    by_cases h100 : s.capture_retries + 1 ≥ 100
    · rw [if_pos h100] at ht
      subst ht
      refine ⟨_, _, hupd, hinvt, ⟨by simp only; omega, by simp only; omega,
        fun h => by simp at h⟩, ?_, fun _ => ?_⟩
      · simp only [captureMeasure]; omega
      · right; exact ⟨by simp only; omega, by simp only; omega⟩
    · rw [if_neg h100] at ht
      subst ht
      refine ⟨_, _, hupd, hinvt,
        ⟨by simp only; omega, by simp only; omega, fun _ => by simp only; omega⟩, ?_,
        fun h => ?_⟩
      · simp only [captureMeasure]; omega
      · simp only [hcap] at h; exact absurd h (by simp)
  · have hok : rd.ok = true := by
      cases h : rd.ok with
      | true => rfl
      | false => exact absurd (Or.inl h) he
    have hn : 0 < rd.data.size := by
      rcases Nat.eq_zero_or_pos rd.data.size with h | h
      · exact absurd (Or.inr h) he
      · exact h
    obtain ⟨b, hbb⟩ := Int.eq_ofNat_of_zero_le h0
    have hbl : b < 1024 := by omega
    obtain ⟨buf, hbufsz, -, hupd2⟩ := UpdateCapture_data s rd hcap hsz b hbb hbl hok hn
    rw [hupd] at hupd2
    by_cases hm : b + min (min rd.data.size 256) (1024 - b) < 1024
    · rw [if_pos hm] at hupd2
      have ht := congrArg Prod.fst (Option.some.inj hupd2)
      simp only at ht
      subst ht
      refine ⟨_, _, hupd, hinvt, ⟨by simp, by simp, fun _ => by simp⟩, ?_, fun h => ?_⟩
      · simp only [captureMeasure]; omega
      · simp only [hcap] at h; exact absurd h (by simp)
    · rw [if_neg hm] at hupd2
      obtain ⟨out, -, hfin⟩ := finishCapture_spec
        { s with capture_buffer := buf
                 capture_bytes := ((b + min (min rd.data.size 256) (1024 - b) : Nat) : Int)
                 capture_progress :=
                  ((b + min (min rd.data.size 256) (1024 - b) : Nat) : Int) * 100 / 1024
                 capture_retries := 0 } hbufsz
      rw [hfin] at hupd2
      have ht := congrArg Prod.fst (Option.some.inj hupd2)
      simp only [Option.map_some'] at ht
      subst ht
      refine ⟨_, _, hupd, hinvt, ⟨by simp, by simp, fun _ => by simp⟩, ?_, fun _ => ?_⟩
      · simp only [captureMeasure]; omega
      · left; simp only; omega

theorem RetryInv_of_reachable (s : AppState) (h : Reachable s) : RetryInv s := by
  induction h with
  | init => exact ⟨by decide, by decide, fun h => by simp [initState] at h⟩
  | @step s0 s1 a hreach hstep ih =>
    obtain ⟨hr0, hr⟩ := ih
    cases a with
    | connect portName out =>
      simp only [step] at hstep
      split at hstep
      · exact absurd hstep (by simp)
      · have hs := Option.some.inj hstep
        subst hs
        cases out <;> exact ⟨hr0, hr⟩
    | disconnect =>
      have hs := Option.some.inj hstep
      subst hs
      exact ⟨hr0, hr.1, fun h => by simp [SerialDisconnect] at h⟩
    | start wr =>
      have hs := Option.some.inj hstep
      subst hs
      unfold StartCapture
      split
      · exact ⟨hr0, hr⟩
      · exact ⟨by simp, by simp, fun _ => by simp⟩
    | poll rd =>
      have hinv := CaptureInv_of_reachable s0 hreach
      by_cases hcap : s0.is_capturing = true
      · obtain ⟨t, ops, hupd, -, hrt, -⟩ := poll_lowers_measure s0 hinv ⟨hr0, hr⟩ hcap rd
        simp only [step, hupd, Option.map_some'] at hstep
        have hs := Option.some.inj hstep
        subst hs
        exact hrt
      · have hidle : s0.is_capturing = false := by
          cases h : s0.is_capturing with
          | true => exact absurd h hcap
          | false => rfl
        simp only [step, UpdateCapture_idle s0 rd hidle, Option.map_some'] at hstep
        have hs := Option.some.inj hstep
        subst hs
        exact ⟨hr0, hr⟩
    | deleteSelected =>
      simp only [step, DeleteSelected] at hstep
      split at hstep
      · have hs := Option.some.inj hstep
        subst hs
        exact ⟨hr0, hr⟩
      · split at hstep
        · simp only [Option.map_eq_some'] at hstep
          obtain ⟨rb, -, hs⟩ := hstep
          subst hs
          exact ⟨hr0, hr⟩
        · exact absurd hstep (by simp)
    | clearAll =>
      have hs := Option.some.inj hstep
      subst hs
      exact ⟨hr0, hr⟩
    | select i =>
      simp only [step, SelectScreenshot, Option.map_eq_some'] at hstep
      obtain ⟨ss, -, hs⟩ := hstep
      subst hs
      exact ⟨hr0, hr⟩
    | editRename text =>
      have hs := Option.some.inj hstep
      subst hs
      exact ⟨hr0, hr⟩
    | rename =>
      simp only [step, RenameSelected] at hstep
      split at hstep
      · split at hstep
        · split at hstep
          · have hs := Option.some.inj hstep
            subst hs
            exact ⟨hr0, hr⟩
          · have hs := Option.some.inj hstep
            subst hs
            exact ⟨hr0, hr⟩
        · exact absurd hstep (by simp)
      · have hs := Option.some.inj hstep
        subst hs
        exact ⟨hr0, hr⟩

/-- While Capturing the measure is positive. -/
theorem captureMeasure_pos (s : AppState) (hinv : CaptureInv s) (hret : RetryInv s)
    (hcap : s.is_capturing = true) : 0 < captureMeasure s := by
  have h1 := hinv.2.2.2.1 hcap
  have h2 := hret.2.2 hcap
  simp only [captureMeasure]
  omega

/-- A list of polls from a Capturing state: it returns, and if the session is
still Capturing the measure has dropped by at least the number of polls. -/
theorem polls_lower_measure (rds : List ReadResult) :
    ∀ s : AppState, CaptureInv s → RetryInv s → s.is_capturing = true →
      ∃ t, polls s rds = some t ∧
        (t.is_capturing = true →
          captureMeasure t + (rds.length : Int) ≤ captureMeasure s ∧ CaptureInv t ∧ RetryInv t) ∧
        (t.is_capturing = false →
          t.capture_bytes = 1024 ∨ (t.capture_retries = 100 ∧ t.capture_bytes < 1024)) := by
  induction rds with
  | nil =>
    intro s hinv hret hcap
    exact ⟨s, polls_nil s, fun _ => ⟨by simp, hinv, hret⟩,
      fun h => by rw [hcap] at h; exact absurd h (by simp)⟩
  | cons rd rest ih =>
    intro s hinv hret hcap
    obtain ⟨u, ops, hupd, hinvu, hretu, hlt, hend⟩ := poll_lowers_measure s hinv hret hcap rd
    by_cases hu : u.is_capturing = true
    · obtain ⟨t, hp, hstill, hdone⟩ := ih u hinvu hretu hu
      refine ⟨t, ?_, fun h => ?_, hdone⟩
      · rw [polls_cons, hupd]; simpa using hp
      · obtain ⟨hm, hi, hr⟩ := hstill h
        refine ⟨?_, hi, hr⟩
        simp only [List.length_cons]
        push_cast
        omega
    · have hfalse : u.is_capturing = false := by
        cases h : u.is_capturing with
        | true => exact absurd h hu
        | false => rfl
      refine ⟨u, ?_, fun h => absurd h hu, fun _ => hend hfalse⟩
      rw [polls_cons, hupd]
      simpa using polls_idle u rest hfalse

/-! ## Port sort lemmas -/

theorem decimalValue_cons (ch : Char) (rest : List Char) :
    decimalValue (ch :: rest) = (ch.toNat - 48) * 10 ^ rest.length + decimalValue rest := by
  simp only [decimalValue, List.map_cons, List.reverse_cons, Nat.ofDigits_append,
    Nat.ofDigits_singleton, List.length_reverse, List.length_map]
  ring

theorem atoiDigits_of_digits (ds : List Char) (hd : ∀ ch ∈ ds, ch.isDigit = true) :
    ∀ acc : Int, atoiDigits acc ds = acc * 10 ^ ds.length + (decimalValue ds : Int) := by
  induction ds with
  | nil => intro acc; simp [atoiDigits, decimalValue]
  | cons ch rest ih =>
    intro acc
    have hch : ch.isDigit = true := hd ch (List.mem_cons_self _ _)
    rw [atoiDigits, if_pos hch, ih (fun x hx => hd x (List.mem_cons_of_mem _ hx)),
      decimalValue_cons]
    push_cast
    simp only [List.length_cons, pow_succ]
    ring

theorem digit_toNat (ch : Char) (h : ch.isDigit = true) : 48 ≤ ch.toNat ∧ ch.toNat ≤ 57 := by
  simp only [Char.isDigit, Bool.and_eq_true, decide_eq_true_eq] at h
  have h1 : (48 : UInt32) ≤ ch.val := h.1
  have h2 : ch.val ≤ (57 : UInt32) := h.2
  rw [UInt32.le_def] at h1 h2
  simp only [Char.toNat, UInt32.toNat]
  exact ⟨h1, h2⟩

/-- On a string of decimal digits `atoi` returns the number they denote. -/
theorem atoi_of_digits (ds : List Char) (hd : ∀ ch ∈ ds, ch.isDigit = true) :
    atoi ds = (decimalValue ds : Int) := by
  cases ds with
  | nil => simp [atoi, atoiDigits, decimalValue]
  | cons ch rest =>
    have hch := digit_toNat ch (hd ch (List.mem_cons_self _ _))
    have hsp : isspace ch = false := by
      simp only [isspace, Bool.or_eq_false_iff, Bool.and_eq_false_iff, decide_eq_false_iff_not]
      omega
    have hdrop : (ch :: rest).dropWhile isspace = ch :: rest := by
      rw [List.dropWhile_cons, hsp]; rfl
    have hminus : ch ≠ '-' := by
      intro h; rw [h] at hch; simp at hch
    have hplus : ch ≠ '+' := by
      intro h; rw [h] at hch; simp at hch
    unfold atoi
    rw [hdrop]
    split
    · rename_i heq; exact absurd (List.cons.inj heq).1 hminus
    · rename_i heq; exact absurd (List.cons.inj heq).1 hplus
    · have := atoiDigits_of_digits (ch :: rest) hd 0
      simpa using this

theorem portNumber_of_digits (ds : List Char) (hd : ∀ ch ∈ ds, ch.isDigit = true) :
    portNumber (String.mk ('C' :: 'O' :: 'M' :: ds)) = (decimalValue ds : Int) := by
  unfold portNumber
  exact atoi_of_digits ds hd

theorem stdSort_portLess_perm (names : List String) :
    List.Perm (stdSort portLess names) names :=
  List.perm_insertionSort _ _

theorem stdSort_portLess_sorted (names : List String) :
    List.Pairwise (fun a b => portNumber a ≤ portNumber b) (stdSort portLess names) := by
  haveI : IsTotal String (fun a b => portLess b a = false) :=
    ⟨fun a b => by simp only [portLess, decide_eq_false_iff_not]; omega⟩
  haveI : IsTrans String (fun a b => portLess b a = false) :=
    ⟨fun a b c => by simp only [portLess, decide_eq_false_iff_not]; omega⟩
  have h := List.sorted_insertionSort (fun a b : String => portLess b a = false) names
  refine List.Pairwise.imp ?_ h
  intro a b hab
  simp only [portLess, decide_eq_false_iff_not] at hab
  omega


theorem filter_com_names (names : List String)
    (hform : ∀ n ∈ names, n.toList.take 3 = ['C', 'O', 'M']) :
    (names.map some).filterMap (fun dev =>
      dev.bind (fun portName =>
        if portName.toList.take 3 = ['C', 'O', 'M'] then some portName else none)) = names := by
  induction names with
  | nil => rfl
  | cons n rest ih =>
    have hn := hform n (List.mem_cons_self _ _)
    simp only [List.map_cons, List.filterMap_cons, Option.some_bind, hn, if_true]
    rw [ih (fun x hx => hform x (List.mem_cons_of_mem _ hx))]

/-! ## Range of the `int` fields -/

/-- A run with `n` completed captures holds at most `n` images. -/
theorem Run_store_size {n : Nat} {s : AppState} (h : Run n s) : s.screenshots.length ≤ n := by
  induction h with
  | init => simp [initState]
  | @other n s0 s1 a hrun hstep hnc ih =>
    have hinv := CaptureInv_of_reachable s0 (Run_reachable hrun)
    rcases step_store_effect s0 s1 a hinv hstep with
      ⟨h1, -⟩ | ⟨ss, rd, ha, -, -, -, -, hc1, hc2⟩ | ⟨-, -, hlt, h1, -⟩ | ⟨h1, -⟩ | ⟨h1, -⟩ |
      ⟨-, -, name, k, h1⟩
    · rw [h1]; exact ih
    · exact absurd ⟨rd, ha, hc1, hc2⟩ hnc
    · rw [h1, List.length_eraseIdx, if_pos hlt]; omega
    · rw [h1]; simp
    · rw [h1]; exact ih
    · rw [h1, List.length_modify]; exact ih
  | @complete n s0 s1 a hrun hstep hc ih =>
    have hinv := CaptureInv_of_reachable s0 (Run_reachable hrun)
    rcases step_store_effect s0 s1 a hinv hstep with
      ⟨h1, -⟩ | ⟨ss, rd, -, h1, -⟩ | ⟨-, -, hlt, h1, -⟩ | ⟨h1, -⟩ | ⟨h1, -⟩ |
      ⟨-, -, name, k, h1⟩
    · rw [h1]; omega
    · rw [h1, List.length_append]; simp; omega
    · rw [h1, List.length_eraseIdx, if_pos hlt]; omega
    · rw [h1]; simp
    · rw [h1]; omega
    · rw [h1, List.length_modify]; omega

/-- The `int` arithmetic of the embedding is the machine's: in a run in which
fewer than `2^31 - 2` captures have completed, every `int` field of the state
and every `int` value that the next action computes from it lies within the
range of a 32-bit `int`, so no signed overflow occurs. -/
theorem int_fields_in_range {n : Nat} {s : AppState} (h : Run n s)
    (hn : (n : Int) + 2 ≤ 2147483647) :
    inIntRange s.capture_bytes ∧ inIntRange (s.capture_bytes + 256) ∧
    inIntRange (s.capture_bytes * 100) ∧ inIntRange s.capture_progress ∧
    inIntRange s.capture_retries ∧ inIntRange (s.capture_retries + 1) ∧
    inIntRange s.next_id ∧ inIntRange (s.next_id + 1) ∧
    inIntRange s.selected_screenshot ∧ inIntRange (s.screenshots.length : Int) ∧
    inIntRange ((s.screenshots.length : Int) + 1) ∧
    inIntRange ((s.screenshots.length : Int) - 1) := by
  have hreach := Run_reachable h
  obtain ⟨-, hb0, hb1, -, hprog⟩ := CaptureInv_of_reachable s hreach
  have hr := RetryInv_of_reachable s hreach
  have hid := Run_next_id h
  have hlen := Run_store_size h
  have hsel := SelectionInv_of_reachable s hreach
  obtain ⟨hr0, hr100, -⟩ := hr
  simp only [inIntRange]
  rcases hsel with ⟨-, hs⟩ | ⟨hs0, hs1⟩
  · refine ⟨⟨?_, ?_⟩, ⟨?_, ?_⟩, ⟨?_, ?_⟩, ⟨?_, ?_⟩, ⟨?_, ?_⟩, ⟨?_, ?_⟩, ⟨?_, ?_⟩, ⟨?_, ?_⟩,
      ⟨?_, ?_⟩, ⟨?_, ?_⟩, ⟨?_, ?_⟩, ⟨?_, ?_⟩⟩ <;> omega
  · refine ⟨⟨?_, ?_⟩, ⟨?_, ?_⟩, ⟨?_, ?_⟩, ⟨?_, ?_⟩, ⟨?_, ?_⟩, ⟨?_, ?_⟩, ⟨?_, ?_⟩, ⟨?_, ?_⟩,
      ⟨?_, ?_⟩, ⟨?_, ?_⟩, ⟨?_, ?_⟩, ⟨?_, ?_⟩⟩ <;> omega

/-! ## Example runs with completed captures -/

/-- A capture that is started in a connected, non-capturing state of a run with
`n` completed captures and is fed four reads of 256 bytes: the first three
polls do not complete a capture, the fourth does and appends one image. -/
theorem capture_of_four_chunks (n : Nat) (s : AppState) (hrun : Run n s)
    (hconn : s.is_connected = true) (hidle : s.is_capturing = false) (wr : WriteResult)
    (d1 d2 d3 d4 : Array Nat)
    (h1 : d1.size = 256) (h2 : d2.size = 256) (h3 : d3.size = 256) (h4 : d4.size = 256) :
    ∃ t3 t4 ss,
      polls (StartCapture s wr).1 [⟨true, d1⟩, ⟨true, d2⟩, ⟨true, d3⟩] = some t3 ∧
      polls (StartCapture s wr).1 [⟨true, d1⟩, ⟨true, d2⟩, ⟨true, d3⟩, ⟨true, d4⟩] = some t4 ∧
      Run n t3 ∧ t3.is_capturing = true ∧ t3.screenshots = s.screenshots ∧
      t3.next_id = s.next_id ∧
      step t3 (.poll ⟨true, d4⟩) = some t4 ∧ completesCapture t3 (.poll ⟨true, d4⟩) t4 ∧
      Run (n + 1) t4 ∧ t4.is_connected = true ∧ t4.is_capturing = false ∧
      t4.screenshots = s.screenshots ++ [ss] ∧ ss.id = s.next_id ∧
      t4.next_id = s.next_id + 1 ∧
      t4.selected_screenshot = (s.screenshots.length : Int) := by
  have hacc0 : Accumulated [] (StartCapture s wr).1 := Accumulated_after_start s hconn hidle wr
  have hshots0 : (StartCapture s wr).1.screenshots = s.screenshots := by
    rw [StartCapture_connected_idle s hconn hidle wr]
  have hid0 : (StartCapture s wr).1.next_id = s.next_id := by
    rw [StartCapture_connected_idle s hconn hidle wr]
  have hconn0 : (StartCapture s wr).1.is_connected = true := by
    rw [StartCapture_connected_idle s hconn hidle wr]; exact hconn
  have hrun0 : Run n (StartCapture s wr).1 :=
    Run.other (.start wr) hrun rfl (by simp [completesCapture])
  obtain ⟨t1, hu1, hacc1, -, -, hsh1, hn1, -, -, hc1⟩ :=
    poll_data_partial [] (StartCapture s wr).1 hacc0 ⟨true, d1⟩ rfl (by simp only [h1]; decide)
      (by simp only [h1]; decide)
  simp only [extract_256 d1 h1, h1, List.nil_append, List.length_nil] at hacc1
  have hl1 : d1.toList.length = 256 := by rw [Array.length_toList (l := d1), h1]
  obtain ⟨t2, hu2, hacc2, -, -, hsh2, hn2, -, -, hc2⟩ :=
    poll_data_partial _ t1 hacc1 ⟨true, d2⟩ rfl (by simp only [h2]; decide)
      (by simp only [h2, hl1]; decide)
  simp only [extract_256 d2 h2, h2, hl1] at hacc2
  have hl2 : (d1.toList ++ d2.toList).length = 512 := by
    rw [List.length_append, hl1, Array.length_toList (l := d2), h2]
  obtain ⟨t3, hu3, hacc3, -, -, hsh3, hn3, -, -, hc3⟩ :=
    poll_data_partial _ t2 hacc2 ⟨true, d3⟩ rfl (by simp only [h3]; decide)
      (by simp only [h3, hl2]; decide)
  simp only [extract_256 d3 h3, h3, hl2] at hacc3
  have hl3 : (d1.toList ++ d2.toList ++ d3.toList).length = 768 := by
    rw [List.length_append, hl2, Array.length_toList (l := d3), h3]
  obtain ⟨t4, ss, hu4, hcap4, hb4, -, -, hsh4, -, -, hid4, hn4, hsel4, -, hc4⟩ :=
    poll_data_complete _ t3 hacc3 ⟨true, d4⟩ rfl (by simp only [h4]; decide)
      (by simp only [h4, hl3]; decide)
  have hs1 : step (StartCapture s wr).1 (.poll ⟨true, d1⟩) = some t1 := by simp [step, hu1]
  have hs2 : step t1 (.poll ⟨true, d2⟩) = some t2 := by simp [step, hu2]
  have hs3 : step t2 (.poll ⟨true, d3⟩) = some t3 := by simp [step, hu3]
  have hs4 : step t3 (.poll ⟨true, d4⟩) = some t4 := by simp [step, hu4]
  have hb1 : t1.capture_bytes = 256 := by rw [hacc1.2.2.1, hl1]; rfl
  have hb2 : t2.capture_bytes = 512 := by rw [hacc2.2.2.1, hl2]; rfl
  have hb3 : t3.capture_bytes = 768 := by rw [hacc3.2.2.1, hl3]; rfl
  have hrun1 : Run n t1 := Run.other _ hrun0 hs1 (by
    rintro ⟨rd, -, -, hb⟩; rw [hb1] at hb; exact absurd hb (by decide))
  have hrun2 : Run n t2 := Run.other _ hrun1 hs2 (by
    rintro ⟨rd, -, -, hb⟩; rw [hb2] at hb; exact absurd hb (by decide))
  have hrun3 : Run n t3 := Run.other _ hrun2 hs3 (by
    rintro ⟨rd, -, -, hb⟩; rw [hb3] at hb; exact absurd hb (by decide))
  have hcomp : completesCapture t3 (.poll ⟨true, d4⟩) t4 := ⟨_, rfl, hacc3.1, hb4⟩
  have hp3 : polls (StartCapture s wr).1 [⟨true, d1⟩, ⟨true, d2⟩, ⟨true, d3⟩] = some t3 := by
    simp [polls_cons, polls_nil, hu1, hu2, hu3]
  have hp4 : polls (StartCapture s wr).1 [⟨true, d1⟩, ⟨true, d2⟩, ⟨true, d3⟩, ⟨true, d4⟩]
      = some t4 := by
    simp [polls_cons, polls_nil, hu1, hu2, hu3, hu4]
  exact ⟨t3, t4, ss, hp3, hp4, hrun3, hacc3.1, by rw [hsh3, hsh2, hsh1, hshots0],
    by rw [hn3, hn2, hn1, hid0], hs4, hcomp, Run.complete _ hrun3 hs4 hcomp,
    by rw [hc4, hc3, hc2, hc1, hconn0], hcap4, by rw [hsh4, hsh3, hsh2, hsh1, hshots0],
    by rw [hid4, hn3, hn2, hn1, hid0], by rw [hn4, hn3, hn2, hn1, hid0],
    by rw [hsel4, hsh3, hsh2, hsh1, hshots0]⟩

theorem exampleConnected_run : Run 0 exampleConnected :=
  Run.other (.connect "COM3" (.configured 1)) Run.init rfl (by simp [completesCapture])

/-- The first example capture: three chunks leave the session Capturing with an
empty store, the fourth completes the capture and stores the image with id 1. -/
theorem exampleOneImage_spec :
    Run 0 exampleThreeChunks ∧ exampleThreeChunks.is_capturing = true ∧
    exampleThreeChunks.screenshots = [] ∧ exampleThreeChunks.next_id = 1 ∧
    step exampleThreeChunks (.poll exampleChunk) = some exampleOneImage ∧
    completesCapture exampleThreeChunks (.poll exampleChunk) exampleOneImage ∧
    Run 1 exampleOneImage ∧ exampleOneImage.is_connected = true ∧
    exampleOneImage.is_capturing = false ∧
    (∃ ss, exampleOneImage.screenshots = [ss] ∧ ss.id = 1) ∧
    exampleOneImage.next_id = 2 ∧ exampleOneImage.selected_screenshot = 0 := by
  obtain ⟨t3, t4, ss, hp3, hp4, hrun3, hcap3, hsh3, hn3, hs4, hcomp, hrun4, hconn4, hcap4, hsh4,
    hid, hn4, hsel4⟩ := capture_of_four_chunks 0 exampleConnected exampleConnected_run rfl rfl
      ⟨true, 2⟩ (mkArray 256 0xFF) (mkArray 256 0xFF) (mkArray 256 0xFF) (mkArray 256 0xFF)
      (Array.size_mkArray _ _) (Array.size_mkArray _ _) (Array.size_mkArray _ _)
      (Array.size_mkArray _ _)
  have e3 : exampleThreeChunks = t3 := by
    have h : exampleThreeChunks = (some t3).getD initState := congrArg (·.getD initState) hp3
    exact h
  have e4 : exampleOneImage = t4 := by
    have h : exampleOneImage = (some t4).getD initState := congrArg (·.getD initState) hp4
    exact h
  rw [e3, e4]
  exact ⟨hrun3, hcap3, hsh3, hn3, hs4, hcomp, hrun4, hconn4, hcap4, ⟨ss, hsh4, hid⟩, hn4, hsel4⟩

/-- The second example capture: started in `exampleOneImage`, three chunks leave
the store at one image, the fourth stores a second image with id 2. -/
theorem exampleTwoImages_spec :
    Run 1 exampleSecondThreeChunks ∧ exampleSecondThreeChunks.is_capturing = true ∧
    exampleSecondThreeChunks.screenshots = exampleOneImage.screenshots ∧
    exampleSecondThreeChunks.next_id = 2 ∧
    step exampleSecondThreeChunks (.poll exampleChunk) = some exampleTwoImages ∧
    completesCapture exampleSecondThreeChunks (.poll exampleChunk) exampleTwoImages ∧
    Run 2 exampleTwoImages ∧ exampleTwoImages.is_connected = true ∧
    exampleTwoImages.is_capturing = false ∧
    (∃ ss1 ss2, exampleTwoImages.screenshots = [ss1, ss2] ∧ ss1.id = 1 ∧ ss2.id = 2) ∧
    exampleTwoImages.next_id = 3 ∧ exampleTwoImages.selected_screenshot = 1 := by
  obtain ⟨-, -, -, -, -, -, hrun1, hconn1, hidle1, ⟨ss1, hsh1, hid1⟩, hn1, -⟩ :=
    exampleOneImage_spec
  obtain ⟨t3, t4, ss, hp3, hp4, hrun3, hcap3, hsh3, hn3, hs4, hcomp, hrun4, hconn4, hcap4, hsh4,
    hid, hn4, hsel4⟩ := capture_of_four_chunks 1 exampleOneImage hrun1 hconn1 hidle1
      ⟨true, 2⟩ (mkArray 256 0xFF) (mkArray 256 0xFF) (mkArray 256 0xFF) (mkArray 256 0xFF)
      (Array.size_mkArray _ _) (Array.size_mkArray _ _) (Array.size_mkArray _ _)
      (Array.size_mkArray _ _)
  have e3 : exampleSecondThreeChunks = t3 := by
    have h : exampleSecondThreeChunks = (some t3).getD initState :=
      congrArg (·.getD initState) hp3
    exact h
  have e4 : exampleTwoImages = t4 := by
    have h : exampleTwoImages = (some t4).getD initState := congrArg (·.getD initState) hp4
    exact h
  rw [e3, e4]
  refine ⟨hrun3, hcap3, hsh3, by rw [hn3, hn1], hs4, hcomp, hrun4, hconn4, hcap4,
    ⟨ss1, ss, by rw [hsh4, hsh1]; rfl, hid1, by rw [hid, hn1]⟩, by rw [hn4, hn1]; rfl,
    by rw [hsel4, hsh1]; rfl⟩

theorem ClearAll_fields (s : AppState) :
    (ClearAll s).is_connected = s.is_connected ∧ (ClearAll s).is_capturing = s.is_capturing ∧
    (ClearAll s).next_id = s.next_id ∧ (ClearAll s).screenshots = [] :=
  ⟨rfl, rfl, rfl, rfl⟩

/-- The third example capture: started after `Clear All` in `exampleTwoImages`,
it stores its image with id 3 in the emptied store. -/
theorem exampleAfterClear_spec :
    Run 2 exampleThirdThreeChunks ∧ exampleThirdThreeChunks.is_capturing = true ∧
    exampleThirdThreeChunks.screenshots = [] ∧ exampleThirdThreeChunks.next_id = 3 ∧
    step exampleThirdThreeChunks (.poll exampleChunk) = some exampleAfterClear ∧
    completesCapture exampleThirdThreeChunks (.poll exampleChunk) exampleAfterClear ∧
    Run 3 exampleAfterClear ∧
    (∃ ss, exampleAfterClear.screenshots = [ss] ∧ ss.id = 3) ∧
    exampleAfterClear.next_id = 4 ∧ exampleAfterClear.selected_screenshot = 0 := by
  obtain ⟨-, -, -, -, -, -, hrun2, hconn2, hidle2, -, hn2, -⟩ := exampleTwoImages_spec
  have hrunc : Run 2 (ClearAll exampleTwoImages) :=
    Run.other .clearAll hrun2 rfl (by simp [completesCapture])
  obtain ⟨hcc, hci, hcn, hcs⟩ := ClearAll_fields exampleTwoImages
  obtain ⟨t3, t4, ss, hp3, hp4, hrun3, hcap3, hsh3, hn3, hs4, hcomp, hrun4, -, -, hsh4,
    hid, hn4, hsel4⟩ := capture_of_four_chunks 2 (ClearAll exampleTwoImages) hrunc
      (hcc.trans hconn2) (hci.trans hidle2)
      ⟨true, 2⟩ (mkArray 256 0xFF) (mkArray 256 0xFF) (mkArray 256 0xFF) (mkArray 256 0xFF)
      (Array.size_mkArray _ _) (Array.size_mkArray _ _) (Array.size_mkArray _ _)
      (Array.size_mkArray _ _)
  have e3 : exampleThirdThreeChunks = t3 := by
    have h : exampleThirdThreeChunks = (some t3).getD initState :=
      congrArg (·.getD initState) hp3
    exact h
  have e4 : exampleAfterClear = t4 := by
    have h : exampleAfterClear = (some t4).getD initState := congrArg (·.getD initState) hp4
    exact h
  have hnc : (ClearAll exampleTwoImages).next_id = 3 := hcn.trans hn2
  rw [e3, e4]
  exact ⟨hrun3, hcap3, by rw [hsh3, hcs], by rw [hn3, hnc], hs4, hcomp, hrun4,
    ⟨ss, by rw [hsh4, hcs]; rfl, by rw [hid, hnc]⟩, by rw [hn4, hnc]; rfl,
    by rw [hsel4, hcs]; rfl⟩

/-! ## Claims on the bitmap pipeline -/

/-- C1: for every 1024-byte raw frame, `ProcessBitmap` returns, and for every
pixel `(x, y)` of the 128x64 grid the four thumbnail bytes at offset
`(y*128 + x)*4` are `00 00 00 FF` when bit `y mod 8` of raw byte
`x + (y div 8)*128` is set and `DE EB FF FF` when it is clear. -/
theorem thumbnail_colour_of_raw_bit (raw rgba_preview rgba_thumb : Array Nat)
    (hraw : raw.size = 1024) (hpv : rgba_preview.size = 524288)
    (hth : rgba_thumb.size = 32768) :
    ∃ out, ProcessBitmap raw rgba_preview rgba_thumb = some out ∧
      ∀ x y, x < 128 → y < 64 →
        ∃ r, raw[x + (y / 8) * 128]? = some r ∧
          out.2.extract ((y * 128 + x) * 4) ((y * 128 + x) * 4 + 4)
            = if r.testBit (y % 8) then #[0x00, 0x00, 0x00, 0xFF]
              else #[0xDE, 0xEB, 0xFF, 0xFF] := by
  obtain ⟨out, hout, h1, h2, hthj, -⟩ := ProcessBitmap_spec raw rgba_preview rgba_thumb hraw hpv hth
  refine ⟨out, hout, fun x y hx hy => ?_⟩
  have hr : x + y / 8 * 128 < raw.size := by omega
  refine ⟨raw[x + y / 8 * 128], Array.getElem?_eq_getElem hr, ?_⟩
  apply extract4_eq _ _ _ (by omega) (by split <;> rfl)
  intro k hk
  rw [hthj _ (by omega)]
  have e1 : ((y * 128 + x) * 4 + k) / 4 % 128 = x := by omega
  have e2 : ((y * 128 + x) * 4 + k) / 4 / 128 = y := by omega
  have e3 : ((y * 128 + x) * 4 + k) % 4 = k := by omega
  rw [e1, e2, e3]
  simp only [rbit, Array.getElem?_eq_getElem hr, Option.getD_some]
  rfl

theorem thumbnail_colour_of_raw_bit_witness :
    (mkArray 1024 0).size = 1024 ∧ (mkArray 524288 0).size = 524288 ∧
    (mkArray 32768 0).size = 32768 ∧
    ∃ out, ProcessBitmap (mkArray 1024 0) (mkArray 524288 0) (mkArray 32768 0) = some out ∧
      ∀ x y, x < 128 → y < 64 →
        ∃ r, (mkArray 1024 0)[x + (y / 8) * 128]? = some r ∧
          out.2.extract ((y * 128 + x) * 4) ((y * 128 + x) * 4 + 4)
            = if r.testBit (y % 8) then #[0x00, 0x00, 0x00, 0xFF]
              else #[0xDE, 0xEB, 0xFF, 0xFF] :=
  ⟨Array.size_mkArray _ _, Array.size_mkArray _ _, Array.size_mkArray _ _,
    thumbnail_colour_of_raw_bit (mkArray 1024 0) (mkArray 524288 0) (mkArray 32768 0)
      (Array.size_mkArray _ _) (Array.size_mkArray _ _) (Array.size_mkArray _ _)⟩

/-- C2: for every 1024-byte raw frame the repack loop of `ProcessBitmap` returns
a 1024-byte buffer in which, for every pixel `(x, y)`, bit `7 - (x mod 8)` of
byte `(x div 8) + (63 - y)*16` equals bit `y mod 8` of raw byte
`x + (y div 8)*128`. -/
theorem repack_bit_of_raw_bit (raw : Array Nat) (hraw : raw.size = 1024) :
    ∃ processed, repack raw = some processed ∧ processed.size = 1024 ∧
      ∀ x y, x < 128 → y < 64 →
        ∃ c r, processed[(x / 8) + (63 - y) * 16]? = some c ∧
          raw[x + (y / 8) * 128]? = some r ∧
          c.testBit (7 - (x % 8)) = r.testBit (y % 8) := by
  obtain ⟨p, hp, hsz, hbits⟩ := repack_spec raw hraw
  refine ⟨p, hp, hsz, fun x y hx hy => ?_⟩
  have hr : x + y / 8 * 128 < raw.size := by omega
  have hc : x / 8 + (63 - y) * 16 < p.size := by omega
  refine ⟨p[x / 8 + (63 - y) * 16], raw[x + y / 8 * 128],
    Array.getElem?_eq_getElem hc, Array.getElem?_eq_getElem hr, ?_⟩
  have h := hbits x y hx hy
  simpa only [cbit, rbit, Array.getElem?_eq_getElem hc, Array.getElem?_eq_getElem hr,
    Option.getD_some] using h

theorem repack_bit_of_raw_bit_witness :
    (mkArray 1024 255).size = 1024 ∧
    ∃ processed, repack (mkArray 1024 255) = some processed ∧ processed.size = 1024 ∧
      ∀ x y, x < 128 → y < 64 →
        ∃ c r, processed[(x / 8) + (63 - y) * 16]? = some c ∧
          (mkArray 1024 255)[x + (y / 8) * 128]? = some r ∧
          c.testBit (7 - (x % 8)) = r.testBit (y % 8) :=
  ⟨Array.size_mkArray _ _, repack_bit_of_raw_bit (mkArray 1024 255) (Array.size_mkArray _ _)⟩

/-- C3: for every 1024-byte raw frame, every source pixel `(x, y)` of the
128x64 grid and every `px`, `py` in `0..3`, the four preview bytes at offset
`((4*y + py)*512 + (4*x + px))*4` equal the four thumbnail bytes at offset
`(y*128 + x)*4`, and these are four bytes of each buffer. -/
theorem preview_block_eq_thumbnail_pixel (raw rgba_preview rgba_thumb : Array Nat)
    (hraw : raw.size = 1024) (hpv : rgba_preview.size = 524288)
    (hth : rgba_thumb.size = 32768) :
    ∃ out, ProcessBitmap raw rgba_preview rgba_thumb = some out ∧
      out.1.size = 524288 ∧ out.2.size = 32768 ∧
      ∀ x y px py, x < 128 → y < 64 → px < 4 → py < 4 →
        out.1.extract (((4 * y + py) * 512 + (4 * x + px)) * 4)
            (((4 * y + py) * 512 + (4 * x + px)) * 4 + 4)
          = out.2.extract ((y * 128 + x) * 4) ((y * 128 + x) * 4 + 4) := by
  obtain ⟨out, hout, h1, h2, hthj, hpvj⟩ :=
    ProcessBitmap_spec raw rgba_preview rgba_thumb hraw hpv hth
  refine ⟨out, hout, h1, h2, fun x y px py hx hy hpx hpy => ?_⟩
  apply extract4_eq _ _ _ (by omega) (by rw [Array.size_extract]; omega)
  intro k hk
  rw [Array.getElem?_extract, if_pos (by omega), hpvj _ (by omega), hthj _ (by omega)]
  have e1 : (((4 * y + py) * 512 + (4 * x + px)) * 4 + k) / 4 % 512 / 4 = x := by omega
  have e2 : (((4 * y + py) * 512 + (4 * x + px)) * 4 + k) / 4 / 512 / 4 = y := by omega
  have e3 : (((4 * y + py) * 512 + (4 * x + px)) * 4 + k) % 4 = k := by omega
  have e4 : ((y * 128 + x) * 4 + k) / 4 % 128 = x := by omega
  have e5 : ((y * 128 + x) * 4 + k) / 4 / 128 = y := by omega
  have e6 : ((y * 128 + x) * 4 + k) % 4 = k := by omega
  rw [e1, e2, e3, e4, e5, e6]

theorem preview_block_eq_thumbnail_pixel_witness :
    (mkArray 1024 170).size = 1024 ∧ (mkArray 524288 1).size = 524288 ∧
    (mkArray 32768 2).size = 32768 ∧
    ∃ out, ProcessBitmap (mkArray 1024 170) (mkArray 524288 1) (mkArray 32768 2) = some out ∧
      out.1.size = 524288 ∧ out.2.size = 32768 ∧
      ∀ x y px py, x < 128 → y < 64 → px < 4 → py < 4 →
        out.1.extract (((4 * y + py) * 512 + (4 * x + px)) * 4)
            (((4 * y + py) * 512 + (4 * x + px)) * 4 + 4)
          = out.2.extract ((y * 128 + x) * 4) ((y * 128 + x) * 4 + 4) :=
  ⟨Array.size_mkArray _ _, Array.size_mkArray _ _, Array.size_mkArray _ _,
    preview_block_eq_thumbnail_pixel (mkArray 1024 170) (mkArray 524288 1) (mkArray 32768 2)
      (Array.size_mkArray _ _) (Array.size_mkArray _ _) (Array.size_mkArray _ _)⟩

/-! ## Claims on the capture state machine -/

/-- C4: from a Capturing state whose retry count is 0, polls that deliver
nothing leave the session Capturing as long as there are at most 99 of them
(only the retry count moves), and the 100th ends it: the session is no longer
Capturing, bytes-received and the image list are unchanged, and the status
reports `bytes_received/1024`.  In particular, after `StartCapture` a link that
stays empty times out at the 100th poll, not at the 99th, with `0/1024`. -/
theorem timeout_after_exactly_100_empty_polls (s : AppState)
    (hcap : s.is_capturing = true) (hret : s.capture_retries = 0)
    (rds : List ReadResult) (he : ∀ rd ∈ rds, rd.ok = false ∨ rd.data.size = 0) :
    (rds.length ≤ 99 → ∃ t, polls s rds = some t ∧ t.is_capturing = true ∧
        t.capture_retries = rds.length ∧ t.capture_bytes = s.capture_bytes ∧
        t.screenshots = s.screenshots ∧ t.status_message = s.status_message) ∧
    (rds.length = 100 → ∃ t, polls s rds = some t ∧ t.is_capturing = false ∧
        t.capture_bytes = s.capture_bytes ∧ t.screenshots = s.screenshots ∧
        t.status_message = "Timeout: " ++ toString s.capture_bytes ++ "/1024 bytes") ∧
    (∀ (s0 : AppState) (wr : WriteResult), s0.is_connected = true → s0.is_capturing = false →
      (∃ t, polls (StartCapture s0 wr).1 (List.replicate 99 ⟨true, #[]⟩) = some t ∧
        t.is_capturing = true) ∧
      (∃ t, polls (StartCapture s0 wr).1 (List.replicate 100 ⟨true, #[]⟩) = some t ∧
        t.is_capturing = false ∧ t.capture_bytes = 0 ∧
        t.status_message = "Timeout: 0/1024 bytes")) := by
  refine ⟨fun hlen => ?_, fun hlen => ?_, fun s0 wr hconn hidle => ⟨?_, ?_⟩⟩
  · have h := polls_empty_lt rds he s hcap (by rw [hret]; omega)
    exact ⟨_, h, hcap, by simp [hret], rfl, rfl, rfl⟩
  · have h := polls_empty_eq rds he s hcap (by omega) (by rw [hret, hlen]; rfl)
    exact ⟨_, h, rfl, rfl, rfl, timeout_text _⟩
  · have hc : (StartCapture s0 wr).1.is_capturing = true := by
      simp [StartCapture, hconn, hidle]
    have hr : (StartCapture s0 wr).1.capture_retries = 0 := by
      simp [StartCapture, hconn, hidle]
    have h := polls_empty_lt (List.replicate 99 (⟨true, #[]⟩ : ReadResult))
      (fun rd hrd => by rw [List.eq_of_mem_replicate hrd]; right; rfl)
      (StartCapture s0 wr).1 hc (by rw [hr]; simp)
    exact ⟨_, h, hc⟩
  · have hc : (StartCapture s0 wr).1.is_capturing = true := by
      simp [StartCapture, hconn, hidle]
    have hr : (StartCapture s0 wr).1.capture_retries = 0 := by
      simp [StartCapture, hconn, hidle]
    have hb : (StartCapture s0 wr).1.capture_bytes = 0 := by
      simp [StartCapture, hconn, hidle]
    have h := polls_empty_eq (List.replicate 100 (⟨true, #[]⟩ : ReadResult))
      (fun rd hrd => by rw [List.eq_of_mem_replicate hrd]; right; rfl)
      (StartCapture s0 wr).1 hc (by simp) (by rw [hr]; simp)
    refine ⟨_, h, rfl, hb, ?_⟩
    simp only [hb]
    exact timeout_text 0

theorem timeout_after_exactly_100_empty_polls_witness :
    (polls { initState with is_connected := true, is_capturing := true, capture_bytes := 300 }
        (List.replicate 99 ⟨false, #[7]⟩)).map (fun t => t.is_capturing) = some true ∧
    (polls { initState with is_connected := true, is_capturing := true, capture_bytes := 300 }
        (List.replicate 100 ⟨false, #[7]⟩)).map (fun t => (t.is_capturing, t.status_message))
      = some (false, "Timeout: 300/1024 bytes") := by
  have h99 := (timeout_after_exactly_100_empty_polls
    { initState with is_connected := true, is_capturing := true, capture_bytes := 300 }
    rfl rfl (List.replicate 99 ⟨false, #[7]⟩)
    (fun rd hrd => by rw [List.eq_of_mem_replicate hrd]; left; rfl)).1 (by simp)
  have h100 := (timeout_after_exactly_100_empty_polls
    { initState with is_connected := true, is_capturing := true, capture_bytes := 300 }
    rfl rfl (List.replicate 100 ⟨false, #[7]⟩)
    (fun rd hrd => by rw [List.eq_of_mem_replicate hrd]; left; rfl)).2.1 (by simp)
  obtain ⟨t, ht, hc, -⟩ := h99
  obtain ⟨u, hu, hc2, -, -, hmsg⟩ := h100
  refine ⟨by rw [ht]; simp [hc], ?_⟩
  rw [hu]
  simp only [Option.map_some', hc2, hmsg]
  rfl

/-- C5: in every reachable state a poll returns, and it appends an image exactly
when the session is Capturing and the poll brings bytes-received to 1024 (from
below): then one image is appended, its raw frame is the full 1024-byte
accumulation buffer, and the session stops capturing.  Every other poll, the
one that times out included, leaves the image list, `next_id` and the selection
as they were. -/
theorem image_appended_iff_capture_completes (s : AppState) (hs : Reachable s)
    (rd : ReadResult) :
    ∃ t ops, UpdateCapture s rd = some (t, ops) ∧
      (s.is_capturing = true → s.capture_bytes < 1024) ∧
      ((s.is_capturing = true ∧ t.capture_bytes = 1024) →
        ∃ ss, t.screenshots = s.screenshots ++ [ss] ∧ ss.raw_bitmap = t.capture_buffer ∧
          ss.raw_bitmap.size = 1024 ∧ t.is_capturing = false) ∧
      (¬ (s.is_capturing = true ∧ t.capture_bytes = 1024) →
        t.screenshots = s.screenshots ∧ t.next_id = s.next_id ∧
          t.selected_screenshot = s.selected_screenshot) := by
  have hinv := CaptureInv_of_reachable s hs
  obtain ⟨t, ops, hupd, -, -, hyes, hno⟩ := UpdateCapture_inv s hinv rd
  refine ⟨t, ops, hupd, hinv.2.2.2.1, fun h => ?_, hno⟩
  obtain ⟨ss, h1, h2, h3, -, -, -, h4⟩ := hyes h
  exact ⟨ss, h1, h2, h3, h4⟩

theorem image_appended_iff_capture_completes_witness :
    Reachable exampleCapturing ∧
    ∃ t ops, UpdateCapture exampleCapturing ⟨true, #[1, 2, 3]⟩ = some (t, ops) ∧
      (exampleCapturing.is_capturing = true → exampleCapturing.capture_bytes < 1024) ∧
      ((exampleCapturing.is_capturing = true ∧ t.capture_bytes = 1024) →
        ∃ ss, t.screenshots = exampleCapturing.screenshots ++ [ss] ∧
          ss.raw_bitmap = t.capture_buffer ∧ ss.raw_bitmap.size = 1024 ∧
          t.is_capturing = false) ∧
      (¬ (exampleCapturing.is_capturing = true ∧ t.capture_bytes = 1024) →
        t.screenshots = exampleCapturing.screenshots ∧ t.next_id = exampleCapturing.next_id ∧
          t.selected_screenshot = exampleCapturing.selected_screenshot) :=
  ⟨exampleCapturing_reachable,
    image_appended_iff_capture_completes exampleCapturing exampleCapturing_reachable
      ⟨true, #[1, 2, 3]⟩⟩

/-- C6: in every reachable state `0 ≤ capture_bytes ≤ 1024` and
`capture_progress = floor (capture_bytes * 100 / 1024)`; and every poll made
while Capturing returns a state whose `capture_bytes` is at least what it
was. -/
theorem capture_bytes_bounded_and_monotone (s : AppState) (hs : Reachable s) :
    0 ≤ s.capture_bytes ∧ s.capture_bytes ≤ 1024 ∧
    s.capture_progress = s.capture_bytes * 100 / 1024 ∧
    ∀ rd : ReadResult, s.is_capturing = true →
      ∃ t ops, UpdateCapture s rd = some (t, ops) ∧ s.capture_bytes ≤ t.capture_bytes ∧
        t.capture_bytes ≤ 1024 := by
  have hinv := CaptureInv_of_reachable s hs
  refine ⟨hinv.2.1, hinv.2.2.1, hinv.2.2.2.2, fun rd _ => ?_⟩
  obtain ⟨t, ops, hupd, hinvt, hmono, -⟩ := UpdateCapture_inv s hinv rd
  exact ⟨t, ops, hupd, hmono, hinvt.2.2.1⟩

theorem capture_bytes_bounded_and_monotone_witness :
    Reachable examplePartial ∧
    0 ≤ examplePartial.capture_bytes ∧ examplePartial.capture_bytes ≤ 1024 ∧
    examplePartial.capture_progress = examplePartial.capture_bytes * 100 / 1024 ∧
    ∀ rd : ReadResult, examplePartial.is_capturing = true →
      ∃ t ops, UpdateCapture examplePartial rd = some (t, ops) ∧
        examplePartial.capture_bytes ≤ t.capture_bytes ∧ t.capture_bytes ≤ 1024 :=
  ⟨examplePartial_reachable,
    capture_bytes_bounded_and_monotone examplePartial examplePartial_reachable⟩

/-- C7: in a state that is not Capturing, a poll issues no operation to the
link (no read) and returns the state it was given, equal in every field. -/
theorem poll_when_not_capturing_is_noop (s : AppState) (hidle : s.is_capturing = false)
    (rd : ReadResult) : UpdateCapture s rd = some (s, []) := by
  unfold UpdateCapture
  rw [if_pos (by rw [hidle]; rfl)]

theorem poll_when_not_capturing_is_noop_witness :
    initState.is_capturing = false ∧
    UpdateCapture initState ⟨true, #[1, 2, 3]⟩ = some (initState, []) :=
  ⟨rfl, poll_when_not_capturing_is_noop initState rfl ⟨true, #[1, 2, 3]⟩⟩

/-- C8: in a connected, non-capturing state `StartCapture` issues to the link
exactly one purge of both buffers, then one write of the two bytes `41 41`,
then one flush, and nothing else; afterwards the session is Capturing with
bytes-received, retry count and progress 0 and a 1024-byte accumulation buffer
that is all zero. -/
theorem start_sends_exactly_the_command (s : AppState) (hconn : s.is_connected = true)
    (hidle : s.is_capturing = false) (wr : WriteResult) :
    (StartCapture s wr).2 = [LinkOp.purge true true, LinkOp.write #[0x41, 0x41], LinkOp.flush] ∧
    (StartCapture s wr).1.is_capturing = true ∧
    (StartCapture s wr).1.capture_bytes = 0 ∧
    (StartCapture s wr).1.capture_retries = 0 ∧
    (StartCapture s wr).1.capture_progress = 0 ∧
    (StartCapture s wr).1.capture_buffer.size = 1024 ∧
    ∀ i, i < 1024 → (StartCapture s wr).1.capture_buffer[i]? = some 0 := by
  have h : StartCapture s wr = ({ s with is_capturing := true
                                         capture_bytes := 0
                                         capture_retries := 0
                                         capture_progress := 0
                                         capture_buffer := mkArray BITMAP_SIZE 0 },
      [.purge true true, .write SCREENSHOT_CMD, .flush]) := by
    unfold StartCapture
    rw [if_neg (by simp [hconn, hidle])]
  rw [h]
  refine ⟨rfl, rfl, rfl, rfl, rfl, by simp [BITMAP_SIZE], fun i hi => ?_⟩
  simp only [Array.getElem?_mkArray, BITMAP_SIZE, hi, if_true]

theorem start_sends_exactly_the_command_witness :
    exampleConnected.is_connected = true ∧ exampleConnected.is_capturing = false ∧
    (StartCapture exampleConnected ⟨true, 2⟩).2
      = [LinkOp.purge true true, LinkOp.write #[0x41, 0x41], LinkOp.flush] ∧
    (StartCapture exampleConnected ⟨true, 2⟩).1.is_capturing = true ∧
    (StartCapture exampleConnected ⟨true, 2⟩).1.capture_bytes = 0 ∧
    (StartCapture exampleConnected ⟨true, 2⟩).1.capture_retries = 0 ∧
    (StartCapture exampleConnected ⟨true, 2⟩).1.capture_progress = 0 ∧
    (StartCapture exampleConnected ⟨true, 2⟩).1.capture_buffer.size = 1024 ∧
    ∀ i, i < 1024 → (StartCapture exampleConnected ⟨true, 2⟩).1.capture_buffer[i]? = some 0 :=
  ⟨rfl, rfl, start_sends_exactly_the_command exampleConnected rfl rfl ⟨true, 2⟩⟩

/-- C9 (as stated, refuted): in the connected idle state that follows a
successful connect, `StartCapture` with a write that reports failure (`ok =
false`, nothing written) returns a Capturing state and leaves the status
message as it was. -/
theorem start_with_failed_write_is_capturing :
    exampleConnected.is_connected = true ∧ exampleConnected.is_capturing = false ∧
    (StartCapture exampleConnected ⟨false, 0⟩).1.is_capturing = true ∧
    (StartCapture exampleConnected ⟨false, 0⟩).1.status_message
      = exampleConnected.status_message :=
  ⟨rfl, rfl, rfl, by rw [StartCapture_connected_idle exampleConnected rfl rfl]⟩

/-- C9 (amended): `StartCapture` does not look at what the write answered: in a
connected, non-capturing state the result is the same for every write result,
failed or not; the session is Capturing afterwards with its counters reset
(bytes-received, retry count and progress 0, accumulation buffer 1024 zero
bytes), the same three operations are issued to the link, and the status
message is unchanged, so a failed write is not reported. -/
theorem start_ignores_write_result (s : AppState) (hconn : s.is_connected = true)
    (hidle : s.is_capturing = false) (wr wr1 : WriteResult) :
    StartCapture s wr = StartCapture s wr1 ∧
    (StartCapture s wr).1.is_capturing = true ∧
    (StartCapture s wr).1.status_message = s.status_message ∧
    (StartCapture s wr).1.capture_bytes = 0 ∧
    (StartCapture s wr).1.capture_retries = 0 ∧
    (StartCapture s wr).1.capture_progress = 0 ∧
    (StartCapture s wr).1.capture_buffer = mkArray 1024 0 ∧
    (StartCapture s wr).2 = [LinkOp.purge true true, LinkOp.write #[0x41, 0x41], LinkOp.flush] := by
  rw [StartCapture_connected_idle s hconn hidle wr, StartCapture_connected_idle s hconn hidle wr1]
  exact ⟨rfl, rfl, rfl, rfl, rfl, rfl, rfl, rfl⟩

theorem start_ignores_write_result_witness :
    exampleConnected.is_connected = true ∧ exampleConnected.is_capturing = false ∧
    StartCapture exampleConnected ⟨false, 0⟩ = StartCapture exampleConnected ⟨true, 2⟩ ∧
    (StartCapture exampleConnected ⟨false, 0⟩).1.is_capturing = true ∧
    (StartCapture exampleConnected ⟨false, 0⟩).1.status_message
      = exampleConnected.status_message ∧
    (StartCapture exampleConnected ⟨false, 0⟩).1.capture_bytes = 0 ∧
    (StartCapture exampleConnected ⟨false, 0⟩).1.capture_retries = 0 ∧
    (StartCapture exampleConnected ⟨false, 0⟩).1.capture_progress = 0 ∧
    (StartCapture exampleConnected ⟨false, 0⟩).1.capture_buffer = mkArray 1024 0 ∧
    (StartCapture exampleConnected ⟨false, 0⟩).2
      = [LinkOp.purge true true, LinkOp.write #[0x41, 0x41], LinkOp.flush] :=
  ⟨rfl, rfl, start_ignores_write_result exampleConnected rfl rfl ⟨false, 0⟩ ⟨true, 2⟩⟩

/-- C10 (as stated, refuted): `examplePartial` is reachable and Capturing with
five bytes received.  `StartCapture` called in it changes nothing and sends nothing:
bytes-received is still 5 and the token is not sent again.  After
`SerialDisconnect` a further `StartCapture` changes nothing either:
bytes-received is still 5 and nothing is sent. -/
theorem start_while_capturing_keeps_session :
    Reachable examplePartial ∧
    examplePartial.is_capturing = true ∧ examplePartial.capture_bytes = 5 ∧
    StartCapture examplePartial ⟨true, 2⟩ = (examplePartial, []) ∧
    (StartCapture examplePartial ⟨true, 2⟩).1.capture_bytes = 5 ∧
    (StartCapture (SerialDisconnect examplePartial).1 ⟨true, 2⟩).2 = [] ∧
    (StartCapture (SerialDisconnect examplePartial).1 ⟨true, 2⟩).1.capture_bytes = 5 ∧
    (StartCapture (SerialDisconnect examplePartial).1 ⟨true, 2⟩).1.is_capturing = false :=
  ⟨examplePartial_reachable, rfl, rfl, rfl, rfl, rfl, rfl, rfl⟩

/-- C10 (amended): for every Capturing state, `SerialDisconnect` ends the
session (not Capturing) and appends no image; `StartCapture` called while
Capturing, or after the disconnect and before a new connection, is stopped by
its guard: the state is unchanged and nothing is sent; after a new successful
`SerialConnect`, `StartCapture` begins a fresh session (Capturing,
bytes-received 0, retry count 0, zeroed buffer) and sends the token again.  In
all of these the image list and `next_id` are as they were. -/
theorem disconnect_abandons_and_start_is_guarded (s : AppState)
    (hcap : s.is_capturing = true) (wr : WriteResult) (portName : String) (handle : Nat) :
    (SerialDisconnect s).1.is_capturing = false ∧
    (SerialDisconnect s).1.screenshots = s.screenshots ∧
    (SerialDisconnect s).1.next_id = s.next_id ∧
    StartCapture s wr = (s, []) ∧
    StartCapture (SerialDisconnect s).1 wr = ((SerialDisconnect s).1, []) ∧
    (StartCapture (SerialConnect (SerialDisconnect s).1 portName (.configured handle)).1 wr).2
      = [LinkOp.purge true true, LinkOp.write #[0x41, 0x41], LinkOp.flush] ∧
    (StartCapture (SerialConnect (SerialDisconnect s).1 portName (.configured handle)).1
      wr).1.is_capturing = true ∧
    (StartCapture (SerialConnect (SerialDisconnect s).1 portName (.configured handle)).1
      wr).1.capture_bytes = 0 ∧
    (StartCapture (SerialConnect (SerialDisconnect s).1 portName (.configured handle)).1
      wr).1.capture_retries = 0 ∧
    (StartCapture (SerialConnect (SerialDisconnect s).1 portName (.configured handle)).1
      wr).1.capture_buffer = mkArray 1024 0 ∧
    (StartCapture (SerialConnect (SerialDisconnect s).1 portName (.configured handle)).1
      wr).1.screenshots = s.screenshots ∧
    (StartCapture (SerialConnect (SerialDisconnect s).1 portName (.configured handle)).1
      wr).1.next_id = s.next_id := by
  refine ⟨rfl, rfl, rfl, ?_, rfl, rfl, rfl, rfl, rfl, rfl, rfl, rfl⟩
  unfold StartCapture
  rw [if_pos (by simp [hcap])]

theorem disconnect_abandons_and_start_is_guarded_witness :
    examplePartial.is_capturing = true ∧
    (SerialDisconnect examplePartial).1.is_capturing = false ∧
    StartCapture examplePartial ⟨true, 2⟩ = (examplePartial, []) ∧
    (StartCapture (SerialConnect (SerialDisconnect examplePartial).1 "COM4"
      (.configured 9)).1 ⟨true, 2⟩).1.capture_bytes = 0 :=
  have h := disconnect_abandons_and_start_is_guarded examplePartial rfl ⟨true, 2⟩ "COM4" 9
  ⟨rfl, h.1, h.2.2.2.1, h.2.2.2.2.2.2.2.1⟩

/-! ## Claims on disconnect and the image store -/

/-- C11: `SerialDisconnect` releases the handle (it is `INVALID_HANDLE_VALUE`
afterwards, closed if it was held), clears `is_connected` and `is_capturing`,
leaves the stored images, `next_id` and the selection as they were, and is
idempotent: a second call returns the state of the first call and issues
nothing to the link. -/
theorem disconnect_is_idempotent (s : AppState) :
    (SerialDisconnect s).1.serial_handle = none ∧
    (SerialDisconnect s).1.is_connected = false ∧
    (SerialDisconnect s).1.is_capturing = false ∧
    (SerialDisconnect s).1.screenshots = s.screenshots ∧
    (SerialDisconnect s).1.next_id = s.next_id ∧
    (SerialDisconnect s).1.selected_screenshot = s.selected_screenshot ∧
    (SerialDisconnect s).2 = (if s.serial_handle = none then [] else [LinkOp.close]) ∧
    (SerialDisconnect (SerialDisconnect s).1).1 = (SerialDisconnect s).1 ∧
    (SerialDisconnect (SerialDisconnect s).1).2 = [] := by
  refine ⟨rfl, rfl, rfl, rfl, rfl, rfl, ?_, rfl, rfl⟩
  unfold SerialDisconnect
  by_cases h : s.serial_handle = none <;> simp [h]

/-- C15: ids are handed out sequentially from 1 and never reused.  In a run in
which `n` captures have completed `next_id` is `n + 1`, and the poll that
completes the next capture appends an image with id `n + 1`, whatever was
deleted or cleared before.  In every reachable state the ids of the stored
images are at least 1, below `next_id`, and strictly increasing in list
order. -/
theorem ids_sequential_and_never_reused :
    (∀ (n : Nat) (s : AppState), Run n s →
      s.next_id = (n : Int) + 1 ∧
      ∀ (rd : ReadResult) (t : AppState), step s (.poll rd) = some t →
        completesCapture s (.poll rd) t →
        ∃ ss, t.screenshots = s.screenshots ++ [ss] ∧ ss.id = (n : Int) + 1 ∧
          t.next_id = (n : Int) + 2) ∧
    (∀ s : AppState, Reachable s →
      (∃ n, Run n s) ∧ 1 ≤ s.next_id ∧
      (∀ ss ∈ s.screenshots, 1 ≤ ss.id ∧ ss.id < s.next_id) ∧
      List.Pairwise (fun a b : Screenshot => a.id < b.id) s.screenshots) := by
  refine ⟨fun n s hrun => ⟨Run_next_id hrun, fun rd t hstep hc => ?_⟩, fun s hs => ?_⟩
  · have hinv := CaptureInv_of_reachable s (Run_reachable hrun)
    have hid := Run_next_id hrun
    obtain ⟨rd1, ha, hcap, hfull⟩ := hc
    obtain ⟨u, ops, hupd, -, -, hyes, -⟩ := UpdateCapture_inv s hinv rd
    simp only [step, hupd, Option.map_some'] at hstep
    have hs := Option.some.inj hstep
    subst hs
    obtain ⟨ss, h1, -, -, h2, h3, -⟩ := hyes ⟨hcap, hfull⟩
    exact ⟨ss, h1, by rw [h2, hid], by rw [h3, hid]; ring⟩
  · obtain ⟨h1, h2, h3⟩ := IdInv_of_reachable s hs
    exact ⟨Run_of_reachable s hs, h1, h2, h3⟩

theorem ids_sequential_and_never_reused_witness :
    (Run 0 exampleThreeChunks ∧
      step exampleThreeChunks (.poll exampleChunk) = some exampleOneImage ∧
      completesCapture exampleThreeChunks (.poll exampleChunk) exampleOneImage ∧
      exampleThreeChunks.next_id = ((0 : Nat) : Int) + 1 ∧
      ∃ ss, exampleOneImage.screenshots = exampleThreeChunks.screenshots ++ [ss] ∧
        ss.id = ((0 : Nat) : Int) + 1 ∧ exampleOneImage.next_id = ((0 : Nat) : Int) + 2) ∧
    (Run 1 exampleSecondThreeChunks ∧
      step exampleSecondThreeChunks (.poll exampleChunk) = some exampleTwoImages ∧
      completesCapture exampleSecondThreeChunks (.poll exampleChunk) exampleTwoImages ∧
      exampleSecondThreeChunks.next_id = ((1 : Nat) : Int) + 1 ∧
      ∃ ss, exampleTwoImages.screenshots = exampleSecondThreeChunks.screenshots ++ [ss] ∧
        ss.id = ((1 : Nat) : Int) + 1 ∧ exampleTwoImages.next_id = ((1 : Nat) : Int) + 2) ∧
    (Run 2 exampleThirdThreeChunks ∧ exampleThirdThreeChunks.screenshots = [] ∧
      step exampleThirdThreeChunks (.poll exampleChunk) = some exampleAfterClear ∧
      completesCapture exampleThirdThreeChunks (.poll exampleChunk) exampleAfterClear ∧
      exampleThirdThreeChunks.next_id = ((2 : Nat) : Int) + 1 ∧
      ∃ ss, exampleAfterClear.screenshots = exampleThirdThreeChunks.screenshots ++ [ss] ∧
        ss.id = ((2 : Nat) : Int) + 1 ∧ exampleAfterClear.next_id = ((2 : Nat) : Int) + 2) ∧
    (Reachable exampleTwoImages ∧ exampleTwoImages.screenshots.length = 2 ∧
      (∃ n, Run n exampleTwoImages) ∧ 1 ≤ exampleTwoImages.next_id ∧
      (∀ ss ∈ exampleTwoImages.screenshots, 1 ≤ ss.id ∧ ss.id < exampleTwoImages.next_id) ∧
      List.Pairwise (fun a b : Screenshot => a.id < b.id) exampleTwoImages.screenshots) := by
  obtain ⟨hr1, -, -, -, hs1, hc1, -⟩ := exampleOneImage_spec
  obtain ⟨hr2, -, -, -, hs2, hc2, hrun2, -, -, ⟨a, b, hab, -, -⟩, -⟩ := exampleTwoImages_spec
  obtain ⟨hr3, -, he3, -, hs3, hc3, -⟩ := exampleAfterClear_spec
  have h := ids_sequential_and_never_reused
  exact ⟨⟨hr1, hs1, hc1, (h.1 0 _ hr1).1, (h.1 0 _ hr1).2 _ _ hs1 hc1⟩,
    ⟨hr2, hs2, hc2, (h.1 1 _ hr2).1, (h.1 1 _ hr2).2 _ _ hs2 hc2⟩,
    ⟨hr3, he3, hs3, hc3, (h.1 2 _ hr3).1, (h.1 2 _ hr3).2 _ _ hs3 hc3⟩,
    ⟨Run_reachable hrun2, by rw [hab]; rfl, h.2 _ (Run_reachable hrun2)⟩⟩

/-- C16: with a valid selection `k` in a store of `n ≥ 1` images,
`DeleteSelected` returns the store with exactly the `k`-th image removed and
the others in their order, and the new selection is `min (k, n - 2)`: a valid
index when `n ≥ 2`, and `-1` exactly when the store has become empty.  With
the selection `-1`, `DeleteSelected` changes nothing. -/
theorem delete_selected_removes_selected_image (s : AppState) :
    (∀ k : Nat, s.selected_screenshot = (k : Int) → k < s.screenshots.length →
      ∃ t, DeleteSelected s = some t ∧
        t.screenshots = s.screenshots.take k ++ s.screenshots.drop (k + 1) ∧
        t.screenshots.length = s.screenshots.length - 1 ∧
        t.selected_screenshot = min (k : Int) ((s.screenshots.length : Int) - 2) ∧
        (2 ≤ s.screenshots.length →
          0 ≤ t.selected_screenshot ∧
          t.selected_screenshot < (t.screenshots.length : Int)) ∧
        (t.selected_screenshot = -1 ↔ t.screenshots = [])) ∧
    (s.selected_screenshot = -1 → DeleteSelected s = some s) := by
  refine ⟨fun k hk hlt => ?_, fun hnone => ?_⟩
  · have hlen : (s.screenshots.eraseIdx k).length = s.screenshots.length - 1 := by
      rw [List.length_eraseIdx, if_pos hlt]
    have hsel : (if s.selected_screenshot ≥ ((s.screenshots.eraseIdx k).length : Int)
        then ((s.screenshots.eraseIdx k).length : Int) - 1 else s.selected_screenshot)
        = min (k : Int) ((s.screenshots.length : Int) - 2) := by
      rw [hlen, hk]
      split <;> omega
    have hrb : ∃ rb : String,
        (if min (k : Int) ((s.screenshots.length : Int) - 2) ≥ 0
          then ((s.screenshots.eraseIdx k)[(min (k : Int)
            ((s.screenshots.length : Int) - 2)).toNat]?).map (fun ss => ss.name)
          else some "") = some rb := by
      by_cases h0 : min (k : Int) ((s.screenshots.length : Int) - 2) ≥ 0
      · rw [if_pos h0]
        have hin : (min (k : Int) ((s.screenshots.length : Int) - 2)).toNat
            < (s.screenshots.eraseIdx k).length := by rw [hlen]; omega
        rw [List.getElem?_eq_getElem hin]
        exact ⟨_, rfl⟩
      · rw [if_neg h0]; exact ⟨_, rfl⟩
    obtain ⟨rb, hrb⟩ := hrb
    refine ⟨{ s with screenshots := s.screenshots.eraseIdx k
                     selected_screenshot := min (k : Int) ((s.screenshots.length : Int) - 2)
                     rename_buffer := rb }, ?_, ?_, hlen, rfl, fun h2 => ?_, ?_⟩
    · unfold DeleteSelected
      rw [if_neg (by omega)]
      have hk' : s.selected_screenshot.toNat = k := by omega
      rw [hk', if_pos hlt]
      simp only [hsel, hrb, Option.map_some']
    · exact List.eraseIdx_eq_take_drop_succ _ _
    · simp only [hlen]; omega
    · simp only
      constructor
      · intro h
        apply List.eq_nil_of_length_eq_zero
        rw [hlen]; omega
      · intro h
        have h0 : (s.screenshots.eraseIdx k).length = 0 := by rw [h]; rfl
        rw [hlen] at h0
        omega
  · unfold DeleteSelected
    rw [if_pos (by omega)]

theorem delete_selected_removes_selected_image_witness :
    exampleStore.selected_screenshot = ((1 : Nat) : Int) ∧ 1 < exampleStore.screenshots.length ∧
    ∃ t, DeleteSelected exampleStore = some t ∧
      t.screenshots = exampleStore.screenshots.take 1 ++ exampleStore.screenshots.drop (1 + 1) ∧
      t.screenshots.length = exampleStore.screenshots.length - 1 ∧
      t.selected_screenshot = min ((1 : Nat) : Int) ((exampleStore.screenshots.length : Int) - 2) ∧
      (2 ≤ exampleStore.screenshots.length →
        0 ≤ t.selected_screenshot ∧ t.selected_screenshot < (t.screenshots.length : Int)) ∧
      (t.selected_screenshot = -1 ↔ t.screenshots = []) :=
  ⟨rfl, by decide,
    (delete_selected_removes_selected_image exampleStore).1 1 rfl (by decide)⟩

/-- C19: in every reachable state `selected_screenshot` is `-1` exactly when the
image list is empty, and otherwise `0 ≤ selected_screenshot < number of
images`; so `screenshots[selected_screenshot]` under the guard
`selected_screenshot >= 0` is an element of the list. -/
theorem selection_in_range_when_reachable (s : AppState) (hs : Reachable s) :
    (s.selected_screenshot = -1 ↔ s.screenshots = []) ∧
    (s.screenshots ≠ [] →
      0 ≤ s.selected_screenshot ∧ s.selected_screenshot < (s.screenshots.length : Int)) ∧
    (0 ≤ s.selected_screenshot →
      ∃ ss, s.screenshots[s.selected_screenshot.toNat]? = some ss) := by
  rcases SelectionInv_of_reachable s hs with ⟨he, hsel⟩ | ⟨h0, hlt⟩
  · refine ⟨⟨fun _ => he, fun _ => hsel⟩, fun hne => absurd he hne, fun h => ?_⟩
    omega
  · have hne : s.screenshots ≠ [] := by
      intro h
      rw [h] at hlt
      simp at hlt
      omega
    refine ⟨⟨fun h => by omega, fun h => absurd h hne⟩, fun _ => ⟨h0, hlt⟩, fun _ => ?_⟩
    have hin : s.selected_screenshot.toNat < s.screenshots.length := by omega
    exact ⟨_, List.getElem?_eq_getElem hin⟩

theorem selection_in_range_when_reachable_witness :
    (Reachable exampleOneImage ∧ exampleOneImage.screenshots ≠ [] ∧
      exampleOneImage.selected_screenshot = 0 ∧
      (exampleOneImage.selected_screenshot = -1 ↔ exampleOneImage.screenshots = []) ∧
      (0 ≤ exampleOneImage.selected_screenshot ∧
        exampleOneImage.selected_screenshot < (exampleOneImage.screenshots.length : Int)) ∧
      ∃ ss, exampleOneImage.screenshots[exampleOneImage.selected_screenshot.toNat]? = some ss) ∧
    (Reachable exampleTwoImages ∧ exampleTwoImages.screenshots.length = 2 ∧
      exampleTwoImages.selected_screenshot = 1 ∧
      (exampleTwoImages.selected_screenshot = -1 ↔ exampleTwoImages.screenshots = []) ∧
      (0 ≤ exampleTwoImages.selected_screenshot ∧
        exampleTwoImages.selected_screenshot < (exampleTwoImages.screenshots.length : Int)) ∧
      ∃ ss, exampleTwoImages.screenshots[exampleTwoImages.selected_screenshot.toNat]?
        = some ss) ∧
    (Reachable exampleCapturing ∧ exampleCapturing.screenshots = [] ∧
      (exampleCapturing.selected_screenshot = -1 ↔ exampleCapturing.screenshots = [])) := by
  obtain ⟨-, -, -, -, -, -, hrun1, -, -, ⟨ss, hsh1, -⟩, -, hsel1⟩ := exampleOneImage_spec
  obtain ⟨-, -, -, -, -, -, hrun2, -, -, ⟨a, b, hab, -, -⟩, -, hsel2⟩ := exampleTwoImages_spec
  have hne1 : exampleOneImage.screenshots ≠ [] := by rw [hsh1]; simp
  have hne2 : exampleTwoImages.screenshots ≠ [] := by rw [hab]; simp
  have h1 := selection_in_range_when_reachable exampleOneImage (Run_reachable hrun1)
  have h2 := selection_in_range_when_reachable exampleTwoImages (Run_reachable hrun2)
  have h0 := selection_in_range_when_reachable exampleCapturing exampleCapturing_reachable
  exact ⟨⟨Run_reachable hrun1, hne1, hsel1, h1.1, h1.2.1 hne1, h1.2.2 (by rw [hsel1])⟩,
    ⟨Run_reachable hrun2, by rw [hab]; rfl, hsel2, h2.1, h2.2.1 hne2,
      h2.2.2 (by rw [hsel2]; decide)⟩,
    ⟨exampleCapturing_reachable, rfl, h0.1⟩⟩

/-! ## Further claims on the bitmap pipeline and the capture -/

/-- C18: for every 1024-byte raw frame and output buffers of the sizes that
`UpdateCapture` allocates (512*256*4 = 524288 and 128*64*4 = 32768 bytes),
`ProcessBitmap` returns, so none of its checked accesses to `raw`, to the local
canonical buffer and to the two outputs is out of bounds; both outputs keep
their size, every byte of both is a colour byte fixed by the raw frame, and the
result is the same whatever the two output buffers held before.  The call made
by `UpdateCapture` on a full 1024-byte capture buffer returns as well.  (An
access outside a buffer makes `load` and `store`, hence the whole call, fail.) -/
theorem ProcessBitmap_in_bounds_and_independent_of_prior_contents
    (raw pv th pv1 th1 : Array Nat) (hraw : raw.size = 1024)
    (hpv : pv.size = 524288) (hth : th.size = 32768)
    (hpv1 : pv1.size = 524288) (hth1 : th1.size = 32768) :
    (∃ out, ProcessBitmap raw pv th = some out ∧
      out.1.size = 512 * 256 * 4 ∧ out.2.size = 128 * 64 * 4 ∧
      (∀ j, j < 32768 → ∃ r, raw[j / 4 % 128 + (j / 4 / 128) / 8 * 128]? = some r ∧
        out.2[j]? = (if r.testBit (j / 4 / 128 % 8) then COLOR_DARK else COLOR_LIGHT)[j % 4]?) ∧
      (∀ j, j < 524288 → ∃ r, raw[j / 4 % 512 / 4 + (j / 4 / 512 / 4) / 8 * 128]? = some r ∧
        out.1[j]? = (if r.testBit (j / 4 / 512 / 4 % 8)
          then COLOR_DARK else COLOR_LIGHT)[j % 4]?)) ∧
    ProcessBitmap raw pv th = ProcessBitmap raw pv1 th1 ∧
    (∀ s : AppState, s.capture_buffer.size = 1024 → ∃ t, finishCapture s = some t) ∧
    (∀ (buf : Array Nat) (i : Int), i < 0 ∨ (buf.size : Int) ≤ i →
      load buf i = none ∧ ∀ v, store buf i v = none) := by
  obtain ⟨out, hout, h1, h2, hthj, hpvj⟩ := ProcessBitmap_spec raw pv th hraw hpv hth
  obtain ⟨out1, hout1, g1, g2, gthj, gpvj⟩ := ProcessBitmap_spec raw pv1 th1 hraw hpv1 hth1
  refine ⟨⟨out, hout, h1, h2, fun j hj => ?_, fun j hj => ?_⟩, ?_, fun s hs => ?_,
    load_store_out_of_bounds⟩
  · have hr : j / 4 % 128 + (j / 4 / 128) / 8 * 128 < raw.size := by omega
    refine ⟨raw[j / 4 % 128 + (j / 4 / 128) / 8 * 128], Array.getElem?_eq_getElem hr, ?_⟩
    rw [hthj j hj]
    simp only [rbit, Array.getElem?_eq_getElem hr, Option.getD_some]
  · have hr : j / 4 % 512 / 4 + (j / 4 / 512 / 4) / 8 * 128 < raw.size := by omega
    refine ⟨raw[j / 4 % 512 / 4 + (j / 4 / 512 / 4) / 8 * 128], Array.getElem?_eq_getElem hr, ?_⟩
    rw [hpvj j hj]
    simp only [rbit, Array.getElem?_eq_getElem hr, Option.getD_some]
  · rw [hout, hout1]
    have e1 : out.1 = out1.1 := by
      apply Array.ext
      · rw [h1, g1]
      · intro i hi1 hi2
        have hi : i < 524288 := by rw [h1] at hi1; exact hi1
        have ha := hpvj i hi
        have hb := gpvj i hi
        rw [Array.getElem?_eq_getElem hi1] at ha
        rw [Array.getElem?_eq_getElem hi2, ← ha] at hb
        exact (Option.some.inj hb).symm
    have e2 : out.2 = out1.2 := by
      apply Array.ext
      · rw [h2, g2]
      · intro i hi1 hi2
        have hi : i < 32768 := by rw [h2] at hi1; exact hi1
        have ha := hthj i hi
        have hb := gthj i hi
        rw [Array.getElem?_eq_getElem hi1] at ha
        rw [Array.getElem?_eq_getElem hi2, ← ha] at hb
        exact (Option.some.inj hb).symm
    rw [Prod.ext e1 e2]
  · obtain ⟨o, -, hfin⟩ := finishCapture_spec s hs
    exact ⟨_, hfin⟩

theorem ProcessBitmap_in_bounds_and_independent_of_prior_contents_witness :
    (mkArray 1024 85).size = 1024 ∧
    ProcessBitmap (mkArray 1024 85) (mkArray 524288 0) (mkArray 32768 0)
      = ProcessBitmap (mkArray 1024 85) (mkArray 524288 255) (mkArray 32768 17) :=
  ⟨Array.size_mkArray _ _,
    (ProcessBitmap_in_bounds_and_independent_of_prior_contents (mkArray 1024 85)
      (mkArray 524288 0) (mkArray 32768 0) (mkArray 524288 255) (mkArray 32768 17)
      (Array.size_mkArray _ _) (Array.size_mkArray _ _) (Array.size_mkArray _ _)
      (Array.size_mkArray _ _) (Array.size_mkArray _ _)).2.1⟩

/-- C13: from the initial state, after a successful connect and `StartCapture`,
four polls that deliver 256 bytes each leave the session Capturing after the
first three (progress 25, 50, 75) and complete at the fourth: exactly one image
is stored, with id 1, its raw frame is the four chunks one after the other, it
is the selected image, and no timeout is reported.  Whatever polls follow
change nothing. -/
theorem four_polls_of_256_bytes_complete_one_image (portName : String) (handle : Nat)
    (wr : WriteResult) (d1 d2 d3 d4 : Array Nat)
    (h1 : d1.size = 256) (h2 : d2.size = 256) (h3 : d3.size = 256) (h4 : d4.size = 256)
    (s1 : AppState)
    (hs1 : s1 = (StartCapture (SerialConnect initState portName (.configured handle)).1 wr).1) :
    ∃ t1 t2 t3 t4 ss,
      polls s1 [⟨true, d1⟩] = some t1 ∧ t1.is_capturing = true ∧ t1.capture_progress = 25 ∧
      t1.screenshots = [] ∧
      polls s1 [⟨true, d1⟩, ⟨true, d2⟩] = some t2 ∧ t2.is_capturing = true ∧
      t2.capture_progress = 50 ∧ t2.screenshots = [] ∧
      polls s1 [⟨true, d1⟩, ⟨true, d2⟩, ⟨true, d3⟩] = some t3 ∧ t3.is_capturing = true ∧
      t3.capture_progress = 75 ∧ t3.screenshots = [] ∧
      polls s1 [⟨true, d1⟩, ⟨true, d2⟩, ⟨true, d3⟩, ⟨true, d4⟩] = some t4 ∧
      t4.is_capturing = false ∧ t4.capture_progress = 100 ∧
      t4.screenshots = [ss] ∧ ss.id = 1 ∧ ss.raw_bitmap = d1 ++ d2 ++ d3 ++ d4 ∧
      t4.selected_screenshot = 0 ∧ t4.next_id = 2 ∧
      t4.status_message = s1.status_message ∧
      ∀ rds : List ReadResult, polls t4 rds = some t4 := by
  have hconn : (SerialConnect initState portName (.configured handle)).1.is_connected = true := rfl
  have hidle : (SerialConnect initState portName (.configured handle)).1.is_capturing = false :=
    rfl
  have hacc0 : Accumulated [] s1 := by
    rw [hs1]; exact Accumulated_after_start _ hconn hidle wr
  have hshots0 : s1.screenshots = [] := by
    rw [hs1, StartCapture_connected_idle _ hconn hidle wr]; rfl
  have hid0 : s1.next_id = 1 := by
    rw [hs1, StartCapture_connected_idle _ hconn hidle wr]; rfl
  obtain ⟨t1, hu1, hacc1, hpr1, -, hsh1, hn1, -, hst1, -⟩ :=
    poll_data_partial [] s1 hacc0 ⟨true, d1⟩ rfl (by simp only [h1]; decide)
      (by simp only [h1]; decide)
  simp only [extract_256 d1 h1, h1, List.nil_append, List.length_nil] at hacc1 hpr1
  have hl1 : d1.toList.length = 256 := by rw [Array.length_toList (l := d1), h1]
  obtain ⟨t2, hu2, hacc2, hpr2, -, hsh2, hn2, -, hst2, -⟩ :=
    poll_data_partial _ t1 hacc1 ⟨true, d2⟩ rfl (by simp only [h2]; decide)
      (by simp only [h2, hl1]; decide)
  simp only [extract_256 d2 h2, h2, hl1] at hacc2 hpr2
  have hl2 : (d1.toList ++ d2.toList).length = 512 := by
    rw [List.length_append, hl1, Array.length_toList (l := d2), h2]
  obtain ⟨t3, hu3, hacc3, hpr3, -, hsh3, hn3, -, hst3, -⟩ :=
    poll_data_partial _ t2 hacc2 ⟨true, d3⟩ rfl (by simp only [h3]; decide)
      (by simp only [h3, hl2]; decide)
  simp only [extract_256 d3 h3, h3, hl2] at hacc3 hpr3
  have hl3 : (d1.toList ++ d2.toList ++ d3.toList).length = 768 := by
    rw [List.length_append, hl2, Array.length_toList (l := d3), h3]
  obtain ⟨t4, ss, hu4, hcap4, -, hpr4, -, hsh4, hraw4, -, hid4, hn4, hsel4, hst4, -⟩ :=
    poll_data_complete _ t3 hacc3 ⟨true, d4⟩ rfl (by simp only [h4]; decide)
      (by simp only [h4, hl3]; decide)
  simp only [extract_256 d4 h4] at hraw4
  have hl4 : (d1.toList ++ d2.toList ++ d3.toList ++ d4.toList).length = 1024 := by
    rw [List.length_append, hl3, Array.length_toList (l := d4), h4]
  have hraw : ss.raw_bitmap = d1 ++ d2 ++ d3 ++ d4 := by
    apply Array.ext'
    rw [hraw4, List.take_of_length_le (by rw [hl4]), Array.toList_append, Array.toList_append,
      Array.toList_append]
  have hp1 : polls s1 [⟨true, d1⟩] = some t1 := by
    simp [polls_cons, polls_nil, hu1]
  have hp2 : polls s1 [⟨true, d1⟩, ⟨true, d2⟩] = some t2 := by
    simp [polls_cons, polls_nil, hu1, hu2]
  have hp3 : polls s1 [⟨true, d1⟩, ⟨true, d2⟩, ⟨true, d3⟩] = some t3 := by
    simp [polls_cons, polls_nil, hu1, hu2, hu3]
  have hp4 : polls s1 [⟨true, d1⟩, ⟨true, d2⟩, ⟨true, d3⟩, ⟨true, d4⟩] = some t4 := by
    simp [polls_cons, polls_nil, hu1, hu2, hu3, hu4]
  refine ⟨t1, t2, t3, t4, ss, hp1, hacc1.1, ?_, by rw [hsh1, hshots0], hp2, hacc2.1, ?_,
    by rw [hsh2, hsh1, hshots0], hp3, hacc3.1, ?_, by rw [hsh3, hsh2, hsh1, hshots0], hp4,
    hcap4, hpr4, by rw [hsh4, hsh3, hsh2, hsh1, hshots0]; rfl,
    by rw [hid4, hn3, hn2, hn1, hid0], hraw, ?_, by rw [hn4, hn3, hn2, hn1, hid0]; rfl,
    by rw [hst4, hst3, hst2, hst1], fun rds => polls_idle t4 rds hcap4⟩
  · rw [hpr1]; decide
  · rw [hpr2]; decide
  · rw [hpr3]; decide
  · rw [hsel4, hsh3, hsh2, hsh1, hshots0]; rfl

theorem four_polls_of_256_bytes_complete_one_image_witness :
    (mkArray 256 1).size = 256 ∧ (mkArray 256 2).size = 256 ∧ (mkArray 256 3).size = 256 ∧
    (mkArray 256 4).size = 256 ∧
    ∃ t4 ss,
      polls exampleCapturing
        [⟨true, mkArray 256 1⟩, ⟨true, mkArray 256 2⟩, ⟨true, mkArray 256 3⟩,
          ⟨true, mkArray 256 4⟩] = some t4 ∧
      t4.is_capturing = false ∧ t4.screenshots = [ss] ∧ ss.id = 1 ∧
      ss.raw_bitmap = mkArray 256 1 ++ mkArray 256 2 ++ mkArray 256 3 ++ mkArray 256 4 := by
  obtain ⟨t1, t2, t3, t4, ss, -, -, -, -, -, -, -, -, -, -, -, -, h4, hc, -, hs, hid, hraw, -⟩ :=
    four_polls_of_256_bytes_complete_one_image "COM3" 1 ⟨true, 2⟩ (mkArray 256 1)
      (mkArray 256 2) (mkArray 256 3) (mkArray 256 4) (Array.size_mkArray _ _)
      (Array.size_mkArray _ _) (Array.size_mkArray _ _) (Array.size_mkArray _ _)
      exampleCapturing rfl
  exact ⟨Array.size_mkArray _ _, Array.size_mkArray _ _, Array.size_mkArray _ _,
    Array.size_mkArray _ _, t4, ss, h4, hc, hs, hid, hraw⟩

/-- C14: take any state, in particular one in the middle of a capture with
`capture_bytes = k`, `0 < k < 1024`, and any buffer contents.  `SerialDisconnect`
ends the session and leaves `k` and the partial buffer in place; after a
successful `SerialConnect` and `StartCapture`, `capture_bytes` is 0 and the
session is Capturing with a zeroed buffer; the image completed next has as raw
frame exactly the first 1024 bytes delivered by the polls after that
`StartCapture`; and the state after that `StartCapture` is the same whatever
the partial buffer and counters of the aborted session were. -/
theorem restart_after_disconnect_keeps_no_leftover (s : AppState) (k : Nat)
    (hk : s.capture_bytes = (k : Int)) (portName : String) (handle : Nat) (wr : WriteResult)
    (s2 : AppState)
    (hs2 : s2 = (StartCapture (SerialConnect (SerialDisconnect s).1 portName
      (.configured handle)).1 wr).1) :
    (SerialDisconnect s).1.is_capturing = false ∧
    (SerialDisconnect s).1.capture_bytes = (k : Int) ∧
    (SerialDisconnect s).1.capture_buffer = s.capture_buffer ∧
    s2.is_capturing = true ∧ s2.capture_bytes = 0 ∧ s2.capture_buffer = mkArray 1024 0 ∧
    (∀ (rds : List ReadResult) (rd : ReadResult) (t1 t : AppState) (ops : List LinkOp),
      polls s2 rds = some t1 → t1.is_capturing = true →
      UpdateCapture t1 rd = some (t, ops) → t.capture_bytes = 1024 →
      ∃ ss, t.screenshots = s.screenshots ++ [ss] ∧
        ss.raw_bitmap.toList = (received (rds ++ [rd])).take 1024) ∧
    (∀ (buf : Array Nat) (bytes progress retries : Int),
      (StartCapture (SerialConnect (SerialDisconnect
        { s with capture_buffer := buf, capture_bytes := bytes, capture_progress := progress,
                 capture_retries := retries }).1 portName (.configured handle)).1 wr).1 = s2) := by
  have hconn : (SerialConnect (SerialDisconnect s).1 portName
      (.configured handle)).1.is_connected = true := rfl
  have hidle : (SerialConnect (SerialDisconnect s).1 portName
      (.configured handle)).1.is_capturing = false := rfl
  have hacc0 : Accumulated [] s2 := by
    rw [hs2]; exact Accumulated_after_start _ hconn hidle wr
  refine ⟨rfl, hk, rfl, hacc0.1, by rw [hs2]; rfl, by rw [hs2]; rfl, ?_,
    fun buf bytes progress retries => ?_⟩
  · intro rds rd t1 t ops hp hcap1 hupd hfull
    obtain ⟨hacc1, hshots1, -⟩ := polls_accumulate rds [] s2 t1 hacc0 hp hcap1
    obtain ⟨u, ops1, hupd1, -, hdone⟩ := poll_accumulates _ t1 hacc1 rd
    rw [hupd] at hupd1
    have hu : t = u := congrArg Prod.fst (Option.some.inj hupd1)
    subst hu
    obtain ⟨-, ss, hss, hraw, -⟩ := hdone hfull
    refine ⟨ss, ?_, ?_⟩
    · rw [hss, hshots1, hs2, StartCapture_connected_idle _ hconn hidle wr]; rfl
    · rw [hraw, received_append, List.nil_append]
  · rw [hs2]; rfl

theorem restart_after_disconnect_keeps_no_leftover_witness :
    examplePartial.is_capturing = true ∧ examplePartial.capture_bytes = ((5 : Nat) : Int) ∧
    (SerialDisconnect examplePartial).1.capture_bytes = ((5 : Nat) : Int) ∧
    (StartCapture (SerialConnect (SerialDisconnect examplePartial).1 "COM4"
      (.configured 9)).1 ⟨true, 2⟩).1.capture_bytes = 0 :=
  have h := restart_after_disconnect_keeps_no_leftover examplePartial 5 rfl "COM4" 9 ⟨true, 2⟩
    _ rfl
  ⟨rfl, rfl, h.2.1, h.2.2.2.2.1⟩

/-- C17: in a Capturing state with `capture_bytes = b < 1024`, a read that
delivers `n` bytes, `1 ≤ n ≤ 256`, puts the first `m = min (n, 1024 - b)` of
them at buffer positions `b .. b+m-1`, leaves every other position as it was,
and sets `capture_bytes = b + m` and `capture_retries = 0`.  Hence an image
completed after `StartCapture` has as raw frame exactly the first 1024 bytes
delivered since that `StartCapture`. -/
theorem data_poll_copies_first_bytes (s : AppState) (hcap : s.is_capturing = true)
    (hsz : s.capture_buffer.size = 1024) (b : Nat) (hb : s.capture_bytes = (b : Int))
    (hb1 : b < 1024) (rd : ReadResult) (hok : rd.ok = true) (hn1 : 1 ≤ rd.data.size)
    (hn2 : rd.data.size ≤ 256) :
    (∃ t ops, UpdateCapture s rd = some (t, ops) ∧
      t.capture_buffer.size = 1024 ∧
      (∀ j, b ≤ j → j < b + min rd.data.size (1024 - b) →
        t.capture_buffer[j]? = rd.data[j - b]?) ∧
      (∀ j, j < b ∨ b + min rd.data.size (1024 - b) ≤ j →
        t.capture_buffer[j]? = s.capture_buffer[j]?) ∧
      t.capture_bytes = ((b + min rd.data.size (1024 - b) : Nat) : Int) ∧
      t.capture_retries = 0) ∧
    (∀ (s0 : AppState) (wr : WriteResult) (rds : List ReadResult) (rd1 : ReadResult)
        (t1 t : AppState) (ops : List LinkOp),
      s0.is_connected = true → s0.is_capturing = false →
      polls (StartCapture s0 wr).1 rds = some t1 → t1.is_capturing = true →
      UpdateCapture t1 rd1 = some (t, ops) → t.capture_bytes = 1024 →
      ∃ ss, t.screenshots = s0.screenshots ++ [ss] ∧
        ss.raw_bitmap.toList = (received (rds ++ [rd1])).take 1024) := by
  constructor
  · obtain ⟨buf, hbufsz, hbufj, hupd⟩ := UpdateCapture_data s rd hcap hsz b hb hb1 hok (by omega)
    have hm : min (min rd.data.size 256) (1024 - b) = min rd.data.size (1024 - b) := by omega
    rw [hm] at hupd hbufj
    have hbuf1 : ∀ j, b ≤ j → j < b + min rd.data.size (1024 - b) →
        buf[j]? = rd.data[j - b]? := fun j h1 h2 => by rw [hbufj j, if_pos ⟨h1, h2⟩]
    have hbuf2 : ∀ j, j < b ∨ b + min rd.data.size (1024 - b) ≤ j →
        buf[j]? = s.capture_buffer[j]? := fun j h => by rw [hbufj j, if_neg (by omega)]
    by_cases hlt : b + min rd.data.size (1024 - b) < 1024
    · rw [if_pos hlt] at hupd
      exact ⟨_, _, hupd, hbufsz, hbuf1, hbuf2, rfl, rfl⟩
    · rw [if_neg hlt] at hupd
      obtain ⟨out, -, hfin⟩ := finishCapture_spec
        { s with capture_buffer := buf
                 capture_bytes := ((b + min rd.data.size (1024 - b) : Nat) : Int)
                 capture_progress := ((b + min rd.data.size (1024 - b) : Nat) : Int) * 100 / 1024
                 capture_retries := 0 } hbufsz
      rw [hfin] at hupd
      exact ⟨_, _, hupd, hbufsz, hbuf1, hbuf2, rfl, rfl⟩
  · intro s0 wr rds rd1 t1 t ops hconn hidle hp hcap1 hupd hfull
    have hstart := Accumulated_after_start s0 hconn hidle wr
    obtain ⟨hacc1, hshots1, -⟩ := polls_accumulate rds [] _ t1 hstart hp hcap1
    obtain ⟨u, ops1, hupd1, -, hdone⟩ := poll_accumulates _ t1 hacc1 rd1
    rw [hupd] at hupd1
    have hu : t = u := congrArg Prod.fst (Option.some.inj hupd1)
    subst hu
    obtain ⟨-, ss, hss, hraw, -⟩ := hdone hfull
    refine ⟨ss, ?_, ?_⟩
    · rw [hss, hshots1, StartCapture_connected_idle s0 hconn hidle wr]
    · rw [hraw, received_append, List.nil_append]

theorem data_poll_copies_first_bytes_witness :
    exampleCapturing.is_capturing = true ∧
    ∃ t ops, UpdateCapture exampleCapturing ⟨true, #[9, 8, 7]⟩ = some (t, ops) ∧
      t.capture_buffer.size = 1024 ∧
      (∀ j, 0 ≤ j → j < 0 + min 3 (1024 - 0) →
        t.capture_buffer[j]? = (#[9, 8, 7] : Array Nat)[j - 0]?) ∧
      (∀ j, j < 0 ∨ 0 + min 3 (1024 - 0) ≤ j →
        t.capture_buffer[j]? = exampleCapturing.capture_buffer[j]?) ∧
      t.capture_bytes = ((0 + min 3 (1024 - 0) : Nat) : Int) ∧
      t.capture_retries = 0 :=
  ⟨rfl, (data_poll_copies_first_bytes exampleCapturing rfl
    (by simp [exampleCapturing, exampleConnected, StartCapture, SerialConnect, initState,
      BITMAP_SIZE]) 0 rfl (by decide) ⟨true, #[9, 8, 7]⟩ rfl (by decide) (by decide)).1⟩

/-- C20: after `StartCapture` the quantity
`(1024 - capture_bytes) * 100 - capture_retries` is 102400; in every reachable
Capturing state it is positive and every poll, whatever the read returns,
lowers it.  Hence after any 102400 polls the session is no longer Capturing: it
has completed with 1024 bytes or timed out with the retry count at 100. -/
theorem capture_ends_within_102400_polls (s : AppState) (hconn : s.is_connected = true)
    (hidle : s.is_capturing = false) (wr : WriteResult) (rds : List ReadResult)
    (hlen : rds.length = 102400) :
    captureMeasure (StartCapture s wr).1 = 102400 ∧
    (∃ t, polls (StartCapture s wr).1 rds = some t ∧ t.is_capturing = false ∧
      (t.capture_bytes = 1024 ∨ (t.capture_retries = 100 ∧ t.capture_bytes < 1024))) ∧
    (∀ u : AppState, Reachable u → u.is_capturing = true →
      0 < captureMeasure u ∧
      ∀ rd : ReadResult, ∃ v ops, UpdateCapture u rd = some (v, ops) ∧
        captureMeasure v < captureMeasure u) := by
  have hstart := StartCapture_connected_idle s hconn hidle wr
  have hinv : CaptureInv (StartCapture s wr).1 := by
    rw [hstart]
    exact ⟨by simp [BITMAP_SIZE], by simp, by simp, fun _ => by simp, by simp⟩
  have hret : RetryInv (StartCapture s wr).1 := by
    rw [hstart]
    exact ⟨by simp, by simp, fun _ => by simp⟩
  have hcap : (StartCapture s wr).1.is_capturing = true := by rw [hstart]
  have hm : captureMeasure (StartCapture s wr).1 = 102400 := by rw [hstart]; rfl
  refine ⟨hm, ?_, fun u hu hucap => ?_⟩
  · obtain ⟨t, hp, hstill, hdone⟩ := polls_lower_measure rds _ hinv hret hcap
    have hfalse : t.is_capturing = false := by
      cases h : t.is_capturing with
      | false => rfl
      | true =>
        obtain ⟨hle, hi, hr⟩ := hstill h
        have hpos := captureMeasure_pos t hi hr h
        rw [hm, hlen] at hle
        push_cast at hle
        omega
    exact ⟨t, hp, hfalse, hdone hfalse⟩
  · have hi := CaptureInv_of_reachable u hu
    have hr := RetryInv_of_reachable u hu
    refine ⟨captureMeasure_pos u hi hr hucap, fun rd => ?_⟩
    obtain ⟨v, ops, hupd, -, -, hlt, -⟩ := poll_lowers_measure u hi hr hucap rd
    exact ⟨v, ops, hupd, hlt⟩

theorem capture_ends_within_102400_polls_witness :
    exampleConnected.is_connected = true ∧ exampleConnected.is_capturing = false ∧
    (List.replicate 102400 (⟨true, #[]⟩ : ReadResult)).length = 102400 ∧
    ∃ t, polls (StartCapture exampleConnected ⟨true, 2⟩).1
        (List.replicate 102400 ⟨true, #[]⟩) = some t ∧ t.is_capturing = false ∧
      (t.capture_bytes = 1024 ∨ (t.capture_retries = 100 ∧ t.capture_bytes < 1024)) :=
  ⟨rfl, rfl, List.length_replicate _ _,
    (capture_ends_within_102400_polls exampleConnected rfl rfl ⟨true, 2⟩
      (List.replicate 102400 ⟨true, #[]⟩) (List.length_replicate _ _)).2.1⟩

/-! ## Claim on the port list -/

/-- C12: for port names of the form `COM` followed by decimal digits (value
within `int`), the sort step of `EnumerateComPorts` leaves in `com_ports` a
permutation of the names in non-decreasing order of the number after `COM`
(`atoi` of the suffix is that number); the comparator is a strict weak
ordering, as `std::sort` requires; and `COM3, COM10, COM1` becomes
`COM1, COM3, COM10`, which is not the lexicographic order. -/
theorem com_ports_sorted_by_numeric_suffix (names : List String)
    (hform : ∀ n ∈ names, ∃ ds : List Char, n = String.mk ('C' :: 'O' :: 'M' :: ds) ∧
      (∀ ch ∈ ds, ch.isDigit = true) ∧ decimalValue ds < 2 ^ 31) :
    (∀ s : AppState,
      (EnumerateComPorts s (some (names.map some))).com_ports = stdSort portLess names) ∧
    List.Perm (stdSort portLess names) names ∧
    List.Pairwise (fun a b => portNumber a ≤ portNumber b) (stdSort portLess names) ∧
    (∀ n ∈ stdSort portLess names, ∃ ds : List Char,
      n = String.mk ('C' :: 'O' :: 'M' :: ds) ∧ portNumber n = (decimalValue ds : Int)) ∧
    ((∀ a, portLess a a = false) ∧
      (∀ a b c, portLess a b = true → portLess b c = true → portLess a c = true) ∧
      (∀ a b c, portLess a b = false → portLess b a = false → portLess b c = false →
        portLess c b = false → portLess a c = false ∧ portLess c a = false)) ∧
    stdSort portLess ["COM3", "COM10", "COM1"] = ["COM1", "COM3", "COM10"] := by
  refine ⟨fun s => ?_, stdSort_portLess_perm names, stdSort_portLess_sorted names,
    fun n hn => ?_, ⟨fun a => ?_, fun a b c => ?_, fun a b c => ?_⟩, by decide⟩
  · have hcom : ∀ n ∈ names, n.toList.take 3 = ['C', 'O', 'M'] := by
      intro n hn
      obtain ⟨ds, hds, -⟩ := hform n hn
      rw [hds]; rfl
    simp only [EnumerateComPorts]
    rw [filter_com_names names hcom]
  · have hmem : n ∈ names := (stdSort_portLess_perm names).mem_iff.mp hn
    obtain ⟨ds, hds, hdig, -⟩ := hform n hmem
    exact ⟨ds, hds, by rw [hds]; exact portNumber_of_digits ds hdig⟩
  · simp [portLess]
  · simp only [portLess, decide_eq_true_eq]; omega
  · simp only [portLess, decide_eq_false_iff_not]; omega

theorem com_ports_sorted_by_numeric_suffix_witness :
    List.Perm (stdSort portLess ["COM3", "COM10", "COM1"]) ["COM3", "COM10", "COM1"] ∧
    List.Pairwise (fun a b => portNumber a ≤ portNumber b)
      (stdSort portLess ["COM3", "COM10", "COM1"]) ∧
    (EnumerateComPorts initState (some (["COM3", "COM10", "COM1"].map some))).com_ports
      = ["COM1", "COM3", "COM10"] := by
  have h := com_ports_sorted_by_numeric_suffix ["COM3", "COM10", "COM1"] (by
    intro n hn
    simp only [List.mem_cons, List.mem_singleton, List.not_mem_nil, or_false] at hn
    rcases hn with rfl | rfl | rfl
    · exact ⟨['3'], rfl, by decide, by decide⟩
    · exact ⟨['1', '0'], rfl, by decide, by decide⟩
    · exact ⟨['1'], rfl, by decide, by decide⟩)
  exact ⟨h.2.1, h.2.2.1, by rw [h.1 initState, h.2.2.2.2.2]⟩

end RadShot
